import Mathlib

/-!
# SpectrexSDK: ring buffer and audio-to-processing hand-off

A shallow embedding of `include/Spectrex/Utility/RingBuffer.hpp`, of the
producer/consumer core of `src/Spectrex/MiniProcessor.cpp`, of the class
`ProcessorParameters` of `include/Spectrex/Processing/Parameters.hpp` and of
`ceilPower2` of `examples/Viz2DApp/Utility.h`.

Conventions of the embedding

* `size_t` values are natural numbers below `2^64`; every `size_t` operation of
  the source is followed by an explicit reduction modulo `2^64`.  `int` values
  are integers; a conversion to `int` wraps into `[-2^31, 2^31)`.
* `std::vector<T>` is a `List T`.  An access outside the vector is undefined
  behaviour in the source; in the embedding a write outside the list changes
  nothing and a copy outside the list copies nothing.  Division by a zero
  capacity is undefined in the source as well; the theorems assume a capacity
  of at least one.
* A `double` is a rational number, an infinity or a NaN.  The body of the
  processing loop runs under `juce::ScopedNoDenormals`, which is embedded as
  the flush-to-zero and denormals-are-zero mode of the x86-64 SSE unit: the
  comparisons and the subtraction of `run()` read a subnormal operand as zero,
  and the subtraction rounds to the nearest `double`.
* The destination pointer `dst` of `read` is the list of the copied elements,
  in the order of the destination addresses.
* A loop or a recursion of the source that need not terminate carries a bound
  on its depth and returns `none` when the bound is exhausted; the theorems
  show that the bound used is enough.
* The closed-source `KProcessor` is a parameter: a record of functions on an
  engine state.  Every call into it is appended to a log, with its arguments
  and its result, and so is every timed wait of the processing thread.
* The sample counters of `processBlock` are natural numbers; a block is
  assumed short enough for the `int` counters of the source not to overflow.
* The audio thread and the processing thread interleave at the granularity of
  one `processBlock` call and one iteration of the processing loop.
* `KASSERT` is `assert`: a function with an assertion that fails returns `none`.
  The map of `ProcessorParameters` is a function from the keys to its entries.
-/

namespace spectrex

/-! ## Machine integers -/

/-- Number of values of a `size_t` (64 bit). -/
def sizeModulus : Nat := 2 ^ 64

/-- Conversion of an integer value to `size_t`: reduction modulo `2^64`. -/
def toSizeT (i : Int) : Nat := (i % (2 ^ 64 : Int)).toNat

/-- Conversion of an integer value to `uint32_t`: reduction modulo `2^32`. -/
def toUInt32 (i : Int) : Nat := (i % (2 ^ 32 : Int)).toNat

/-- Conversion of an integer value to `int` (32 bit, wrapping). -/
def toInt32 (i : Int) : Int :=
  if i % (2 ^ 32 : Int) < 2 ^ 31 then i % (2 ^ 32 : Int) else i % (2 ^ 32 : Int) - 2 ^ 32

/-! ## RingBuffer -/

/-- The class `RingBuffer<T>`: `m_capacity`, `m_buffer`, `m_head`, `m_tail`. -/
structure RingBuffer (T : Type) where
  m_capacity : Nat
  m_buffer : List T
  m_head : Nat
  m_tail : Nat
deriving DecidableEq, Repr

namespace RingBuffer

variable {T : Type}

/-- The constructor `RingBuffer(capacity, defaultValue)`. -/
def construct (capacity : Nat) (defaultValue : T) : RingBuffer T :=
  { m_capacity := capacity
    m_buffer := List.replicate capacity defaultValue
    m_head := 0
    m_tail := 0 }

/-- The function `reset()`: both indices to zero and `m_buffer.clear()`, after
which the vector has no element. -/
def reset (rb : RingBuffer T) : RingBuffer T :=
  { rb with m_tail := 0, m_head := 0, m_buffer := [] }

/-- The function `getPreviousValue(output)`: `m_buffer[(m_head - 1) % m_capacity]`, the
subtraction in `size_t`. -/
def getPreviousValue (rb : RingBuffer T) : Option T :=
  rb.m_buffer[toSizeT ((rb.m_head : Int) - 1) % rb.m_capacity]?

/-- The function `resetIndices()`. -/
def resetIndices (rb : RingBuffer T) : RingBuffer T :=
  { rb with m_tail := 0, m_head := 0 }

/-- The function `advance(offset)`: the `int` offset is converted to `size_t` for the sum. -/
def advance (rb : RingBuffer T) (offset : Int) : RingBuffer T :=
  if rb.m_capacity > 0 then
    { rb with m_head := toSizeT ((rb.m_head : Int) + toSizeT offset) % rb.m_capacity }
  else rb

/-- The function `skip(n)`. -/
def skip (rb : RingBuffer T) (n : Int) : RingBuffer T :=
  { rb with m_tail := toSizeT ((rb.m_tail : Int) + toSizeT n) % rb.m_capacity }

/-- The function `push(value)`.  The store `m_buffer[m_head] = value` is
embedded for a head inside the elements of the vector; outside of them the
source has no defined behaviour and the embedding leaves the storage as it
is.  What is proved about the values stored and read is proved for a storage
of `m_capacity` elements. -/
def push (rb : RingBuffer T) (value : T) : RingBuffer T :=
  { rb with
    m_buffer := rb.m_buffer.set rb.m_head value
    m_head := toSizeT ((rb.m_head : Int) + 1) % rb.m_capacity }

/-- The body of `read(dst, n)` with a bound on the depth of the recursion; the
result is the list of the elements copied to `dst` and the buffer afterwards,
or `none` when the bound is exhausted.  The `memcpy` is embedded for a range
inside the elements of the vector; outside of them the source has no defined
behaviour and the embedding copies the elements that exist. -/
def readAux : Nat → RingBuffer T → Int → Option (List T × RingBuffer T)
  | 0, _, _ => none
  | fuel + 1, rb, n =>
    let nCopy := min (toSizeT ((rb.m_capacity : Int) - rb.m_tail)) (toSizeT n)
    let chunk := (rb.m_buffer.drop rb.m_tail).take nCopy
    let rb1 : RingBuffer T :=
      { rb with m_tail := toSizeT ((rb.m_tail : Int) + nCopy) % rb.m_capacity }
    if n > 0 then
      let n1 := toInt32 ((toSizeT n : Int) - nCopy)
      match readAux fuel rb1 n1 with
      | none => none
      | some (rest, rb2) => some (chunk ++ rest, rb2)
    else
      some (chunk, rb1)

/-- The function `read(dst, n)`: the recursion of the source run to a depth of `n + 1`, which
is enough whenever the tail index is inside the buffer. -/
def read (rb : RingBuffer T) (n : Int) : Option (List T × RingBuffer T) :=
  readAux (n.toNat + 1) rb n

/-- The function `getReadSpace()`: the differences are computed in `size_t` and stored in an
`int`. -/
def getReadSpace (rb : RingBuffer T) : Int :=
  if rb.m_head > rb.m_tail then
    toInt32 (toSizeT ((rb.m_head : Int) - rb.m_tail))
  else if rb.m_head < rb.m_tail then
    toInt32 (toSizeT ((toSizeT ((rb.m_head : Int) + rb.m_capacity) : Int) - rb.m_tail))
  else
    0

/-- One operation of a client of the ring buffer. -/
inductive Op (T : Type) where
  | push (value : T)
  | read (n : Int)

/-- Runs a sequence of operations; returns the concatenation of what the reads
copied out and the final buffer. -/
def exec (rb : RingBuffer T) : List (Op T) → Option (List T × RingBuffer T)
  | [] => some ([], rb)
  | Op.push v :: ops => exec (rb.push v) ops
  | Op.read n :: ops =>
    match rb.read n with
    | none => none
    | some (out, rb1) =>
      match exec rb1 ops with
      | none => none
      | some (rest, rb2) => some (out ++ rest, rb2)

/-- The values pushed by a sequence of operations, in order. -/
def pushed : List (Op T) → List T
  | [] => []
  | Op.push v :: ops => v :: pushed ops
  | Op.read _ :: ops => pushed ops

/-- The number of elements that the reads of a sequence of operations ask for. -/
def requested : List (Op T) → Nat
  | [] => 0
  | Op.push _ :: ops => requested ops
  | Op.read n :: ops => n.toNat + requested ops

/-- The discipline of the FIFO contract, checked along the run: `unread` counts
the pushed-but-unread elements; after a push it must stay below the capacity,
and a read asks for `0 ≤ n ≤ getReadSpace()`. -/
def admissible (rb : RingBuffer T) (unread : Nat) : List (Op T) → Bool
  | [] => true
  | Op.push v :: ops =>
    decide (unread + 1 < rb.m_capacity) && admissible (rb.push v) (unread + 1) ops
  | Op.read n :: ops =>
    decide (0 ≤ n) && decide (n ≤ rb.getReadSpace) &&
      match rb.read n with
      | none => true
      | some (_, rb1) => admissible rb1 (unread - n.toNat) ops

/-- Pushes the values of a list, first to last. -/
def pushAll (rb : RingBuffer T) : List T → RingBuffer T
  | [] => rb
  | v :: vs => pushAll (rb.push v) vs

/-- Performs `M` reads of one element each, discarding what is read. -/
def readOnes : Nat → RingBuffer T → Option (RingBuffer T)
  | 0, rb => some rb
  | M + 1, rb =>
    match rb.read 1 with
    | none => none
    | some (_, rb1) => readOnes M rb1

/-- The buffer holds exactly the unread values `q`, oldest first. -/
def Holds (rb : RingBuffer T) (q : List T) : Prop :=
  0 < rb.m_capacity ∧ rb.m_capacity < 2 ^ 64 ∧ rb.m_buffer.length = rb.m_capacity ∧
    rb.m_tail < rb.m_capacity ∧ q.length < rb.m_capacity ∧
    rb.m_head = (rb.m_tail + q.length) % rb.m_capacity ∧
    ∀ i, i < q.length → rb.m_buffer[(rb.m_tail + i) % rb.m_capacity]? = q[i]?

end RingBuffer

/-! ## Floating point values

A `double` (and a `float`) is a rational number, an infinity or a NaN; the two
zeros are one value.  The comparisons, `isfinite`, `abs` and `fmod` of IEEE 754
are exact and are embedded as such.

The body of the processing loop runs under `juce::ScopedNoDenormals`, which is
embedded as the flush-to-zero and denormals-are-zero mode of the x86-64 SSE
unit: an arithmetic or comparison instruction reads a subnormal operand as
zero, and an arithmetic result that is tiny after rounding is replaced by
zero.  The subtraction, the comparisons and the narrowing to `float` of
`run()` are embedded in that mode (`sub`, `ltz`, `gtz`, `eqz`, `toFloat`), the
subtraction with its rounding to the nearest `double`.  The functions `abs`,
`isfinite` and `fmod` work on the representation and are not affected by the
mode.  The narrowing of a `double` argument to a `float` parameter of the
engine is not embedded: a logged call carries the value of the argument
expression. -/

/-- The values of a `double`. -/
inductive Dbl where
  | fin (q : ℚ)
  | pinf
  | ninf
  | nan
deriving DecidableEq

namespace Dbl

/-- The operation `isfinite(x)`. -/
def isfinite : Dbl → Bool
  | fin _ => true
  | _ => false

/-- The operation `x < y`; false when either operand is a NaN. -/
def lt : Dbl → Dbl → Bool
  | fin a, fin b => decide (a < b)
  | fin _, pinf => true
  | ninf, fin _ => true
  | ninf, pinf => true
  | _, _ => false

/-- The operation `x > y`. -/
def gt (x y : Dbl) : Bool := lt y x

/-- The operation `x <= y`; false when either operand is a NaN. -/
def le : Dbl → Dbl → Bool
  | fin a, fin b => decide (a ≤ b)
  | fin _, pinf => true
  | ninf, fin _ => true
  | ninf, pinf => true
  | pinf, pinf => true
  | ninf, ninf => true
  | _, _ => false

/-- The operation `x == y`; false when either operand is a NaN. -/
def eq : Dbl → Dbl → Bool
  | fin a, fin b => decide (a = b)
  | pinf, pinf => true
  | ninf, ninf => true
  | _, _ => false

/-- The operation `abs(x)`. -/
def abs : Dbl → Dbl
  | fin a => fin |a|
  | pinf => pinf
  | ninf => pinf
  | nan => nan

/-- The integer part of a rational number, rounded toward zero. -/
def trunc (q : ℚ) : Int := if 0 ≤ q then ⌊q⌋ else ⌈q⌉

/-- The operation `fmod(x, y)`: `x - n * y` with `n` the quotient `x / y` rounded toward zero;
a NaN for an infinite `x`, for a zero `y` and for a NaN operand; `x` itself for
a finite `x` and an infinite `y`. -/
def fmod : Dbl → Dbl → Dbl
  | fin a, fin b => if b = 0 then nan else fin (a - (trunc (a / b) : ℚ) * b)
  | fin a, pinf => fin a
  | fin a, ninf => fin a
  | _, _ => nan

/-- The power `2^e` of an integer exponent, as a rational number. -/
def pow2 (e : Int) : ℚ :=
  if 0 ≤ e then ((2 ^ e.toNat : Nat) : ℚ) else 1 / ((2 ^ (-e).toNat : Nat) : ℚ)

/-- The least positive normal `double`, `2^-1022`. -/
def minNormal : ℚ := pow2 (-1022)

/-- The integer part of the binary logarithm of a natural number, by repeated
halving, with a bound on the number of steps. -/
def log2Aux : Nat → Nat → Nat
  | 0, _ => 0
  | fuel + 1, n => if n ≤ 1 then 0 else log2Aux fuel (n / 2) + 1

/-- The integer part of the binary logarithm of a natural number `n ≥ 1`. -/
def log2Nat (n : Nat) : Nat := log2Aux n n

/-- The integer part of the binary logarithm of a positive rational number: the
`e` with `2^e ≤ a < 2^(e+1)`, which is the difference of the logarithms of the
numerator and of the denominator or one less. -/
def log2Floor (a : ℚ) : Int :=
  if pow2 ((log2Nat a.num.natAbs : Int) - (log2Nat a.den : Int)) ≤ a
  then (log2Nat a.num.natAbs : Int) - (log2Nat a.den : Int)
  else (log2Nat a.num.natAbs : Int) - (log2Nat a.den : Int) - 1

/-- Rounding of a rational number that is not negative to the nearest integer,
a tie going to the even one. -/
def roundHalfEven (x : ℚ) : Int :=
  if x - (⌊x⌋ : ℚ) < 1 / 2 then ⌊x⌋
  else if 1 / 2 < x - (⌊x⌋ : ℚ) then ⌊x⌋ + 1
  else if ⌊x⌋ % 2 = 0 then ⌊x⌋ else ⌊x⌋ + 1

/-- The rounding of an exact result in the flush-to-zero mode, for a binary
format of `prec` significant bits and normal exponents from `emin` to `emax`:
round to nearest with an unbounded exponent, ties to even; a result below
`2^emin` in magnitude is replaced by zero, one from `2^(emax+1)` on by an
infinity. -/
def roundFlush (prec : Nat) (emin emax : Int) (q : ℚ) : Dbl :=
  if q = 0 then fin 0
  else
    let ulp := pow2 (log2Floor |q| - (prec : Int) + 1)
    let r := (roundHalfEven (|q| / ulp) : ℚ) * ulp
    if r < pow2 emin then fin 0
    else if pow2 (emax + 1) ≤ r then (if 0 < q then pinf else ninf)
    else fin (if 0 < q then r else -r)

/-- A `double` operand as an instruction reads it in the denormals-are-zero
mode: a subnormal number is read as zero. -/
def daz : Dbl → Dbl
  | fin q => if |q| < minNormal then fin 0 else fin q
  | pinf => pinf
  | ninf => ninf
  | nan => nan

/-- The operation `x - y` on `double` under `ScopedNoDenormals`: the operands read
with `daz`, the difference rounded to the nearest `double` and flushed. -/
def sub (x y : Dbl) : Dbl :=
  match daz x, daz y with
  | fin a, fin b => roundFlush 53 (-1022) 1023 (a - b)
  | fin _, pinf => ninf
  | fin _, ninf => pinf
  | pinf, fin _ => pinf
  | pinf, ninf => pinf
  | ninf, fin _ => ninf
  | ninf, pinf => ninf
  | _, _ => nan

/-- The operation `x < y` on `double` under `ScopedNoDenormals`. -/
def ltz (x y : Dbl) : Bool := lt (daz x) (daz y)

/-- The operation `x > y` on `double` under `ScopedNoDenormals`. -/
def gtz (x y : Dbl) : Bool := ltz y x

/-- The operation `x == y` on `double` under `ScopedNoDenormals`. -/
def eqz (x y : Dbl) : Bool := eq (daz x) (daz y)

/-- The conversion of a `double` to a `float` under `ScopedNoDenormals`: 24
significant bits, round to nearest, ties to even; a result below `2^-126` in
magnitude is zero, one from `2^128` on an infinity. -/
def toFloat : Dbl → Dbl
  | fin q => roundFlush 24 (-126) 127 q
  | pinf => pinf
  | ninf => ninf
  | nan => nan

end Dbl

/-! ## The records of the ring buffer and the host transport -/

/-- The struct `MiniProcessor::SyncData`. -/
structure SyncData where
  left : Dbl
  right : Dbl
  noteOn : Bool
  ppqPosition : Dbl
  ppqLoopEnd : Dbl
deriving DecidableEq

/-- The value `SyncData{}` of the default member initialisers. -/
def SyncData.init : SyncData :=
  { left := Dbl.fin 0, right := Dbl.fin 0, noteOn := false,
    ppqPosition := Dbl.fin 0, ppqLoopEnd := Dbl.fin 0 }

/-- The fields of `juce::AudioPlayHead::CurrentPositionInfo` that the source reads. -/
structure CurrentPositionInfo where
  isPlaying : Bool
  bpm : Dbl
  timeSigNumerator : Int
  ppqPosition : Dbl
  isLooping : Bool
  ppqLoopEnd : Dbl
deriving DecidableEq

/-- A `juce::AudioPlayHead`: `getCurrentPosition(result)` fills `result` and
reports success. -/
structure AudioPlayHead where
  getCurrentPosition : CurrentPositionInfo → Bool × CurrentPositionInfo

/-- A `juce::AudioSampleBuffer`: its channels, each of `numSamples` samples. -/
structure AudioSampleBuffer where
  numSamples : Nat
  channels : List (List Dbl)
deriving DecidableEq

namespace AudioSampleBuffer

/-- The function `getNumChannels()`. -/
def getNumChannels (b : AudioSampleBuffer) : Nat := b.channels.length

/-- The function `getReadPointer(channel)[index]`. -/
def sample (b : AudioSampleBuffer) (channel index : Nat) : Dbl :=
  ((b.channels.getD channel []).getD index (Dbl.fin 0))

/-- The function `setSize(newNumChannels, newNumSamples, true)`: the existing content is
kept; the content of a new channel is unspecified in JUCE and is zero here. -/
def setSize (b : AudioSampleBuffer) (newNumChannels newNumSamples : Nat) : AudioSampleBuffer :=
  { numSamples := newNumSamples
    channels := (List.range newNumChannels).map fun c =>
      (List.range newNumSamples).map fun i =>
        if c < b.channels.length ∧ i < b.numSamples then b.sample c i else Dbl.fin 0 }

/-- The function `FloatVectorOperations::copy(getWritePointer(dest), getReadPointer(src), num)`. -/
def copyChannel (b : AudioSampleBuffer) (dest src num : Nat) : AudioSampleBuffer :=
  let copied := (b.channels.getD src []).take num ++ (b.channels.getD dest []).drop num
  { numSamples := b.numSamples, channels := b.channels.set dest copied }

end AudioSampleBuffer

/-! ## The external engine -/

/-- The enumeration `ProcessorParameters::Key`. -/
inductive Key where
  | FtSize | Window | StftOverlap | Bpm | TimeSignatureNumerator | TimeFactor
  | TimeMultiplier | SampleRate | Override | PlayHeadSynced | MixMode | Rotate | Flatten | End
deriving DecidableEq

/-- The enumeration `FtSize`. -/
inductive FtSize where
  | Size256 | Size512 | Size1024 | Size2048 | Size4096 | Size8192
deriving DecidableEq

/-- The member functions of the closed-source `KProcessor` that the hand-off
calls, as functions on an engine state `E`; a parameter of the embedding. -/
structure KProcessor (E : Type) where
  prepare : E → Bool × E
  setParameterFloat : E → Key → Dbl → E
  setParameterInt : E → Key → Int → E
  setParameterFtSize : E → Key → FtSize → E
  resetPosition : E → E
  isInitialPosition : E → Bool
  setAbsolutePosition : E → Dbl → E
  setPlaying : E → Bool → Bool × E
  setPosition : E → Dbl → E
  process : E → List Dbl → List Dbl → Int → E

/-- A call into the engine, with its arguments and its result, or a timed wait
of the processing thread. -/
inductive Event where
  | prepare (result : Bool)
  | setParameterFloat (key : Key) (v : Dbl)
  | setParameterInt (key : Key) (v : Int)
  | setParameterFtSize (key : Key) (v : FtSize)
  | resetPosition
  | isInitialPosition (result : Bool)
  | setAbsolutePosition (ppq : Dbl)
  | setPlaying (enabled : Bool) (result : Bool)
  | setPosition (ppq : Dbl)
  | process (left right : List Dbl) (numChannels : Int)
  | wait (ms : Nat)
deriving DecidableEq

/-! ## MiniProcessor -/

/-- The constant `KProcessor::getExpectedBlockSize()`. -/
def subBlockSize : Nat := 32

/-- The constant `MiniProcessor::k_ringBufferElements`. -/
def k_ringBufferElements : Nat := 4096

/-- The constant `MiniProcessor::k_resyncPpqThreshold`. -/
def k_resyncPpqThreshold : Dbl := Dbl.fin 1

/-- The constant `MiniProcessor::k_PpqInitialState`. -/
def k_PpqInitialState : Dbl := Dbl.fin (-1)

/-- The constant `ProcessingThread::k_processingThreadTimeoutMs`. -/
def k_processingThreadTimeoutMs : Nat := 15

/-- The hard-coded `triggerEnabled` of `processBlock`. -/
def triggerEnabled : Bool := false

/-- The class `MiniProcessor`; `calls` is the log of the calls made into the
engine and of the waits of the processing thread, oldest first. -/
structure MiniProcessor (E : Type) where
  m_processor : E
  m_sampleRate : Dbl
  m_numChannels : Int
  m_ringBuffer : RingBuffer SyncData
  m_playhead : CurrentPositionInfo
  m_playheadValid : Bool
  m_lastTimeInQuarters : Dbl
  m_processingBuffer : AudioSampleBuffer
  calls : List Event

/-- The processing thread inside `run()`: its owner and its local variables. -/
structure ProcessingThread (E : Type) where
  m_owner : MiniProcessor E
  syncDataBlock : List SyncData
  audioSubBlocks0 : List Dbl
  audioSubBlocks1 : List Dbl
  lastPpq : Dbl

/-! ## processBlock (audio thread) -/

/-- The variables that the push loops of `processBlock` update: the ring buffer,
the MIDI iterator (the sample positions of the events not yet fetched) and
`midiSamplePosition`. -/
structure Ingest where
  ringBuffer : RingBuffer SyncData
  midiIt : List Int
  midiSamplePosition : Int

/-- The function `midiIt.getNextEvent(message, midiSamplePosition)` followed by the
invalidation of the sample position when there is no further event. -/
def nextMidiEvent (midiIt : List Int) : List Int × Int :=
  match midiIt with
  | [] => ([], -1)
  | p :: rest => (rest, p)

/-- The body of the inner loop of `processBlock` for the sample `i + j`. -/
def pushSample (pb : AudioSampleBuffer) (numChannels : Int) (ppqPosition ppqLoopEnd : Dbl)
    (i j : Nat) (st : Ingest) : Ingest :=
  let left := pb.sample 0 (i + j)
  let right := if numChannels = 2 then pb.sample 1 (i + j) else Dbl.fin 0
  let hit := decide (st.midiSamplePosition = ((i + j : Nat) : Int)) && triggerEnabled
  let next := if hit then nextMidiEvent st.midiIt else (st.midiIt, st.midiSamplePosition)
  let s : SyncData :=
    { left := left, right := right, noteOn := hit,
      ppqPosition := ppqPosition, ppqLoopEnd := ppqLoopEnd }
  { ringBuffer := st.ringBuffer.push s, midiIt := next.1, midiSamplePosition := next.2 }

/-- The inner loop `for (int j = 0; j < n; ++j)`, entered with `count = n - j`. -/
def pushSamples (pb : AudioSampleBuffer) (numChannels : Int) (ppqPosition ppqLoopEnd : Dbl)
    (i : Nat) : Nat → Nat → Ingest → Ingest
  | 0, _, st => st
  | count + 1, j, st =>
    pushSamples pb numChannels ppqPosition ppqLoopEnd i count (j + 1)
      (pushSample pb numChannels ppqPosition ppqLoopEnd i j st)

/-- The outer loop `for (int i = 0; i < numSamples; i += subBlockSize)`, with a
bound on the number of its iterations. -/
def pushSubBlocks (pb : AudioSampleBuffer) (numChannels : Int) (ppqPosition ppqLoopEnd : Dbl)
    (numSamples : Nat) : Nat → Nat → Ingest → Option Ingest
  | 0, i, st => if i < numSamples then none else some st
  | fuel + 1, i, st =>
    if i < numSamples then
      let n := min subBlockSize (numSamples - i)
      pushSubBlocks pb numChannels ppqPosition ppqLoopEnd numSamples fuel (i + subBlockSize)
        (pushSamples pb numChannels ppqPosition ppqLoopEnd i n 0 st)
    else some st

/-- The copy of the input into `m_processingBuffer`: `makeCopyOf(buffer)` and,
for fewer than two channels, the resize to two channels and the copy of
channel 0 into channel 1. -/
def processingBufferOf (buffer : AudioSampleBuffer) : AudioSampleBuffer :=
  if buffer.getNumChannels < 2 then
    (buffer.setSize 2 buffer.numSamples).copyChannel 1 0 buffer.numSamples
  else buffer

/-- What the block under the playhead mutex of `processBlock` computes: the
new `m_playhead` and `m_playheadValid` and the local `ppqPosition` and
`ppqLoopEnd`. -/
structure Transport where
  playhead : CurrentPositionInfo
  playheadValid : Bool
  ppqPosition : Dbl
  ppqLoopEnd : Dbl

/-- The block under the playhead mutex of `processBlock`; a null `playHead` is
`none`. -/
def readPlayhead (playHead : Option AudioPlayHead) (stored : CurrentPositionInfo) : Transport :=
  match playHead with
  | none =>
    { playhead := stored, playheadValid := false,
      ppqPosition := Dbl.fin 0, ppqLoopEnd := Dbl.pinf }
  | some ph =>
    let r := ph.getCurrentPosition stored
    if r.1 then
      { playhead := r.2, playheadValid := true, ppqPosition := r.2.ppqPosition,
        ppqLoopEnd := if r.2.isLooping then r.2.ppqLoopEnd else Dbl.pinf }
    else
      { playhead := r.2, playheadValid := false,
        ppqPosition := Dbl.fin 0, ppqLoopEnd := Dbl.pinf }

/-- The function `MiniProcessor::processBlock(playHead, buffer, midiMessages)`;
the MIDI buffer is the list of the sample positions of its events.  The
notification of the processing thread is not embedded. -/
def processBlock {E : Type} (playHead : Option AudioPlayHead) (buffer : AudioSampleBuffer)
    (midiMessages : List Int) (m : MiniProcessor E) : Option (MiniProcessor E) :=
  let pb := processingBufferOf buffer
  let numSamples := pb.numSamples
  let numChannels : Int := min 2 (pb.getNumChannels : Int)
  let m1 := { m with m_processingBuffer := pb, m_numChannels := numChannels }
  if numChannels = 0 ∨ numSamples = 0 then some m1
  else
    let tr := readPlayhead playHead m1.m_playhead
    let m2 := { m1 with m_playhead := tr.playhead, m_playheadValid := tr.playheadValid }
    let first := nextMidiEvent midiMessages
    let st0 : Ingest :=
      { ringBuffer := m2.m_ringBuffer, midiIt := first.1, midiSamplePosition := first.2 }
    match pushSubBlocks pb numChannels tr.ppqPosition tr.ppqLoopEnd numSamples numSamples 0 st0 with
    | none => none
    | some st => some { m2 with m_ringBuffer := st.ringBuffer }

/-- The constructor of `MiniProcessor`: `engine` is the state of a newly
constructed `KProcessor`; `playhead` and `playheadValid` are the values of the
members that the constructor does not set. -/
def MiniProcessor.construct {E : Type} (eng : KProcessor E) (engine : E)
    (playhead : CurrentPositionInfo) (playheadValid : Bool) : MiniProcessor E :=
  { m_processor := eng.setParameterFtSize engine Key.FtSize FtSize.Size256
    m_sampleRate := Dbl.fin 0
    m_numChannels := 0
    m_ringBuffer := RingBuffer.construct (subBlockSize * k_ringBufferElements) SyncData.init
    m_playhead := playhead
    m_playheadValid := playheadValid
    m_lastTimeInQuarters := Dbl.fin 0
    m_processingBuffer := { numSamples := 0, channels := [] }
    calls := [Event.setParameterFtSize Key.FtSize FtSize.Size256] }

/-- The function `MiniProcessor::getLastPosInQtrs()`. -/
def MiniProcessor.getLastPosInQtrs {E : Type} (m : MiniProcessor E) : Dbl :=
  m.m_lastTimeInQuarters

/-! ## ProcessingThread::run (processing thread) -/

namespace ProcessingThread

variable {E : Type}

/-- The thread at the entry of the processing loop of `run()`. -/
def start (owner : MiniProcessor E) : ProcessingThread E :=
  { m_owner := owner
    syncDataBlock := List.replicate subBlockSize SyncData.init
    audioSubBlocks0 := List.replicate subBlockSize (Dbl.fin 0)
    audioSubBlocks1 := List.replicate subBlockSize (Dbl.fin 0)
    lastPpq := k_PpqInitialState }

/-- Appends an event to the log of the owner and installs the engine state. -/
def call (t : ProcessingThread E) (engine : E) (ev : Event) : ProcessingThread E :=
  { t with m_owner := { t.m_owner with m_processor := engine, calls := t.m_owner.calls ++ [ev] } }

/-- The unpack loop `for (int i = 0; i < subBlockSize; ++i)`, entered with
`count = subBlockSize - i`. -/
def unpack (eng : KProcessor E) : Nat → Nat → ProcessingThread E → ProcessingThread E
  | 0, _, t => t
  | count + 1, i, t =>
    let s := t.syncDataBlock.getD i SyncData.init
    let t1 := { t with
      audioSubBlocks0 := t.audioSubBlocks0.set i s.left
      audioSubBlocks1 := t.audioSubBlocks1.set i s.right }
    let t2 := if s.noteOn then
        t1.call (eng.resetPosition t1.m_owner.m_processor) Event.resetPosition
      else t1
    unpack eng count (i + 1) t2

/-- The loop modulo: `isfinite(ppqLoopEnd) && ppqLoopEnd > 0 ? fmod(ppqPosition,
ppqLoopEnd) : ppqPosition`, the comparison under `ScopedNoDenormals`. -/
def loopWrap (ppqPosition ppqLoopEnd : Dbl) : Dbl :=
  if ppqLoopEnd.isfinite && Dbl.gtz ppqLoopEnd (Dbl.fin 0) then Dbl.fmod ppqPosition ppqLoopEnd
  else ppqPosition

/-- The three tests of the resync condition that precede the engine query, the
subtraction and the comparisons under `ScopedNoDenormals`; the unqualified
`abs` of the source is taken on the `double`. -/
def resyncLocal (lastPpq ppqPosition : Dbl) : Bool :=
  Dbl.gtz (Dbl.abs (Dbl.sub lastPpq ppqPosition)) k_resyncPpqThreshold ||
    Dbl.ltz ppqPosition lastPpq || Dbl.eqz lastPpq k_PpqInitialState

/-- The value of `ppqResync` at its declaration. -/
def resyncCondition (eng : KProcessor E) (engine : E) (lastPpq ppqPosition : Dbl) : Bool :=
  resyncLocal lastPpq ppqPosition || eng.isInitialPosition engine

/-- The pre-roll clamp applied to `ppqPosition` and `ppqResync`, the comparison
`ppqPosition < 0` under `ScopedNoDenormals`. -/
def preRoll (ppqPosition : Dbl) (ppqResync : Bool) : Dbl × Bool :=
  if Dbl.ltz ppqPosition (Dbl.fin 0) then (Dbl.fin 0, true) else (ppqPosition, ppqResync)

/-- The last record of the sub-block that was read. -/
def lastRecord (t : ProcessingThread E) : SyncData :=
  t.syncDataBlock.getD (subBlockSize - 1) SyncData.init

/-- The loop-wrapped ppq of the sub-block that was read. -/
def wrappedPpq (t : ProcessingThread E) : Dbl :=
  loopWrap (lastRecord t).ppqPosition (lastRecord t).ppqLoopEnd

/-- The ppq of the sub-block after the loop modulo and the pre-roll clamp. -/
def resolvedPpq (eng : KProcessor E) (t : ProcessingThread E) : Dbl :=
  (preRoll (wrappedPpq t) (resyncCondition eng t.m_owner.m_processor t.lastPpq (wrappedPpq t))).1

/-- The value of `ppqResync` where it is used. -/
def resyncFlag (eng : KProcessor E) (t : ProcessingThread E) : Bool :=
  (preRoll (wrappedPpq t) (resyncCondition eng t.m_owner.m_processor t.lastPpq (wrappedPpq t))).2

/-- The block of `run()` that resolves the transport of the sub-block: store of
the last time in quarters, loop modulo, resync condition, pre-roll clamp,
`setAbsolutePosition`, `setPlaying`, `setPosition` and the update of `lastPpq`. -/
def syncTransport (eng : KProcessor E) (isPlaying : Bool) (t : ProcessingThread E) :
    ProcessingThread E :=
  let t1 := if isPlaying then
      { t with m_owner := { t.m_owner with m_lastTimeInQuarters := (lastRecord t).ppqPosition } }
    else t
  let ppqPosition := resolvedPpq eng t1
  let ppqResync := resyncFlag eng t1
  let t2 := if resyncLocal t1.lastPpq (wrappedPpq t1) then t1
    else t1.call t1.m_owner.m_processor
      (Event.isInitialPosition (eng.isInitialPosition t1.m_owner.m_processor))
  let t3 := t2.call (eng.setAbsolutePosition t2.m_owner.m_processor ppqPosition)
    (Event.setAbsolutePosition ppqPosition)
  let changed := eng.setPlaying t3.m_owner.m_processor isPlaying
  let t4 := t3.call changed.2 (Event.setPlaying isPlaying changed.1)
  let t5 := if changed.1 || (isPlaying && ppqResync) then
      t4.call (eng.setPosition t4.m_owner.m_processor ppqPosition) (Event.setPosition ppqPosition)
    else t4
  { t5 with lastPpq := ppqPosition }

/-- The body of the drain loop after the read: unpack, transport, `process`. -/
def processSubBlock (eng : KProcessor E) (isPlaying : Bool) (t : ProcessingThread E) :
    ProcessingThread E :=
  let t1 := unpack eng subBlockSize 0 t
  let t2 := syncTransport eng isPlaying t1
  t2.call
    (eng.process t2.m_owner.m_processor t2.audioSubBlocks0 t2.audioSubBlocks1
      t2.m_owner.m_numChannels)
    (Event.process t2.audioSubBlocks0 t2.audioSubBlocks1 t2.m_owner.m_numChannels)

/-- The read of one sub-block from the ring buffer into `syncDataBlock`. -/
def readSubBlock (t : ProcessingThread E) : Option (ProcessingThread E) :=
  match t.m_owner.m_ringBuffer.read (subBlockSize : Int) with
  | none => none
  | some (out, rb) =>
    some { t with
      m_owner := { t.m_owner with m_ringBuffer := rb }
      syncDataBlock := out ++ t.syncDataBlock.drop out.length }

/-- The drain loop `while (getReadSpace() >= subBlockSize)`, the comparison in
`uint32_t`, with a bound on the number of its iterations. -/
def drain (eng : KProcessor E) (isPlaying : Bool) :
    Nat → ProcessingThread E → Option (ProcessingThread E)
  | 0, _ => none
  | fuel + 1, t =>
    if toUInt32 t.m_owner.m_ringBuffer.getReadSpace ≥ subBlockSize then
      match readSubBlock t with
      | none => none
      | some t1 => drain eng isPlaying fuel (processSubBlock eng isPlaying t1)
    else some t

/-- The timed wait at the end of an iteration of the processing loop. -/
def wait (t : ProcessingThread E) : ProcessingThread E :=
  t.call t.m_owner.m_processor (Event.wait k_processingThreadTimeoutMs)

/-- The copy of the playhead under the mutex in `run()`: `isPlaying`, `bpm` and
`timeSigNumerator`; `toFloat` is the narrowing of a `double` to a `float`. -/
def snapshot (toFloat : Dbl → Dbl) (t : ProcessingThread E) : Bool × Dbl × Int :=
  if t.m_owner.m_playheadValid then
    (t.m_owner.m_playhead.isPlaying, toFloat t.m_owner.m_playhead.bpm,
      t.m_owner.m_playhead.timeSigNumerator)
  else (true, Dbl.fin 0, 0)

/-- The two `setParameter` calls for the non-critical playhead variables.  The
test `bpm > 0.0f` is on the narrowed `float`, which is never subnormal as the
narrowing `Dbl.toFloat` gives it, so that the comparison is the exact one. -/
def pushParameters (eng : KProcessor E) (bpm : Dbl) (timeSigNumerator : Int)
    (t : ProcessingThread E) : ProcessingThread E :=
  let t1 := if Dbl.gt bpm (Dbl.fin 0) then
      t.call (eng.setParameterFloat t.m_owner.m_processor Key.Bpm bpm)
        (Event.setParameterFloat Key.Bpm bpm)
    else t
  if timeSigNumerator > 0 then
    t1.call (eng.setParameterInt t1.m_owner.m_processor Key.TimeSignatureNumerator
      timeSigNumerator) (Event.setParameterInt Key.TimeSignatureNumerator timeSigNumerator)
  else t1

/-- One iteration of the processing loop `while (!threadShouldExit())`.  The
drain loop is run with a bound of one more than the number of whole sub-blocks
in the read space. -/
def iteration (eng : KProcessor E) (toFloat : Dbl → Dbl) (t : ProcessingThread E) :
    Option (ProcessingThread E) :=
  if t.m_owner.m_numChannels > 0 ∧ t.m_owner.m_ringBuffer.getReadSpace > 0 then
    let prepared := eng.prepare t.m_owner.m_processor
    let t1 := t.call prepared.2 (Event.prepare prepared.1)
    if !prepared.1 then some t1
    else
      let snap := snapshot toFloat t1
      let t2 := pushParameters eng snap.2.1 snap.2.2 t1
      match drain eng snap.1
          (toUInt32 t2.m_owner.m_ringBuffer.getReadSpace / subBlockSize + 1) t2 with
      | none => none
      | some t3 => some (wait t3)
  else some (wait t)

end ProcessingThread

/-! ## Observations on the log and on runs of the processing thread -/

/-- The state of the stand-in engine: the play state and whether the position
is still the initial one. -/
structure DemoState where
  playing : Bool
  initial : Bool
deriving DecidableEq

/-- A stand-in for the closed-source engine, used to run the embedding on
concrete inputs: `prepare` succeeds, `setPlaying` reports a change of the play
state, `setPosition` leaves the initial position and `resetPosition` returns to
it. -/
def demoEngine : KProcessor DemoState :=
  { prepare := fun e => (true, e)
    setParameterFloat := fun e _ _ => e
    setParameterInt := fun e _ _ => e
    setParameterFtSize := fun e _ _ => e
    resetPosition := fun e => { e with initial := true }
    isInitialPosition := fun e => e.initial
    setAbsolutePosition := fun e _ => e
    setPlaying := fun e b => (b != e.playing, { e with playing := b })
    setPosition := fun e _ => { e with initial := false }
    process := fun e _ _ _ => e }

/-- A newly constructed `MiniProcessor` around the stand-in engine. -/
def demoProcessor : MiniProcessor DemoState :=
  MiniProcessor.construct demoEngine { playing := false, initial := true }
    { isPlaying := false, bpm := Dbl.fin 0, timeSigNumerator := 0, ppqPosition := Dbl.fin 0,
      isLooping := false, ppqLoopEnd := Dbl.fin 0 } false

/-- A sub-block of 32 silent records that all carry the given transport. -/
def subBlockOf (ppqPosition ppqLoopEnd : Dbl) : List SyncData :=
  List.replicate subBlockSize
    { left := Dbl.fin 0, right := Dbl.fin 0, noteOn := false,
      ppqPosition := ppqPosition, ppqLoopEnd := ppqLoopEnd }

/-- The arguments of the `setPosition` calls of a log. -/
def setPositionArgs (evs : List Event) : List Dbl :=
  evs.filterMap fun ev => match ev with
    | Event.setPosition p => some p
    | _ => none

/-- The `setPlaying` calls of a log: argument and result. -/
def setPlayingCalls (evs : List Event) : List (Bool × Bool) :=
  evs.filterMap fun ev => match ev with
    | Event.setPlaying b r => some (b, r)
    | _ => none

/-- The left arrays of the `process` calls of a log, concatenated. -/
def processedLeft (evs : List Event) : List Dbl :=
  (evs.filterMap fun ev => match ev with
    | Event.process l _ _ => some l
    | _ => none).flatten

/-- The right arrays of the `process` calls of a log, concatenated. -/
def processedRight (evs : List Event) : List Dbl :=
  (evs.filterMap fun ev => match ev with
    | Event.process _ r _ => some r
    | _ => none).flatten

namespace ProcessingThread

variable {E : Type}

/-- The events that were logged between two states of the thread. -/
def newCalls (before after : ProcessingThread E) : List Event :=
  after.m_owner.calls.drop before.m_owner.calls.length

/-- The thread with a sub-block read into `syncDataBlock`. -/
def withBlock (t : ProcessingThread E) (block : List SyncData) : ProcessingThread E :=
  { t with syncDataBlock := block }

/-- The thread after it has processed the given sub-blocks, each with the play
state that the iteration saw. -/
def feed (eng : KProcessor E) : ProcessingThread E → List (Bool × List SyncData) →
    ProcessingThread E
  | t, [] => t
  | t, (isPlaying, block) :: rest => feed eng (processSubBlock eng isPlaying (t.withBlock block)) rest

/-- The thread at the point where the resync condition of `block` is
evaluated, `block` being processed after `steps` from the start of `run()`. -/
def atResync (eng : KProcessor E) (owner : MiniProcessor E) (steps : List (Bool × List SyncData))
    (block : List SyncData) : ProcessingThread E :=
  unpack eng subBlockSize 0 ((feed eng (start owner) steps).withBlock block)

/-- The thread of the stand-in engine that has read a sub-block at the negative
subnormal position `-2^-1060`, with no loop, after it processed a first
sub-block at position 0 while playing. -/
def subnormalPreRoll : ProcessingThread DemoState :=
  (feed demoEngine (start demoProcessor) [(true, subBlockOf (Dbl.fin 0) Dbl.pinf)]).withBlock
    (subBlockOf (Dbl.fin (-(Dbl.pow2 (-1060)))) Dbl.pinf)

/-- The thread of the stand-in engine that has read, as its first sub-block, one
at position 5 with the subnormal loop end `2^-1060`. -/
def subnormalLoop : ProcessingThread DemoState :=
  (start demoProcessor).withBlock (subBlockOf (Dbl.fin 5) (Dbl.fin (Dbl.pow2 (-1060))))

end ProcessingThread

/-! ## Schedules of audio callbacks and iterations of the processing loop -/

/-- One step of a schedule: a `processBlock` call of the audio thread, or one
iteration of the processing loop. -/
inductive Step where
  | block (playHead : Option AudioPlayHead) (buffer : AudioSampleBuffer) (midi : List Int)
  | drain

/-- Runs a schedule, each step as a whole. -/
def runSteps {E : Type} (eng : KProcessor E) (toFloat : Dbl → Dbl) :
    ProcessingThread E → List Step → Option (ProcessingThread E)
  | t, [] => some t
  | t, Step.block playHead buffer midi :: rest =>
    match processBlock playHead buffer midi t.m_owner with
    | none => none
    | some m => runSteps eng toFloat { t with m_owner := m } rest
  | t, Step.drain :: rest =>
    match ProcessingThread.iteration eng toFloat t with
    | none => none
    | some t1 => runSteps eng toFloat t1 rest

/-- The number of samples in the blocks of a schedule. -/
def pushedSamples : List Step → Nat
  | [] => 0
  | Step.block _ buffer _ :: rest => buffer.numSamples + pushedSamples rest
  | Step.drain :: rest => pushedSamples rest

/-- The samples of channel `c` of the blocks of a schedule, concatenated. -/
def inputChannel (c : Nat) : List Step → List Dbl
  | [] => []
  | Step.block _ buffer _ :: rest => buffer.channels.getD c [] ++ inputChannel c rest
  | Step.drain :: rest => inputChannel c rest

/-- Every block of the schedule is stereo: two channels of `numSamples` samples. -/
def stereo : List Step → Bool
  | [] => true
  | Step.block _ buffer _ :: rest =>
    decide (buffer.channels.length = 2) &&
      buffer.channels.all (fun ch => decide (ch.length = buffer.numSamples)) && stereo rest
  | Step.drain :: rest => stereo rest

/-- The ring buffer never holds `capacity` or more unread records along the
schedule: `pushed` counts the records pushed so far and `delivered` those
consumed so far, an iteration of the processing loop consuming every whole
sub-block. -/
def fits (capacity : Nat) : Nat → Nat → List Step → Bool
  | _, _, [] => true
  | pushed, delivered, Step.block _ buffer _ :: rest =>
    decide (pushed + buffer.numSamples < delivered + capacity) &&
      fits capacity (pushed + buffer.numSamples) delivered rest
  | pushed, _, Step.drain :: rest =>
    fits capacity pushed (subBlockSize * (pushed / subBlockSize)) rest

/-- A stereo buffer of `n` samples: the ramp `0, 1, 2, ...` on channel 0 and its
negation on channel 1. -/
def demoBuffer (n : Nat) : AudioSampleBuffer :=
  { numSamples := n
    channels := [(List.range n).map fun k => Dbl.fin (k : ℚ),
      (List.range n).map fun k => Dbl.fin (-(k : ℚ))] }

/-- A schedule on the stand-in engine: a block of 33 samples, an iteration of
the processing loop, a block of 31 samples and an iteration. -/
def demoSchedule : List Step :=
  [Step.block none (demoBuffer 33) [], Step.drain, Step.block none (demoBuffer 31) [], Step.drain]

/-- The record that `processBlock` pushes for the sample `k` of its buffer. -/
def recordAt (pb : AudioSampleBuffer) (numChannels : Int) (ppqPosition ppqLoopEnd : Dbl)
    (k : Nat) : SyncData :=
  { left := pb.sample 0 k
    right := if numChannels = 2 then pb.sample 1 k else Dbl.fin 0
    noteOn := false
    ppqPosition := ppqPosition
    ppqLoopEnd := ppqLoopEnd }

namespace ProcessingThread
variable {E : Type}

/-- The events of the transport block of one sub-block. -/
def transportEvents (eng : KProcessor E) (isPlaying : Bool) (t : ProcessingThread E) :
    List Event :=
  (if resyncLocal t.lastPpq (wrappedPpq t) then []
    else [Event.isInitialPosition (eng.isInitialPosition t.m_owner.m_processor)]) ++
  [Event.setAbsolutePosition (resolvedPpq eng t),
    Event.setPlaying isPlaying
      (eng.setPlaying (eng.setAbsolutePosition t.m_owner.m_processor (resolvedPpq eng t))
        isPlaying).1] ++
  (if (eng.setPlaying (eng.setAbsolutePosition t.m_owner.m_processor (resolvedPpq eng t))
        isPlaying).1 || (isPlaying && resyncFlag eng t)
    then [Event.setPosition (resolvedPpq eng t)] else [])

/-- A ppq that `lastPpq` can hold after a sub-block whose loop-wrapped ppq was
not a NaN: a value that is no NaN and that the comparison `< 0` of the loop
does not see as negative. -/
def Settled (d : Dbl) : Prop := d ≠ Dbl.nan ∧ Dbl.ltz d (Dbl.fin 0) = false

/-- The part of the thread state that the regrouping depends on: the ring
buffer holds the unread records `q`, and the work buffers have the size of a
sub-block. -/
def Ready (t : ProcessingThread E) (q : List SyncData) : Prop :=
  RingBuffer.Holds t.m_owner.m_ringBuffer q ∧
    t.m_owner.m_ringBuffer.m_capacity = subBlockSize * k_ringBufferElements ∧
    t.syncDataBlock.length = subBlockSize ∧
    t.audioSubBlocks0.length = subBlockSize ∧ t.audioSubBlocks1.length = subBlockSize

end ProcessingThread

/-- The invariant of a schedule run: the thread is ready with the unread
records `q`, `pushed` records were pushed so far, whole sub-blocks only were
delivered to `process`, and the channel count is 2 once a block was seen. -/
def Regrouped {E : Type} (t : ProcessingThread E) (q : List SyncData) (pushed : Nat) : Prop :=
  ProcessingThread.Ready t q ∧
    (t.m_owner.m_numChannels = 2 ∨ (t.m_owner.m_numChannels = 0 ∧ q = [])) ∧
    (processedLeft t.m_owner.calls).length + q.length = pushed ∧
    (processedRight t.m_owner.calls).length = (processedLeft t.m_owner.calls).length ∧
    (processedLeft t.m_owner.calls).length % subBlockSize = 0

/-! ## Further stand-ins and observations -/

/-- The stand-in engine with a `prepare` that fails. -/
def failingEngine : KProcessor DemoState :=
  { demoEngine with prepare := fun e => (false, e) }

/-- A playhead whose `getCurrentPosition` succeeds: playing and looping, 120
bpm, four beats, position `9.5`, loop end `4.0`. -/
def demoPlayHead : AudioPlayHead :=
  { getCurrentPosition := fun _ =>
      (true, { isPlaying := true, bpm := Dbl.fin 120, timeSigNumerator := 4,
               ppqPosition := Dbl.fin (19 / 2), isLooping := true, ppqLoopEnd := Dbl.fin 4 }) }

/-- A playhead whose `getCurrentPosition` succeeds and reports a tempo of
`2^-200` bpm. -/
def slowPlayHead : AudioPlayHead :=
  { getCurrentPosition := fun _ =>
      (true, { isPlaying := true, bpm := Dbl.fin (Dbl.pow2 (-200)), timeSigNumerator := 4,
               ppqPosition := Dbl.fin 0, isLooping := false, ppqLoopEnd := Dbl.fin 0 }) }

/-- A buffer with the one channel given. -/
def monoBuffer (samples : List Dbl) : AudioSampleBuffer :=
  { numSamples := samples.length, channels := [samples] }

/-- The stand-in processor after a `processBlock` call. -/
def demoAfterBlock (playHead : Option AudioPlayHead) (buffer : AudioSampleBuffer) :
    MiniProcessor DemoState :=
  (processBlock playHead buffer [] demoProcessor).getD demoProcessor

/-- The `setParameter` calls of a log. -/
def setParameterCalls (evs : List Event) : List Event :=
  evs.filter fun ev => match ev with
    | Event.setParameterFloat _ _ => true
    | Event.setParameterInt _ _ => true
    | Event.setParameterFtSize _ _ => true
    | _ => false

/-- The records that a `processBlock` call pushes for its `numSamples` samples. -/
def blockRecords (playHead : Option AudioPlayHead) (buffer : AudioSampleBuffer)
    (stored : CurrentPositionInfo) : List SyncData :=
  (List.range buffer.numSamples).map fun k =>
    recordAt (processingBufferOf buffer) 2 (readPlayhead playHead stored).ppqPosition
      (readPlayhead playHead stored).ppqLoopEnd k


/-! ## ProcessorParameters -/

/-- The enumeration `Window`. -/
inductive Window where
  | WindowNone | WindowHann | WindowBlackman
deriving DecidableEq

/-- The enumeration `MixMode`. -/
inductive MixMode where
  | Stereo | Left | Right | Mid | Side
deriving DecidableEq

/-- The types `T` that `setValue<T>` and `getValue<T>` are instantiated with;
`double` stands for a type that no case of `validate` expects. -/
inductive ValueType where
  | float | int | bool | ftSize | window | mixMode | double
deriving DecidableEq

/-- The data of a `ProcessorParameters::Value` that is not null: a value together
with its type `T`. -/
inductive Datum where
  | float (v : Dbl)
  | int (v : Int)
  | bool (v : Bool)
  | ftSize (v : FtSize)
  | window (v : Window)
  | mixMode (v : MixMode)
  | double (v : Dbl)
deriving DecidableEq

/-- The type that `m_getType` of a `Value` reports. -/
def Datum.type : Datum → ValueType
  | Datum.float _ => ValueType.float
  | Datum.int _ => ValueType.int
  | Datum.bool _ => ValueType.bool
  | Datum.ftSize _ => ValueType.ftSize
  | Datum.window _ => ValueType.window
  | Datum.mixMode _ => ValueType.mixMode
  | Datum.double _ => ValueType.double

/-- The value-initialised `T{}`: zero, `false`, or the enumerator of value 0. -/
def ValueType.zero : ValueType → Datum
  | ValueType.float => Datum.float (Dbl.fin 0)
  | ValueType.int => Datum.int 0
  | ValueType.bool => Datum.bool false
  | ValueType.ftSize => Datum.ftSize FtSize.Size256
  | ValueType.window => Datum.window Window.WindowNone
  | ValueType.mixMode => Datum.mixMode MixMode.Stereo
  | ValueType.double => Datum.double (Dbl.fin 0)

/-- The enumerator `Key::First`. -/
def Key.First : Key := Key.FtSize

/-- The function `operator++` on a `Key`: the enumerator of the next value; after
`End` there is none. -/
def Key.next : Key → Option Key
  | Key.FtSize => some Key.Window
  | Key.Window => some Key.StftOverlap
  | Key.StftOverlap => some Key.Bpm
  | Key.Bpm => some Key.TimeSignatureNumerator
  | Key.TimeSignatureNumerator => some Key.TimeFactor
  | Key.TimeFactor => some Key.TimeMultiplier
  | Key.TimeMultiplier => some Key.SampleRate
  | Key.SampleRate => some Key.Override
  | Key.Override => some Key.PlayHeadSynced
  | Key.PlayHeadSynced => some Key.MixMode
  | Key.MixMode => some Key.Rotate
  | Key.Rotate => some Key.Flatten
  | Key.Flatten => some Key.End
  | Key.End => none

/-- The enumerators of `Key`, in the order of their values. -/
def Key.enumerators : List Key :=
  [Key.FtSize, Key.Window, Key.StftOverlap, Key.Bpm, Key.TimeSignatureNumerator, Key.TimeFactor,
    Key.TimeMultiplier, Key.SampleRate, Key.Override, Key.PlayHeadSynced, Key.MixMode, Key.Rotate,
    Key.Flatten, Key.End]

/-- The class `ProcessorParameters`: the map `m_values` from a key to a `Value`,
as a partial function; an entry of `none` is a null `Value`. -/
structure ProcessorParameters where
  m_values : Key → Option (Option Datum)

namespace ProcessorParameters

/-- The function `validate(key, value)`; `none` is the failed `KASSERT` of the
default case. -/
def validate (key : Key) (value : Option Datum) : Option Bool :=
  match key with
  | Key.FtSize => some true
  | Key.Window => some true
  | Key.StftOverlap =>
    match value with
    | some (Datum.float stftOverlap) =>
      some (Dbl.gt stftOverlap (Dbl.fin 0) && Dbl.lt stftOverlap (Dbl.fin 1))
    | _ => some false
  | Key.Bpm =>
    match value with
    | some (Datum.float bpm) => some (Dbl.gt bpm (Dbl.fin 0))
    | _ => some false
  | Key.TimeSignatureNumerator =>
    match value with
    | some (Datum.int timeSignatureNumerator) => some (decide (timeSignatureNumerator > 0))
    | _ => some false
  | Key.TimeFactor =>
    match value with
    | some (Datum.float timeFactor) => some (Dbl.gt timeFactor (Dbl.fin 0))
    | _ => some false
  | Key.TimeMultiplier =>
    match value with
    | some (Datum.float timeMultiplier) => some (Dbl.gt timeMultiplier (Dbl.fin 0))
    | _ => some false
  | Key.SampleRate =>
    match value with
    | some (Datum.float sampleRate) => some (Dbl.gt sampleRate (Dbl.fin 0))
    | _ => some false
  | Key.Override => some true
  | Key.PlayHeadSynced => some true
  | Key.MixMode => some true
  | Key.Rotate => some true
  | Key.Flatten => some true
  | Key.End => none

/-- The function `operator bool()`: `all_of` over the entries of the map. -/
def operatorBool (p : ProcessorParameters) : Bool :=
  Key.enumerators.all fun key =>
    match p.m_values key with
    | none => true
    | some value => value.isSome

/-- The function `hasValue(key)`; `none` is the failed `KASSERT` for a key without
entry. -/
def hasValue (p : ProcessorParameters) (key : Key) : Option Bool :=
  match p.m_values key with
  | none => none
  | some value => some value.isSome

/-- The function `getValue<T>(key)`; `none` is a failed `KASSERT`. -/
def getValue (p : ProcessorParameters) (T : ValueType) (key : Key) : Option Datum :=
  match p.hasValue key with
  | none => none
  | some false => some T.zero
  | some true =>
    match p.m_values key with
    | some (some d) => if d.type = T then some d else none
    | _ => some T.zero

/-- The function `setValue<T>(key, v)`: the result and the object afterwards;
`none` is the failed `KASSERT` for a key without entry. -/
def setValue (p : ProcessorParameters) (key : Key) (v : Datum) :
    Option (Bool × ProcessorParameters) :=
  match p.m_values key with
  | none => none
  | some _ =>
    match validate key (some v) with
    | none => none
    | some false => some (false, p)
    | some true =>
      some (true, { m_values := fun k => if k = key then some (some v) else p.m_values k })

/-- The loop `for (const auto& key : Key()) { m_values[key]; }` of the constructor,
from the iterator `it` on, with a bound on the number of its iterations. -/
def defaultEntries : Nat → Key → (Key → Option (Option Datum)) →
    Option (Key → Option (Option Datum))
  | 0, _, _ => none
  | fuel + 1, it, m =>
    if it = Key.End then some m
    else
      match Key.next it with
      | none => none
      | some it1 =>
        defaultEntries fuel it1 fun k =>
          if k = it then (match m k with
            | none => some none
            | some value => some value)
          else m k

/-- The `setValue` calls of the constructor, in their order. -/
def defaults : List (Key × Datum) :=
  [(Key.FtSize, Datum.ftSize FtSize.Size4096),
    (Key.Window, Datum.window Window.WindowBlackman),
    (Key.StftOverlap, Datum.float (Dbl.fin (7 / 8))),
    (Key.Bpm, Datum.float (Dbl.fin 120)),
    (Key.TimeSignatureNumerator, Datum.int 1),
    (Key.TimeFactor, Datum.float (Dbl.fin 1)),
    (Key.TimeMultiplier, Datum.float (Dbl.fin 1)),
    (Key.Override, Datum.bool false),
    (Key.PlayHeadSynced, Datum.bool false),
    (Key.MixMode, Datum.mixMode MixMode.Mid),
    (Key.Rotate, Datum.bool false),
    (Key.Flatten, Datum.bool false)]

/-- The constructor `ProcessorParameters()`: the loop over the keys, then the
`setValue` calls, their results discarded. -/
def construct : Option ProcessorParameters :=
  defaults.foldl
    (fun acc kv => acc.bind fun p => (p.setValue kv.1 kv.2).map fun r => r.2)
    ((defaultEntries 14 Key.First fun _ => none).map fun m => { m_values := m })

/-- A value is valid for a key: what `validate` accepts. -/
def Valid (key : Key) (v : Datum) : Prop := validate key (some v) = some true

/-- The states of a `ProcessorParameters` object: the constructed one and those
that `setValue` calls lead to. -/
inductive Reachable : ProcessorParameters → Prop where
  | init (p : ProcessorParameters) (h : construct = some p) : Reachable p
  | step (p p1 : ProcessorParameters) (key : Key) (v : Datum) (b : Bool)
      (hp : Reachable p) (h : p.setValue key v = some (b, p1)) : Reachable p1

end ProcessorParameters

/-! ## The function ceilPower2 -/

/-- The loop `while (x >>= 1) { power <<= 1; }` of `ceilPower2`, in `uint32_t`, with
a bound on the number of its iterations. -/
def ceilPower2Loop : Nat → Nat → Nat → Option Nat
  | 0, _, _ => none
  | fuel + 1, x, power =>
    if x / 2 ≠ 0 then ceilPower2Loop fuel (x / 2) (power * 2 % 2 ^ 32) else some power

/-- The function `ceilPower2(x)` of `examples/Viz2DApp/Utility.h` on a `uint32_t`;
the loop is run with a bound of 32 iterations. -/
def ceilPower2 (x : Nat) : Option Nat :=
  if x ≤ 1 then some 1 else ceilPower2Loop 32 ((x - 1) % 2 ^ 32) 2

/-! ## Further observations on the log -/

/-- The arguments of the `process` calls of a log, in order. -/
def processArgs (evs : List Event) : List (List Dbl × List Dbl × Int) :=
  evs.filterMap fun ev => match ev with
    | Event.process l r n => some (l, r, n)
    | _ => none

/-- The parameter object after construction and a `setValue` call. -/
def demoParameters (key : Key) (v : Datum) : Option (Bool × ProcessorParameters) :=
  ProcessorParameters.construct.bind fun p => p.setValue key v

/-- A sub-block of 32 silent records of which the first 31 carry the position
`100` without loop and the last one carries the given transport. -/
def staleBlock (ppqPosition ppqLoopEnd : Dbl) : List SyncData :=
  List.replicate (subBlockSize - 1)
    { left := Dbl.fin 0, right := Dbl.fin 0, noteOn := false,
      ppqPosition := Dbl.fin 100, ppqLoopEnd := Dbl.pinf } ++
  [{ left := Dbl.fin 0, right := Dbl.fin 0, noteOn := false,
     ppqPosition := ppqPosition, ppqLoopEnd := ppqLoopEnd }]

/-- A buffer of three channels of `n` samples: the two channels of `demoBuffer`
and a third one that is constantly 7. -/
def wideBuffer (n : Nat) : AudioSampleBuffer :=
  { numSamples := n
    channels := (demoBuffer n).channels ++ [List.replicate n (Dbl.fin 7)] }

/-- A schedule with MIDI events and with inputs of one, of three and of no
channel: a mono block of 40 samples, an iteration of the processing loop, a
block of three channels of 30 samples, a block without channels of 2 samples,
and an iteration. -/
def mixedSchedule : List Step :=
  [Step.block none (monoBuffer ((List.range 40).map fun k => Dbl.fin (k : ℚ))) [0, 5, 39],
    Step.drain,
    Step.block (some demoPlayHead) (wideBuffer 30) [7],
    Step.block none { numSamples := 2, channels := [] } [],
    Step.drain]

/-- What a run never shows to the processing thread and to the engine: every
record in the storage of the ring buffer and in `syncDataBlock` has
`noteOn = false`, the channel count is 0 or 2, no `resetPosition` call was made
and every `process` call was told 2 channels. -/
def Quiet {E : Type} (t : ProcessingThread E) : Prop :=
  (∀ s ∈ t.m_owner.m_ringBuffer.m_buffer, s.noteOn = false) ∧
    (∀ s ∈ t.syncDataBlock, s.noteOn = false) ∧
    (t.m_owner.m_numChannels = 0 ∨ t.m_owner.m_numChannels = 2) ∧
    Event.resetPosition ∉ t.m_owner.calls ∧
    ∀ l r n, Event.process l r n ∈ t.m_owner.calls → n = 2

/-! # Theorems -/

theorem toSizeT_natCast (n : Nat) (h : n < 2 ^ 64) : toSizeT (n : Int) = n := by
  unfold toSizeT; omega

theorem toSizeT_sub (a b : Nat) (hb : b ≤ a) (ha : a < 2 ^ 64) :
    toSizeT ((a : Int) - b) = a - b := by
  unfold toSizeT; omega

theorem toSizeT_add (a b : Nat) (ha : a + b < 2 ^ 64) :
    toSizeT ((a : Int) + b) = a + b := by
  unfold toSizeT; omega

theorem toInt32_natCast (n : Nat) (h : n < 2 ^ 31) : toInt32 (n : Int) = n := by
  unfold toInt32; split <;> omega

theorem toSizeT_lt (i : Int) : toSizeT i < 2 ^ 64 := by
  unfold toSizeT; omega

namespace RingBuffer
variable {T : Type}

theorem readAux_spec (fuel : Nat) :
    ∀ (c : Nat) (buf : List T) (h t m : Nat), 0 < c → c < 2 ^ 64 → buf.length = c →
      t < c → m < 2 ^ 31 → m < fuel →
      ∃ out, readAux fuel (⟨c, buf, h, t⟩ : RingBuffer T) (m : Int)
          = some (out, ⟨c, buf, h, (t + m) % c⟩) ∧
        out.length = m ∧ ∀ i, i < m → out[i]? = buf[(t + i) % c]? := by
  induction fuel with
  | zero => intro c buf h t m _ _ _ _ _ hf; omega
  | succ fuel ih =>
    intro c buf h t m hc hc64 hlen ht hm hf
    have e1 : toSizeT ((c : Int) - t) = c - t := toSizeT_sub c t (by omega) hc64
    have e2 : toSizeT (m : Int) = m := toSizeT_natCast m (by omega)
    by_cases hm0 : m = 0
    · subst hm0
      refine ⟨[], ?_, rfl, by intro i hi; omega⟩
      have z : toSizeT (0 : Int) = 0 := by decide
      have e0 : toSizeT (t : Int) = t := toSizeT_natCast t (by omega)
      simp [readAux, z, e0, Nat.mod_eq_of_lt ht]
    · have hpos : (m : Int) > 0 := by omega
      have hk : min (c - t) m ≤ m := Nat.min_le_right _ _
      have hk1 : 1 ≤ min (c - t) m := by
        rw [Nat.le_min]; omega
      have hkc : min (c - t) m ≤ c - t := Nat.min_le_left _ _
      have e3 : toSizeT ((t : Int) + (min (c - t) m : Nat)) = t + min (c - t) m :=
        toSizeT_add _ _ (by omega)
      have e4 : toInt32 ((m : Int) - (min (c - t) m : Nat)) = ((m - min (c - t) m : Nat) : Int) := by
        have : ((m : Int) - (min (c - t) m : Nat)) = ((m - min (c - t) m : Nat) : Int) := by omega
        rw [this]; exact toInt32_natCast _ (by omega)
      obtain ⟨rest, hrest, hlenr, hget⟩ :=
        ih c buf h ((t + min (c - t) m) % c) (m - min (c - t) m) hc hc64 hlen
          (Nat.mod_lt _ hc) (by omega) (by omega)
      refine ⟨(buf.drop t).take (min (c - t) m) ++ rest, ?_, ?_, ?_⟩
      · rw [readAux]
        simp only [e1, e2, e3, e4, hpos, if_true, hrest]
        congr 3
        rw [Nat.mod_add_mod]
        congr 1; omega
      · simp [hlenr, hlen]
      · intro i hi
        have hl : ((buf.drop t).take (min (c - t) m)).length = min (c - t) m := by
          simp [hlen]
        by_cases hik : i < min (c - t) m
        · rw [List.getElem?_append_left (by omega)]
          rw [List.getElem?_take_of_lt hik, List.getElem?_drop]
          rw [Nat.mod_eq_of_lt (by omega : t + i < c)]
        · rw [List.getElem?_append_right (by omega), hl, hget _ (by omega)]
          rw [Nat.mod_add_mod]
          have hmk : min (c - t) m = c - t := by omega
          congr 1
          rw [hmk]
          have : t + (c - t) + (i - (c - t)) = (t + i - c) + c := by omega
          rw [this, Nat.add_mod_right]
          have h2 : t + i = (t + i - c) + c := by omega
          conv_rhs => rw [h2, Nat.add_mod_right]

theorem holds_construct (c : Nat) (d : T) (hc : 0 < c) (hc64 : c < 2 ^ 64) :
    Holds (construct c d) [] := by
  refine ⟨hc, hc64, by simp [construct], hc, hc, ?_, ?_⟩
  · simp [construct]
  · intro i hi; simp at hi

theorem holds_push (rb : RingBuffer T) (q : List T) (v : T) (h : Holds rb q)
    (hq : q.length + 1 < rb.m_capacity) : Holds (rb.push v) (q ++ [v]) := by
  obtain ⟨c, buf, hd, t⟩ := rb
  obtain ⟨hc, hc64, hlen, ht, hql, hh, hget⟩ := h
  simp only at hc hc64 hlen ht hql hh hget hq
  have hhd : hd < c := by rw [hh]; exact Nat.mod_lt _ hc
  have e1 : toSizeT ((hd : Int) + 1) = hd + 1 := by
    have := toSizeT_add hd 1 (by omega)
    simpa using this
  refine ⟨hc, hc64, ?_, ht, ?_, ?_, ?_⟩
  · simp [push, hlen]
  · simp [push]; omega
  · simp only [push, e1, List.length_append, List.length_singleton]
    rw [hh, Nat.mod_add_mod, Nat.add_assoc]
  · intro i hi
    simp only [List.length_append, List.length_singleton] at hi
    simp only [push]
    by_cases hiq : i < q.length
    · rw [List.getElem?_append_left hiq, ← hget i hiq]
      apply List.getElem?_set_ne
      rw [hh]
      intro heq
      have h1 : (t + q.length) % c = (t + i) % c := heq
      by_cases hw : t + q.length < c
      · rw [Nat.mod_eq_of_lt hw, Nat.mod_eq_of_lt (by omega)] at h1; omega
      · have e2 : (t + q.length) % c = t + q.length - c := by
          rw [Nat.mod_eq_sub_mod (by omega), Nat.mod_eq_of_lt (by omega)]
        by_cases hw2 : t + i < c
        · rw [e2, Nat.mod_eq_of_lt hw2] at h1; omega
        · have e3 : (t + i) % c = t + i - c := by
            rw [Nat.mod_eq_sub_mod (by omega), Nat.mod_eq_of_lt (by omega)]
          rw [e2, e3] at h1; omega
    · have hi2 : i = q.length := by omega
      subst hi2
      rw [← hh]
      simp [List.getElem?_set, hlen, hhd]

theorem getReadSpace_of_holds (rb : RingBuffer T) (q : List T) (h : Holds rb q) :
    rb.getReadSpace = toInt32 q.length := by
  obtain ⟨c, buf, hd, t⟩ := rb
  obtain ⟨hc, hc64, hlen, ht, hql, hh, hget⟩ := h
  simp only at hc hc64 hlen ht hql hh hget
  simp only [getReadSpace]
  by_cases hw : t + q.length < c
  · rw [Nat.mod_eq_of_lt hw] at hh
    subst hh
    by_cases h0 : q.length = 0
    · simp [h0]; decide
    · rw [if_pos (by omega)]
      have : ((t + q.length : Nat) : Int) - t = (q.length : Int) := by omega
      rw [this, toSizeT_natCast _ (by omega)]
  · have e2 : (t + q.length) % c = t + q.length - c := by
      rw [Nat.mod_eq_sub_mod (by omega), Nat.mod_eq_of_lt (by omega)]
    rw [e2] at hh
    subst hh
    rw [if_neg (by omega), if_pos (by omega)]
    have e3 : toSizeT ((toSizeT (((t + q.length - c : Nat) : Int) + c) : Int) - t)
        = q.length := by
      unfold toSizeT; omega
    rw [e3]

theorem read_of_holds (rb : RingBuffer T) (q : List T) (n : Nat) (h : Holds rb q)
    (hn : n ≤ q.length) (hn31 : n < 2 ^ 31) :
    ∃ rb1, rb.read (n : Int) = some (q.take n, rb1) ∧ Holds rb1 (q.drop n) ∧
      rb1.m_capacity = rb.m_capacity := by
  obtain ⟨c, buf, hd, t⟩ := rb
  obtain ⟨hc, hc64, hlen, ht, hql, hh, hget⟩ := h
  simp only at hc hc64 hlen ht hql hh hget
  obtain ⟨out, hout, hlo, hgo⟩ := readAux_spec (n + 1) c buf hd t n hc hc64 hlen ht hn31 (by omega)
  have hout2 : out = q.take n := by
    apply List.ext_getElem?
    intro i
    by_cases hi : i < n
    · rw [hgo i hi, hget i (by omega), List.getElem?_take_of_lt hi]
    · rw [List.getElem?_eq_none (by omega), List.getElem?_eq_none (by simp; omega)]
  refine ⟨⟨c, buf, hd, (t + n) % c⟩, ?_, ?_, rfl⟩
  · rw [← hout2, ← hout]; simp [read]
  · refine ⟨hc, hc64, hlen, Nat.mod_lt _ hc, by simp; omega, ?_, ?_⟩
    · simp only [List.length_drop]
      rw [Nat.mod_add_mod, hh]
      congr 1; omega
    · intro i hi
      simp only [List.length_drop] at hi
      simp only
      rw [Nat.mod_add_mod, List.getElem?_drop, ← hget (n + i) (by omega), Nat.add_assoc]

theorem push_capacity (rb : RingBuffer T) (v : T) : (rb.push v).m_capacity = rb.m_capacity := rfl

theorem toInt32_le_self (n : Nat) : toInt32 (n : Int) ≤ n := by
  unfold toInt32; split <;> omega

theorem toInt32_lt (i : Int) : toInt32 i < 2 ^ 31 := by
  unfold toInt32; split <;> omega

theorem exec_of_holds (ops : List (Op T)) :
    ∀ (rb : RingBuffer T) (q : List T), Holds rb q → admissible rb q.length ops = true →
      ∃ out rb1 q1, exec rb ops = some (out, rb1) ∧ Holds rb1 q1 ∧
        q ++ pushed ops = out ++ q1 ∧ out.length = requested ops := by
  induction ops with
  | nil => intro rb q h _; exact ⟨[], rb, q, rfl, h, by simp [pushed], rfl⟩
  | cons op ops ih =>
    intro rb q h ha
    cases op with
    | push v =>
      simp only [admissible, Bool.and_eq_true, decide_eq_true_eq] at ha
      have h1 := holds_push rb q v h ha.1
      have ha2 : admissible (rb.push v) (q ++ [v]).length ops = true := by
        simpa using ha.2
      obtain ⟨out, rb1, q1, he, hh, hq, hl⟩ := ih (rb.push v) (q ++ [v]) h1 ha2
      exact ⟨out, rb1, q1, by simpa [exec] using he, hh, by simpa [pushed] using hq,
        by simpa [requested] using hl⟩
    | read n =>
      simp only [admissible, Bool.and_eq_true, decide_eq_true_eq] at ha
      obtain ⟨⟨hn0, hnr⟩, hrest⟩ := ha
      rw [getReadSpace_of_holds rb q h] at hnr
      obtain ⟨m, rfl⟩ := Int.eq_ofNat_of_zero_le hn0
      have hm : m ≤ q.length := by
        have := toInt32_le_self q.length
        omega
      have hm31 : m < 2 ^ 31 := by
        have := toInt32_lt (q.length : Int)
        omega
      obtain ⟨rb1, hr, hh1, _⟩ := read_of_holds rb q m h hm hm31
      rw [hr] at hrest
      simp only [Int.toNat_ofNat] at hrest
      have ha2 : admissible rb1 (q.drop m).length ops = true := by
        simpa using hrest
      obtain ⟨out, rb2, q2, he, hh2, hq, hl⟩ := ih rb1 (q.drop m) hh1 ha2
      refine ⟨q.take m ++ out, rb2, q2, by simp [exec, hr, he], hh2, ?_, ?_⟩
      · simp only [pushed, List.append_assoc, ← hq]
        rw [← List.append_assoc, List.take_append_drop]
      · simp only [requested, List.length_append, List.length_take, Int.toNat_ofNat, hl]
        omega

theorem fifo_of_holds (ops : List (Op T)) (rb : RingBuffer T) (h : Holds rb [])
    (ha : admissible rb 0 ops = true) :
    ∃ out rb1, exec rb ops = some (out, rb1) ∧ out.length = requested ops ∧
      out = (pushed ops).take (requested ops) ∧
      Holds rb1 ((pushed ops).drop (requested ops)) := by
  obtain ⟨out, rb1, q1, he, hh, hq, hl⟩ := exec_of_holds ops rb [] h ha
  simp only [List.nil_append] at hq
  refine ⟨out, rb1, he, hl, ?_, ?_⟩
  · rw [hq, ← hl]; simp
  · rw [hq, ← hl]; simpa using hh

/-- C1. FIFO: on a freshly constructed ring buffer of capacity `c ≥ 1`, every
sequence of pushes and reads in which each read asks for `0 ≤ n ≤
getReadSpace()` and the number of pushed-but-unread elements stays below `c`
runs to completion; the reads return as many values as they asked for, in
total the sum of their `n`, and these values, concatenated, are the initial
segment of that length of the values pushed; the buffer is left holding the
rest of the pushed values, in order. -/
theorem ringBuffer_fifo (c : Nat) (d : T) (ops : List (Op T)) (hc : 1 ≤ c)
    (hc64 : c < sizeModulus) (ha : admissible (construct c d) 0 ops = true) :
    ∃ out rb1, exec (construct c d) ops = some (out, rb1) ∧
      out.length = requested ops ∧
      out = (pushed ops).take (requested ops) ∧
      Holds rb1 ((pushed ops).drop (requested ops)) :=
  fifo_of_holds ops (construct c d) (holds_construct c d hc hc64) ha

/-- Witness for C1 at capacity 4, with a read that spans the wrap boundary: the
two reads return 1, 2 and then 3, 4, 5. -/
theorem ringBuffer_fifo_witness :
    admissible (construct 4 (0 : Nat)) 0
        [Op.push 1, Op.push 2, Op.push 3, Op.read 2, Op.push 4, Op.push 5, Op.read 3] = true ∧
      (exec (construct 4 (0 : Nat))
          [Op.push 1, Op.push 2, Op.push 3, Op.read 2, Op.push 4, Op.push 5, Op.read 3]).map
        (fun r => r.1) = some [1, 2, 3, 4, 5] ∧
      ∃ out rb1, exec (construct 4 (0 : Nat))
          [Op.push 1, Op.push 2, Op.push 3, Op.read 2, Op.push 4, Op.push 5, Op.read 3]
            = some (out, rb1) ∧
        out.length = requested
          [Op.push (1 : Nat), Op.push 2, Op.push 3, Op.read 2, Op.push 4, Op.push 5, Op.read 3] ∧
        out = (pushed [Op.push 1, Op.push 2, Op.push 3, Op.read 2, Op.push 4, Op.push 5,
          Op.read 3]).take (requested
            [Op.push (1 : Nat), Op.push 2, Op.push 3, Op.read 2, Op.push 4, Op.push 5,
              Op.read 3]) ∧
        Holds rb1 ((pushed [Op.push 1, Op.push 2, Op.push 3, Op.read 2, Op.push 4, Op.push 5,
          Op.read 3]).drop (requested
            [Op.push (1 : Nat), Op.push 2, Op.push 3, Op.read 2, Op.push 4, Op.push 5,
              Op.read 3])) :=
  ⟨by decide, by decide, ringBuffer_fifo 4 0 _ (by decide) (by decide) (by decide)⟩

theorem pushAll_indices (vs : List T) :
    ∀ (rb : RingBuffer T), 0 < rb.m_capacity → rb.m_capacity < 2 ^ 64 →
      rb.m_head < rb.m_capacity →
      (pushAll rb vs).m_capacity = rb.m_capacity ∧
      (pushAll rb vs).m_buffer.length = rb.m_buffer.length ∧
      (pushAll rb vs).m_tail = rb.m_tail ∧
      (pushAll rb vs).m_head = (rb.m_head + vs.length) % rb.m_capacity := by
  induction vs with
  | nil => intro rb _ _ hh; simp [pushAll, Nat.mod_eq_of_lt hh]
  | cons v vs ih =>
    intro rb hc hc64 hh
    have e1 : toSizeT ((rb.m_head : Int) + 1) = rb.m_head + 1 := by
      unfold toSizeT; omega
    have hp : (rb.push v).m_head = (rb.m_head + 1) % rb.m_capacity := by
      simp only [push, e1]
    obtain ⟨h1, h2, h3, h4⟩ := ih (rb.push v) hc hc64 (by rw [hp]; exact Nat.mod_lt _ hc)
    refine ⟨h1, ?_, h3, ?_⟩
    · rw [pushAll, h2]; simp [push]
    · rw [pushAll, h4, hp]
      simp only [push, List.length_cons]
      rw [Nat.mod_add_mod]; congr 1; omega

theorem readOnes_succ (M : Nat) (rb : RingBuffer T) : readOnes (M + 1) rb =
    match rb.read 1 with
    | none => none
    | some (_, rb1) => readOnes M rb1 := rfl

theorem readOnes_indices (M : Nat) :
    ∀ (rb : RingBuffer T), 0 < rb.m_capacity → rb.m_capacity < 2 ^ 64 →
      rb.m_buffer.length = rb.m_capacity → rb.m_tail < rb.m_capacity →
      readOnes M rb = some { rb with m_tail := (rb.m_tail + M) % rb.m_capacity } := by
  induction M with
  | zero =>
    intro rb _ _ _ ht
    obtain ⟨c, buf, hd, t⟩ := rb
    simp only at ht
    show some _ = _
    simp only [Nat.add_zero, Nat.mod_eq_of_lt ht]
  | succ M ih =>
    intro rb hc hc64 hlen ht
    obtain ⟨c, buf, hd, t⟩ := rb
    simp only at hc hc64 hlen ht
    obtain ⟨out, hout, _, _⟩ := readAux_spec 2 c buf hd t 1 hc hc64 hlen ht (by norm_num) (by norm_num)
    have hr : read (⟨c, buf, hd, t⟩ : RingBuffer T) 1 = some (out, ⟨c, buf, hd, (t + 1) % c⟩) := by
      simpa [read] using hout
    rw [readOnes_succ, hr]
    simp only
    rw [ih ⟨c, buf, hd, (t + 1) % c⟩ hc hc64 hlen (Nat.mod_lt _ hc)]
    simp only [Nat.mod_add_mod]
    congr 3; omega

/-- C8. `read(dst, n)` for `n ≥ 0` on a buffer whose tail index is inside its
storage of `c ≥ 1` slots terminates (every recursion bound above `n` gives the
same result), copies `buffer[(tail + i) mod c]` to `dst[i]` for every `i < n`,
moves the tail to `(tail + n) mod c` and changes neither the head nor the
storage; `n` may exceed the capacity and the read space. -/
theorem read_semantics (rb : RingBuffer T) (n : Int) (hc : 1 ≤ rb.m_capacity)
    (hc64 : rb.m_capacity < sizeModulus) (hlen : rb.m_buffer.length = rb.m_capacity)
    (ht : rb.m_tail < rb.m_capacity) (hn0 : 0 ≤ n) (hn31 : n < 2 ^ 31) :
    ∃ out : List T,
      rb.read n = some (out, { rb with m_tail := (rb.m_tail + n.toNat) % rb.m_capacity }) ∧
      (∀ fuel, n.toNat < fuel → readAux fuel rb n
        = some (out, { rb with m_tail := (rb.m_tail + n.toNat) % rb.m_capacity })) ∧
      out.length = n.toNat ∧
      ∀ i, i < n.toNat → out[i]? = rb.m_buffer[(rb.m_tail + i) % rb.m_capacity]? := by
  obtain ⟨c, buf, hd, t⟩ := rb
  simp only at hc hc64 hlen ht
  obtain ⟨m, rfl⟩ := Int.eq_ofNat_of_zero_le hn0
  simp only [Int.toNat_ofNat]
  have hm : m < 2 ^ 31 := by omega
  obtain ⟨out, hout, hlo, hgo⟩ :=
    readAux_spec (m + 1) c buf hd t m hc hc64 hlen ht hm (by omega)
  refine ⟨out, by simpa [read] using hout, ?_, hlo, hgo⟩
  intro fuel hf
  obtain ⟨out2, hout2, hlo2, hgo2⟩ := readAux_spec fuel c buf hd t m hc hc64 hlen ht hm hf
  have : out2 = out := by
    apply List.ext_getElem?
    intro i
    by_cases hi : i < m
    · rw [hgo i hi, hgo2 i hi]
    · rw [List.getElem?_eq_none (by omega), List.getElem?_eq_none (by omega)]
  rw [← this]; exact hout2

/-- Witness for C8: capacity 4, tail 2, a read of 9 elements (more than the
capacity and more than the read space). -/
theorem read_semantics_witness :
    ∃ out : List Nat,
      (⟨4, [1, 2, 3, 0], 3, 2⟩ : RingBuffer Nat).read 9
        = some (out, ⟨4, [1, 2, 3, 0], 3, (2 + 9) % 4⟩) ∧
      (∀ fuel, 9 < fuel → readAux fuel (⟨4, [1, 2, 3, 0], 3, 2⟩ : RingBuffer Nat) 9
        = some (out, ⟨4, [1, 2, 3, 0], 3, (2 + 9) % 4⟩)) ∧
      out.length = 9 ∧
      ∀ i, i < 9 → out[i]? = [1, 2, 3, 0][(2 + i) % 4]? :=
  read_semantics (⟨4, [1, 2, 3, 0], 3, 2⟩ : RingBuffer Nat) 9 (by decide) (by decide)
    (by decide) (by decide) (by decide) (by decide)

/-- C9, as stated, fails for a capacity above `2^31`: with capacity `2^32`,
head `2^31` (two `advance(2^30)` after construction) and tail `0` the value
returned is `-2147483648`, which is negative and is not `(head - tail) mod c`. -/
theorem getReadSpace_formula_counterexample :
    (((construct (2 ^ 32) (0 : Nat)).advance (2 ^ 30)).advance (2 ^ 30)).m_head = 2 ^ 31 ∧
    (((construct (2 ^ 32) (0 : Nat)).advance (2 ^ 30)).advance (2 ^ 30)).m_tail = 0 ∧
    (((construct (2 ^ 32) (0 : Nat)).advance (2 ^ 30)).advance (2 ^ 30)).m_capacity = 2 ^ 32 ∧
    (((construct (2 ^ 32) (0 : Nat)).advance (2 ^ 30)).advance (2 ^ 30)).getReadSpace
      = -2147483648 ∧
    ¬ (0 ≤ (((construct (2 ^ 32) (0 : Nat)).advance (2 ^ 30)).advance (2 ^ 30)).getReadSpace) ∧
    (((construct (2 ^ 32) (0 : Nat)).advance (2 ^ 30)).advance (2 ^ 30)).getReadSpace
      ≠ ((2 ^ 31 : Int) - 0) % (2 ^ 32 : Int) := by
  decide

/-- C9 (amended). For a capacity `1 ≤ c ≤ 2^31` and indices `head < c`,
`tail < c`, `getReadSpace()` is `(head - tail) mod c` with the non-negative
remainder; hence it lies in `[0, c - 1]` and is zero exactly when `head = tail`. -/
theorem getReadSpace_formula (rb : RingBuffer T) (hc : 1 ≤ rb.m_capacity)
    (hc31 : rb.m_capacity ≤ 2 ^ 31) (hh : rb.m_head < rb.m_capacity)
    (ht : rb.m_tail < rb.m_capacity) :
    rb.getReadSpace = ((rb.m_head : Int) - rb.m_tail) % (rb.m_capacity : Int) ∧
    0 ≤ rb.getReadSpace ∧ rb.getReadSpace ≤ (rb.m_capacity : Int) - 1 ∧
    (rb.getReadSpace = 0 ↔ rb.m_head = rb.m_tail) := by
  obtain ⟨c, buf, hd, t⟩ := rb
  simp only at hc hc31 hh ht
  have key : (⟨c, buf, hd, t⟩ : RingBuffer T).getReadSpace
      = ((hd : Int) - t) % (c : Int) := by
    simp only [getReadSpace]
    by_cases h1 : hd > t
    · rw [if_pos h1, toSizeT_sub hd t (by omega) (by omega), toInt32_natCast _ (by omega)]
      rw [Int.emod_eq_of_lt (by omega) (by omega)]; omega
    · rw [if_neg h1]
      by_cases h2 : hd < t
      · rw [if_pos h2]
        have e1 : toSizeT ((toSizeT ((hd : Int) + c) : Int) - t) = hd + c - t := by
          unfold toSizeT; omega
        rw [e1, toInt32_natCast _ (by omega)]
        have e2 : ((hd : Int) - t) % (c : Int) = ((hd : Int) - t + c) % (c : Int) := by
          rw [Int.add_emod_self]
        rw [e2, Int.emod_eq_of_lt (by omega) (by omega)]; omega
      · rw [if_neg h2]
        have : hd = t := by omega
        subst this; simp
  refine ⟨key, ?_, ?_, ?_⟩
  · rw [key]; exact Int.emod_nonneg _ (by omega)
  · rw [key]
    have := Int.emod_lt_of_pos ((hd : Int) - t) (by omega : (0 : Int) < c)
    show _ ≤ (c : Int) - 1
    omega
  · simp only [getReadSpace]
    constructor
    · intro h0
      by_cases h1 : hd > t
      · rw [if_pos h1, toSizeT_sub hd t (by omega) (by omega), toInt32_natCast _ (by omega)] at h0
        omega
      · rw [if_neg h1] at h0
        by_cases h2 : hd < t
        · rw [if_pos h2] at h0
          have e1 : toSizeT ((toSizeT ((hd : Int) + c) : Int) - t) = hd + c - t := by
            unfold toSizeT; omega
          rw [e1, toInt32_natCast _ (by omega)] at h0
          omega
        · omega
    · intro h; subst h; simp

/-- Witness for the amended C9: capacity 8, head 2, tail 5. -/
theorem getReadSpace_formula_witness :
    (⟨8, List.replicate 8 0, 2, 5⟩ : RingBuffer Nat).getReadSpace = ((2 : Int) - 5) % 8 ∧
    0 ≤ (⟨8, List.replicate 8 0, 2, 5⟩ : RingBuffer Nat).getReadSpace ∧
    (⟨8, List.replicate 8 0, 2, 5⟩ : RingBuffer Nat).getReadSpace ≤ (8 : Int) - 1 ∧
    ((⟨8, List.replicate 8 0, 2, 5⟩ : RingBuffer Nat).getReadSpace = 0 ↔ 2 = 5) :=
  getReadSpace_formula (⟨8, List.replicate 8 0, 2, 5⟩ : RingBuffer Nat) (by decide) (by decide)
    (by decide) (by decide)

/-- C7, as stated, fails when the buffer is filled completely and nothing is
read: capacity 4, `N = 4` pushes, `M = 0` reads give `getReadSpace() = 0`, not
`N - M = 4`. -/
theorem readSpace_accounting_counterexample :
    (readOnes 0 (pushAll (construct 4 (0 : Nat)) [1, 2, 3, 4])).map getReadSpace = some 0 ∧
    (readOnes 0 (pushAll (construct 4 (0 : Nat)) [1, 2, 3, 4])).map getReadSpace
      ≠ some (([1, 2, 3, 4] : List Nat).length - 0 : Int) := by
  decide

/-- C7 (amended). On a freshly constructed ring buffer of capacity `c ≥ 1`,
after `N` pushes followed by `M` single-element reads with `M ≤ N ≤ c`, the
reads all return and `getReadSpace()` equals `N - M`, provided the buffer was
not filled completely without a read (`N < c` or `M ≥ 1`) and `N - M` fits an
`int`. -/
theorem readSpace_accounting (c : Nat) (d : T) (vs : List T) (M : Nat) (hc : 1 ≤ c)
    (hc64 : c < sizeModulus) (hMN : M ≤ vs.length) (hNc : vs.length ≤ c)
    (hfull : vs.length < c ∨ 1 ≤ M) (hint : vs.length - M < 2 ^ 31) :
    ∃ rb1, readOnes M (pushAll (construct c d) vs) = some rb1 ∧
      rb1.getReadSpace = (vs.length : Int) - M := by
  obtain ⟨h1, h2, h3, h4⟩ := pushAll_indices vs (construct c d) hc hc64 hc
  have hr := readOnes_indices M (pushAll (construct c d) vs) (by rw [h1]; exact hc)
    (by rw [h1]; exact hc64) (by rw [h1, h2]; simp [construct]) (by rw [h1, h3]; exact hc)
  refine ⟨_, hr, ?_⟩
  simp only [getReadSpace, h1, h3, h4]
  simp only [construct, Nat.zero_add]
  have hc64b : c < 2 ^ 64 := hc64
  by_cases hN : vs.length < c
  · rw [Nat.mod_eq_of_lt hN, Nat.mod_eq_of_lt (by omega : M < c)]
    by_cases hlt : vs.length > M
    · rw [if_pos hlt, toSizeT_sub _ _ (by omega) (by omega), toInt32_natCast _ (by omega)]
      omega
    · have : M = vs.length := by omega
      rw [if_neg hlt, if_neg (by omega)]; omega
  · have hN2 : vs.length = c := by omega
    rw [hN2, Nat.mod_self]
    by_cases hM : M < c
    · rw [Nat.mod_eq_of_lt hM, if_neg (by omega), if_pos (by omega)]
      have e1 : toSizeT ((toSizeT (((0 : Nat) : Int) + c) : Int) - M) = c - M := by
        unfold toSizeT; omega
      rw [e1, toInt32_natCast _ (by omega)]; omega
    · have : M = c := by omega
      rw [this, Nat.mod_self]; simp

/-- Witness for the amended C7: capacity 4, four pushes, three reads. -/
theorem readSpace_accounting_witness :
    ∃ rb1, readOnes 3 (pushAll (construct 4 (0 : Nat)) [1, 2, 3, 4]) = some rb1 ∧
      rb1.getReadSpace = (([1, 2, 3, 4] : List Nat).length : Int) - (3 : Nat) :=
  readSpace_accounting 4 0 [1, 2, 3, 4] 3 (by decide) (by decide) (by decide) (by decide)
    (by decide) (by decide)

end RingBuffer

namespace ProcessingThread
variable {E : Type}

/-! ### The unpack loop and the transport block -/

theorem unpack_frame (eng : KProcessor E) (count : Nat) :
    ∀ (i : Nat) (t : ProcessingThread E),
      (unpack eng count i t).lastPpq = t.lastPpq ∧
      (unpack eng count i t).syncDataBlock = t.syncDataBlock ∧
      (unpack eng count i t).m_owner.m_lastTimeInQuarters = t.m_owner.m_lastTimeInQuarters ∧
      (unpack eng count i t).m_owner.m_numChannels = t.m_owner.m_numChannels ∧
      (unpack eng count i t).m_owner.m_ringBuffer = t.m_owner.m_ringBuffer ∧
      ∃ k, (unpack eng count i t).m_owner.calls
        = t.m_owner.calls ++ List.replicate k Event.resetPosition := by
  induction count with
  | zero => intro i t; exact ⟨rfl, rfl, rfl, rfl, rfl, 0, by simp [unpack]⟩
  | succ count ih =>
    intro i t
    simp only [unpack]
    split
    · obtain ⟨h1, h2, h3, h4, h5, k, h6⟩ := ih (i + 1)
        (call { t with
          audioSubBlocks0 := t.audioSubBlocks0.set i (t.syncDataBlock.getD i SyncData.init).left
          audioSubBlocks1 := t.audioSubBlocks1.set i (t.syncDataBlock.getD i SyncData.init).right }
          (eng.resetPosition t.m_owner.m_processor) Event.resetPosition)
      refine ⟨h1, h2, h3, h4, h5, k + 1, ?_⟩
      rw [h6]
      simp [call, List.replicate_succ]
    · obtain ⟨h1, h2, h3, h4, h5, k, h6⟩ := ih (i + 1)
        { t with
          audioSubBlocks0 := t.audioSubBlocks0.set i (t.syncDataBlock.getD i SyncData.init).left
          audioSubBlocks1 := t.audioSubBlocks1.set i (t.syncDataBlock.getD i SyncData.init).right }
      exact ⟨h1, h2, h3, h4, h5, k, h6⟩

theorem lastRecord_unpack (eng : KProcessor E) (t : ProcessingThread E) :
    lastRecord (unpack eng subBlockSize 0 t) = lastRecord t := by
  simp only [lastRecord, (unpack_frame eng subBlockSize 0 t).2.1]

theorem wrappedPpq_unpack (eng : KProcessor E) (t : ProcessingThread E) :
    wrappedPpq (unpack eng subBlockSize 0 t) = wrappedPpq t := by
  simp only [wrappedPpq, lastRecord_unpack]

theorem syncTransport_spec (eng : KProcessor E) (isPlaying : Bool) (t : ProcessingThread E) :
    (syncTransport eng isPlaying t).m_owner.calls
        = t.m_owner.calls ++ transportEvents eng isPlaying t ∧
      (syncTransport eng isPlaying t).lastPpq = resolvedPpq eng t ∧
      (syncTransport eng isPlaying t).m_owner.m_lastTimeInQuarters
        = (if isPlaying then (lastRecord t).ppqPosition else t.m_owner.m_lastTimeInQuarters) ∧
      (syncTransport eng isPlaying t).audioSubBlocks0 = t.audioSubBlocks0 ∧
      (syncTransport eng isPlaying t).audioSubBlocks1 = t.audioSubBlocks1 ∧
      (syncTransport eng isPlaying t).m_owner.m_numChannels = t.m_owner.m_numChannels ∧
      (syncTransport eng isPlaying t).m_owner.m_ringBuffer = t.m_owner.m_ringBuffer ∧
      (syncTransport eng isPlaying t).syncDataBlock = t.syncDataBlock := by
  cases isPlaying <;>
  by_cases h1 : resyncLocal t.lastPpq (wrappedPpq t) = true <;>
  by_cases h2 : (eng.setPlaying (eng.setAbsolutePosition t.m_owner.m_processor
      (resolvedPpq eng t)) false).1 = true <;>
  by_cases h3 : (eng.setPlaying (eng.setAbsolutePosition t.m_owner.m_processor
      (resolvedPpq eng t)) true).1 = true <;>
  by_cases h4 : resyncFlag eng t = true <;>
  simp [syncTransport, transportEvents, call, resolvedPpq, resyncFlag, wrappedPpq, lastRecord,
    h1, h2, h3, h4] <;> simp_all [resolvedPpq, resyncFlag, wrappedPpq, lastRecord]

theorem processSubBlock_spec (eng : KProcessor E) (isPlaying : Bool) (t : ProcessingThread E) :
    (∃ k, (processSubBlock eng isPlaying t).m_owner.calls
        = t.m_owner.calls ++ (List.replicate k Event.resetPosition ++
          transportEvents eng isPlaying (unpack eng subBlockSize 0 t) ++
          [Event.process (unpack eng subBlockSize 0 t).audioSubBlocks0
            (unpack eng subBlockSize 0 t).audioSubBlocks1 t.m_owner.m_numChannels])) ∧
      (processSubBlock eng isPlaying t).lastPpq = resolvedPpq eng (unpack eng subBlockSize 0 t) ∧
      (processSubBlock eng isPlaying t).m_owner.m_lastTimeInQuarters
        = (if isPlaying then (lastRecord t).ppqPosition else t.m_owner.m_lastTimeInQuarters) ∧
      (processSubBlock eng isPlaying t).m_owner.m_ringBuffer = t.m_owner.m_ringBuffer ∧
      (processSubBlock eng isPlaying t).m_owner.m_numChannels = t.m_owner.m_numChannels := by
  obtain ⟨_, _, u3, u4, u5, k, u6⟩ := unpack_frame eng subBlockSize 0 t
  obtain ⟨s1, s2, s3, s4, s5, s6, s7, _⟩ :=
    syncTransport_spec eng isPlaying (unpack eng subBlockSize 0 t)
  refine ⟨⟨k, ?_⟩, ?_, ?_, ?_, ?_⟩
  · simp only [processSubBlock, call, s1, s4, s5, s6, u6, u4, List.append_assoc]
  · simp only [processSubBlock, call, s2]
  · simp only [processSubBlock, call, s3, u3, lastRecord_unpack]
  · simp only [processSubBlock, call, s7, u5]
  · simp only [processSubBlock, call, s6, u4]

theorem newCalls_processSubBlock (eng : KProcessor E) (isPlaying : Bool)
    (t : ProcessingThread E) :
    ∃ k, newCalls t (processSubBlock eng isPlaying t)
      = List.replicate k Event.resetPosition ++
          transportEvents eng isPlaying (unpack eng subBlockSize 0 t) ++
          [Event.process (unpack eng subBlockSize 0 t).audioSubBlocks0
            (unpack eng subBlockSize 0 t).audioSubBlocks1 t.m_owner.m_numChannels] := by
  obtain ⟨⟨k, hk⟩, _⟩ := processSubBlock_spec eng isPlaying t
  exact ⟨k, by rw [newCalls, hk, List.drop_left]⟩

theorem setPositionArgs_replicate (k : Nat) :
    setPositionArgs (List.replicate k Event.resetPosition) = [] := by
  induction k with
  | zero => rfl
  | succ k _ => simp [setPositionArgs, List.replicate_succ]

theorem setPlayingCalls_replicate (k : Nat) :
    setPlayingCalls (List.replicate k Event.resetPosition) = [] := by
  induction k with
  | zero => rfl
  | succ k _ => simp [setPlayingCalls, List.replicate_succ]

theorem setPositionArgs_append (a b : List Event) :
    setPositionArgs (a ++ b) = setPositionArgs a ++ setPositionArgs b := by
  simp [setPositionArgs]

theorem setPlayingCalls_append (a b : List Event) :
    setPlayingCalls (a ++ b) = setPlayingCalls a ++ setPlayingCalls b := by
  simp [setPlayingCalls]

theorem setPositionArgs_transport (eng : KProcessor E) (isPlaying : Bool)
    (t : ProcessingThread E) :
    setPositionArgs (transportEvents eng isPlaying t)
      = if (eng.setPlaying (eng.setAbsolutePosition t.m_owner.m_processor (resolvedPpq eng t))
            isPlaying).1 || (isPlaying && resyncFlag eng t)
        then [resolvedPpq eng t] else [] := by
  unfold transportEvents
  split <;> split <;> simp [setPositionArgs]

theorem setPlayingCalls_transport (eng : KProcessor E) (isPlaying : Bool)
    (t : ProcessingThread E) :
    setPlayingCalls (transportEvents eng isPlaying t)
      = [(isPlaying, (eng.setPlaying (eng.setAbsolutePosition t.m_owner.m_processor
          (resolvedPpq eng t)) isPlaying).1)] := by
  unfold transportEvents
  split <;> split <;> simp [setPlayingCalls]

/-- C6. For every processed sub-block `setPlaying(isPlaying)` is called exactly
once, and `setPosition` is called, once and with the loop-wrapped and clamped
ppq, exactly when that `setPlaying` call returned true or `isPlaying` and the
resync flag are both true; while paused without a change of the play state it
is not called, whatever the resync flag. -/
theorem setPosition_gating (eng : KProcessor E) (isPlaying : Bool) (t : ProcessingThread E) :
    ∃ changed : Bool,
      setPlayingCalls (newCalls t (processSubBlock eng isPlaying t)) = [(isPlaying, changed)] ∧
      setPositionArgs (newCalls t (processSubBlock eng isPlaying t))
        = (if changed || (isPlaying && resyncFlag eng (unpack eng subBlockSize 0 t))
            then [resolvedPpq eng (unpack eng subBlockSize 0 t)] else []) ∧
      (isPlaying = false → changed = false →
        setPositionArgs (newCalls t (processSubBlock eng isPlaying t)) = []) := by
  obtain ⟨k, hk⟩ := newCalls_processSubBlock eng isPlaying t
  have hp : setPositionArgs (newCalls t (processSubBlock eng isPlaying t))
      = setPositionArgs (transportEvents eng isPlaying (unpack eng subBlockSize 0 t)) := by
    rw [hk, setPositionArgs_append, setPositionArgs_append, setPositionArgs_replicate]
    simp [setPositionArgs]
  refine ⟨(eng.setPlaying (eng.setAbsolutePosition
    (unpack eng subBlockSize 0 t).m_owner.m_processor
    (resolvedPpq eng (unpack eng subBlockSize 0 t))) isPlaying).1, ?_, ?_, ?_⟩
  · rw [hk, setPlayingCalls_append, setPlayingCalls_append, setPlayingCalls_replicate,
      setPlayingCalls_transport]
    simp [setPlayingCalls]
  · rw [hp, setPositionArgs_transport]
  · intro h1 h2
    rw [hp, setPositionArgs_transport, h1] at *
    simp [h2]

/-- Witness for C6: the first sub-block while paused, the engine paused as
well: the resync flag is true, `setPlaying(false)` reports no change and
`setPosition` is not called. -/
theorem setPosition_gating_witness :
    resyncFlag demoEngine (unpack demoEngine subBlockSize 0
      ((start demoProcessor).withBlock (subBlockOf (Dbl.fin 0) Dbl.pinf))) = true ∧
    setPlayingCalls (newCalls ((start demoProcessor).withBlock (subBlockOf (Dbl.fin 0) Dbl.pinf))
      (processSubBlock demoEngine false
        ((start demoProcessor).withBlock (subBlockOf (Dbl.fin 0) Dbl.pinf)))) = [(false, false)] ∧
    setPositionArgs (newCalls ((start demoProcessor).withBlock (subBlockOf (Dbl.fin 0) Dbl.pinf))
      (processSubBlock demoEngine false
        ((start demoProcessor).withBlock (subBlockOf (Dbl.fin 0) Dbl.pinf)))) = [] := by
  obtain ⟨changed, h1, _, h3⟩ := setPosition_gating demoEngine false
    ((start demoProcessor).withBlock (subBlockOf (Dbl.fin 0) Dbl.pinf))
  have h4 : setPlayingCalls (newCalls
      ((start demoProcessor).withBlock (subBlockOf (Dbl.fin 0) Dbl.pinf))
      (processSubBlock demoEngine false
        ((start demoProcessor).withBlock (subBlockOf (Dbl.fin 0) Dbl.pinf))))
      = [(false, false)] := by decide!
  have h5 : changed = false := by
    rw [h4] at h1
    simpa using h1.symm
  exact ⟨by decide!, h4, h3 rfl h5⟩

/-! ### Comparisons under ScopedNoDenormals -/

theorem minNormal_pos : 0 < Dbl.minNormal := by decide!

theorem minNormal_lt_one : Dbl.minNormal < 1 := by decide!

theorem daz_zero : Dbl.daz (Dbl.fin 0) = Dbl.fin 0 := by decide!

theorem daz_initial : Dbl.daz k_PpqInitialState = Dbl.fin (-1) := by decide!

theorem daz_ne_nan (d : Dbl) (h : d ≠ Dbl.nan) : Dbl.daz d ≠ Dbl.nan := by
  cases d with
  | fin q =>
    simp only [Dbl.daz]
    split <;> simp
  | pinf => simp [Dbl.daz]
  | ninf => simp [Dbl.daz]
  | nan => exact absurd rfl h

theorem ltz_zero_iff (w : Dbl) :
    Dbl.ltz w (Dbl.fin 0) = true ↔
      w = Dbl.ninf ∨ ∃ a : ℚ, w = Dbl.fin a ∧ a ≤ -Dbl.minNormal := by
  have hm := minNormal_pos
  unfold Dbl.ltz
  rw [daz_zero]
  cases w with
  | fin q =>
    simp only [Dbl.daz]
    by_cases hq : |q| < Dbl.minNormal
    · rw [if_pos hq]
      have h1 : ¬ q ≤ -Dbl.minNormal := by
        intro h
        have h2 := (abs_lt.mp hq).1
        linarith
      simp [Dbl.lt, h1]
    · rw [if_neg hq]
      simp only [Dbl.lt, decide_eq_true_eq]
      constructor
      · intro h
        right
        refine ⟨q, rfl, ?_⟩
        have h2 := not_lt.mp hq
        rw [abs_of_neg h] at h2
        linarith
      · rintro (h | ⟨a, ha, hle⟩)
        · cases h
        · cases ha
          linarith
  | pinf => simp [Dbl.daz, Dbl.lt]
  | ninf => simp [Dbl.daz, Dbl.lt]
  | nan => simp [Dbl.daz, Dbl.lt]

theorem ltz_zero_false_iff (a : ℚ) :
    Dbl.ltz (Dbl.fin a) (Dbl.fin 0) = false ↔ -Dbl.minNormal < a := by
  rw [← Bool.not_eq_true, ltz_zero_iff]
  constructor
  · intro h
    by_contra hc
    exact h (Or.inr ⟨a, rfl, not_lt.mp hc⟩)
  · rintro h (hc | ⟨b, hb, hle⟩)
    · cases hc
    · cases hb
      linarith

theorem gtz_zero_iff (y : Dbl) :
    Dbl.gtz y (Dbl.fin 0) = true ↔
      y = Dbl.pinf ∨ ∃ a : ℚ, y = Dbl.fin a ∧ Dbl.minNormal ≤ a := by
  have hm := minNormal_pos
  unfold Dbl.gtz Dbl.ltz
  rw [daz_zero]
  cases y with
  | fin q =>
    simp only [Dbl.daz]
    by_cases hq : |q| < Dbl.minNormal
    · rw [if_pos hq]
      have h1 : ¬ Dbl.minNormal ≤ q := by
        intro h
        have h2 := (abs_lt.mp hq).2
        linarith
      simp [Dbl.lt, h1]
    · rw [if_neg hq]
      simp only [Dbl.lt, decide_eq_true_eq]
      constructor
      · intro h
        right
        refine ⟨q, rfl, ?_⟩
        have h2 := not_lt.mp hq
        rw [abs_of_pos h] at h2
        exact h2
      · rintro (h | ⟨a, ha, hle⟩)
        · cases h
        · cases ha
          linarith
  | pinf => simp [Dbl.daz, Dbl.lt]
  | ninf => simp [Dbl.daz, Dbl.lt]
  | nan => simp [Dbl.daz, Dbl.lt]

theorem lt_of_neg_of_not_neg (x y : Dbl) (hx : Dbl.lt x (Dbl.fin 0) = true)
    (hy : Dbl.lt y (Dbl.fin 0) = false) (hn : y ≠ Dbl.nan) : Dbl.lt x y = true := by
  cases x with
  | fin a =>
    cases y with
    | fin b =>
      simp only [Dbl.lt, decide_eq_true_eq, decide_eq_false_iff_not, not_lt] at hx hy ⊢
      linarith
    | pinf => rfl
    | ninf => simp [Dbl.lt] at hy
    | nan => exact absurd rfl hn
  | pinf => simp [Dbl.lt] at hx
  | ninf =>
    cases y with
    | fin b => rfl
    | pinf => rfl
    | ninf => simp [Dbl.lt] at hy
    | nan => exact absurd rfl hn
  | nan => simp [Dbl.lt] at hx

theorem ne_initial_of_not_neg (y : Dbl) (hy : Dbl.lt y (Dbl.fin 0) = false) :
    Dbl.eq y (Dbl.fin (-1)) = false := by
  cases y with
  | fin b =>
    simp only [Dbl.lt, Dbl.eq, decide_eq_false_iff_not, not_lt] at hy ⊢
    intro h
    rw [h] at hy
    norm_num at hy
  | pinf => rfl
  | ninf => rfl
  | nan => rfl

theorem roundFlush_normal (prec : Nat) (emin emax : Int) (q a : ℚ)
    (h : Dbl.roundFlush prec emin emax q = Dbl.fin a) : a = 0 ∨ Dbl.pow2 emin ≤ |a| := by
  unfold Dbl.roundFlush at h
  simp only [] at h
  split_ifs at h with h1 h2 h3 h4 h5
  · left; cases h; rfl
  · left; cases h; rfl
  · right
    cases h
    exact le_trans (not_lt.mp h2) (le_abs_self _)
  · right
    cases h
    rw [abs_neg]
    exact le_trans (not_lt.mp h2) (le_abs_self _)

theorem toFloat_normal (d : Dbl) (a : ℚ) (h : Dbl.toFloat d = Dbl.fin a) :
    a = 0 ∨ Dbl.pow2 (-126) ≤ |a| := by
  cases d with
  | fin q => exact roundFlush_normal 24 (-126) 127 q a h
  | pinf => cases h
  | ninf => cases h
  | nan => cases h

theorem settled_zero : Dbl.ltz (Dbl.fin 0) (Dbl.fin 0) = false := by decide!

theorem settled_preRoll (p : Dbl) (r : Bool) (hp : p ≠ Dbl.nan) : Settled (preRoll p r).1 := by
  unfold preRoll
  by_cases h : Dbl.ltz p (Dbl.fin 0) = true
  · rw [if_pos h]
    exact ⟨by simp, settled_zero⟩
  · rw [if_neg h]
    exact ⟨hp, by simpa using h⟩

theorem settled_not_initial (d : Dbl) (h : Settled d) : Dbl.eqz d k_PpqInitialState = false := by
  obtain ⟨_, h2⟩ := h
  unfold Dbl.ltz at h2
  rw [daz_zero] at h2
  unfold Dbl.eqz
  rw [daz_initial]
  exact ne_initial_of_not_neg _ h2

theorem settled_lt (d p : Dbl) (h : Settled d) (hp : Dbl.ltz p (Dbl.fin 0) = true) :
    Dbl.ltz p d = true := by
  obtain ⟨h1, h2⟩ := h
  unfold Dbl.ltz at h2 hp ⊢
  rw [daz_zero] at h2 hp
  exact lt_of_neg_of_not_neg _ _ hp h2 (daz_ne_nan d h1)

theorem wrappedPpq_withBlock (t u : ProcessingThread E) (block : List SyncData) :
    wrappedPpq (t.withBlock block) = wrappedPpq (u.withBlock block) := rfl

theorem feed_settled (eng : KProcessor E) (owner : MiniProcessor E)
    (steps : List (Bool × List SyncData)) :
    ∀ (t : ProcessingThread E),
      (∀ s ∈ steps, wrappedPpq ((start owner).withBlock s.2) ≠ Dbl.nan) → steps ≠ [] →
      Settled (feed eng t steps).lastPpq := by
  induction steps with
  | nil => intro t _ h; exact absurd rfl h
  | cons s rest ih =>
    intro t hnan _
    obtain ⟨ip, block⟩ := s
    by_cases hr : rest = []
    · subst hr
      simp only [feed]
      rw [(processSubBlock_spec eng ip (t.withBlock block)).2.1]
      apply settled_preRoll
      rw [wrappedPpq_unpack, wrappedPpq_withBlock t (start owner)]
      exact hnan (ip, block) (List.mem_cons_self _ _)
    · simp only [feed]
      exact ih _ (fun s hs => hnan s (List.mem_cons_of_mem _ hs)) hr

/-- C3 (amended). For every sequence of sub-blocks processed from the start of
`run()` in which no loop-wrapped ppq was a NaN, the resync flag used for the
next sub-block, with loop-wrapped ppq `p`, is true exactly when it is the
first sub-block, or `|lastPpq - p| > 1.0`, or `p < lastPpq`, or the engine
query `isInitialPosition()` is true, where the difference is the one the code
computes under `ScopedNoDenormals`, rounded to the nearest `double` with
subnormal operands and results taken as zero, and the comparisons read a
subnormal number as zero. -/
theorem resync_decision (eng : KProcessor E) (owner : MiniProcessor E)
    (steps : List (Bool × List SyncData)) (block : List SyncData)
    (hnan : ∀ s ∈ steps, wrappedPpq ((start owner).withBlock s.2) ≠ Dbl.nan) :
    resyncFlag eng (atResync eng owner steps block) = true ↔
      (steps = [] ∨
        Dbl.gtz (Dbl.abs (Dbl.sub (atResync eng owner steps block).lastPpq
          (wrappedPpq (atResync eng owner steps block)))) k_resyncPpqThreshold = true ∨
        Dbl.ltz (wrappedPpq (atResync eng owner steps block))
          (atResync eng owner steps block).lastPpq = true ∨
        eng.isInitialPosition (atResync eng owner steps block).m_owner.m_processor = true) := by
  have hl : (atResync eng owner steps block).lastPpq = (feed eng (start owner) steps).lastPpq :=
    (unpack_frame eng subBlockSize 0 _).1
  by_cases hs : steps = []
  · subst hs
    have h0 : (atResync eng owner [] block).lastPpq = k_PpqInitialState := by rw [hl]; rfl
    have h1 : Dbl.eqz k_PpqInitialState k_PpqInitialState = true := by decide!
    simp only [resyncFlag, preRoll, resyncCondition, resyncLocal, h0, h1]
    split <;> simp
  · have hset := feed_settled eng owner steps (start owner) hnan hs
    rw [← hl] at hset
    have h1 := settled_not_initial _ hset
    simp only [resyncFlag, preRoll, resyncCondition, resyncLocal, h1, hs, false_or,
      Bool.or_false]
    by_cases hneg : Dbl.ltz (wrappedPpq (atResync eng owner steps block)) (Dbl.fin 0) = true
    · have h2 := settled_lt _ _ hset hneg
      simp [hneg, h2]
    · simp [hneg, or_assoc]

/-- C3, as stated, fails in two ways.  After a sub-block whose ppq is a NaN, the
next sub-block, with ppq `-2`, is resynced by the pre-roll clamp although it
is not the first one, the delta is a NaN, `-2 < NaN` is false and the engine is
not at its initial position.  After a sub-block with ppq `3 * 2^-54`, the next
sub-block, with ppq `1 + 2^-52`, is not resynced although the distance of the
two positions, `1 + 2^-54`, is greater than 1: the code rounds the difference
to the `double` 1. -/
theorem resync_decision_counterexample :
    (resyncFlag demoEngine (atResync demoEngine demoProcessor
        [(true, subBlockOf Dbl.nan Dbl.pinf)] (subBlockOf (Dbl.fin (-2)) Dbl.pinf)) = true ∧
      ¬ ([(true, subBlockOf Dbl.nan Dbl.pinf)] = ([] : List (Bool × List SyncData)) ∨
        Dbl.gtz (Dbl.abs (Dbl.sub (atResync demoEngine demoProcessor
            [(true, subBlockOf Dbl.nan Dbl.pinf)] (subBlockOf (Dbl.fin (-2)) Dbl.pinf)).lastPpq
          (wrappedPpq (atResync demoEngine demoProcessor
            [(true, subBlockOf Dbl.nan Dbl.pinf)] (subBlockOf (Dbl.fin (-2)) Dbl.pinf)))))
          k_resyncPpqThreshold = true ∨
        Dbl.ltz (wrappedPpq (atResync demoEngine demoProcessor
            [(true, subBlockOf Dbl.nan Dbl.pinf)] (subBlockOf (Dbl.fin (-2)) Dbl.pinf)))
          (atResync demoEngine demoProcessor
            [(true, subBlockOf Dbl.nan Dbl.pinf)] (subBlockOf (Dbl.fin (-2)) Dbl.pinf)).lastPpq
          = true ∨
        demoEngine.isInitialPosition (atResync demoEngine demoProcessor
            [(true, subBlockOf Dbl.nan Dbl.pinf)]
            (subBlockOf (Dbl.fin (-2)) Dbl.pinf)).m_owner.m_processor = true)) ∧
    ((atResync demoEngine demoProcessor
        [(true, subBlockOf (Dbl.fin (3 * Dbl.pow2 (-54))) Dbl.pinf)]
        (subBlockOf (Dbl.fin (1 + Dbl.pow2 (-52))) Dbl.pinf)).lastPpq
        = Dbl.fin (3 * Dbl.pow2 (-54)) ∧
      wrappedPpq (atResync demoEngine demoProcessor
        [(true, subBlockOf (Dbl.fin (3 * Dbl.pow2 (-54))) Dbl.pinf)]
        (subBlockOf (Dbl.fin (1 + Dbl.pow2 (-52))) Dbl.pinf))
        = Dbl.fin (1 + Dbl.pow2 (-52)) ∧
      (1 : ℚ) < |3 * Dbl.pow2 (-54) - (1 + Dbl.pow2 (-52))| ∧
      resyncFlag demoEngine (atResync demoEngine demoProcessor
        [(true, subBlockOf (Dbl.fin (3 * Dbl.pow2 (-54))) Dbl.pinf)]
        (subBlockOf (Dbl.fin (1 + Dbl.pow2 (-52))) Dbl.pinf)) = false) := by
  decide!

/-- Witness for the amended C3: the sequences `[0.0, 0.5, 0.6]` and
`[0.0, 0.5, 1.8]` of the specification on the stand-in engine; the first
resyncs at its first sub-block only, the second at its first and its third. -/
theorem resync_decision_witness :
    (resyncFlag demoEngine (atResync demoEngine demoProcessor []
        (subBlockOf (Dbl.fin 0) Dbl.pinf)) = true ∧
      resyncFlag demoEngine (atResync demoEngine demoProcessor
        [(true, subBlockOf (Dbl.fin 0) Dbl.pinf)] (subBlockOf (Dbl.fin (1 / 2)) Dbl.pinf))
          = false ∧
      resyncFlag demoEngine (atResync demoEngine demoProcessor
        [(true, subBlockOf (Dbl.fin 0) Dbl.pinf), (true, subBlockOf (Dbl.fin (1 / 2)) Dbl.pinf)]
        (subBlockOf (Dbl.fin (3 / 5)) Dbl.pinf)) = false ∧
      resyncFlag demoEngine (atResync demoEngine demoProcessor
        [(true, subBlockOf (Dbl.fin 0) Dbl.pinf), (true, subBlockOf (Dbl.fin (1 / 2)) Dbl.pinf)]
        (subBlockOf (Dbl.fin (9 / 5)) Dbl.pinf)) = true) ∧
    (resyncFlag demoEngine (atResync demoEngine demoProcessor
        [(true, subBlockOf (Dbl.fin 0) Dbl.pinf), (true, subBlockOf (Dbl.fin (1 / 2)) Dbl.pinf)]
        (subBlockOf (Dbl.fin (9 / 5)) Dbl.pinf)) = true ↔
      ([(true, subBlockOf (Dbl.fin 0) Dbl.pinf), (true, subBlockOf (Dbl.fin (1 / 2)) Dbl.pinf)]
          = ([] : List (Bool × List SyncData)) ∨
        Dbl.gtz (Dbl.abs (Dbl.sub (atResync demoEngine demoProcessor
            [(true, subBlockOf (Dbl.fin 0) Dbl.pinf),
              (true, subBlockOf (Dbl.fin (1 / 2)) Dbl.pinf)]
            (subBlockOf (Dbl.fin (9 / 5)) Dbl.pinf)).lastPpq
          (wrappedPpq (atResync demoEngine demoProcessor
            [(true, subBlockOf (Dbl.fin 0) Dbl.pinf),
              (true, subBlockOf (Dbl.fin (1 / 2)) Dbl.pinf)]
            (subBlockOf (Dbl.fin (9 / 5)) Dbl.pinf))))) k_resyncPpqThreshold = true ∨
        Dbl.ltz (wrappedPpq (atResync demoEngine demoProcessor
            [(true, subBlockOf (Dbl.fin 0) Dbl.pinf),
              (true, subBlockOf (Dbl.fin (1 / 2)) Dbl.pinf)]
            (subBlockOf (Dbl.fin (9 / 5)) Dbl.pinf)))
          (atResync demoEngine demoProcessor
            [(true, subBlockOf (Dbl.fin 0) Dbl.pinf),
              (true, subBlockOf (Dbl.fin (1 / 2)) Dbl.pinf)]
            (subBlockOf (Dbl.fin (9 / 5)) Dbl.pinf)).lastPpq = true ∨
        demoEngine.isInitialPosition (atResync demoEngine demoProcessor
            [(true, subBlockOf (Dbl.fin 0) Dbl.pinf),
              (true, subBlockOf (Dbl.fin (1 / 2)) Dbl.pinf)]
            (subBlockOf (Dbl.fin (9 / 5)) Dbl.pinf)).m_owner.m_processor = true)) :=
  ⟨by decide!, resync_decision demoEngine demoProcessor
    [(true, subBlockOf (Dbl.fin 0) Dbl.pinf), (true, subBlockOf (Dbl.fin (1 / 2)) Dbl.pinf)]
    (subBlockOf (Dbl.fin (9 / 5)) Dbl.pinf) (by decide!)⟩

theorem trunc_spec (x y : ℚ) (hx : 0 ≤ x) (hy : 0 < y) :
    0 ≤ x - (Dbl.trunc (x / y) : ℚ) * y ∧ x - (Dbl.trunc (x / y) : ℚ) * y < y := by
  have hq : 0 ≤ x / y := div_nonneg hx (le_of_lt hy)
  simp only [Dbl.trunc, hq, if_true]
  have h1 : ((⌊x / y⌋ : Int) : ℚ) ≤ x / y := Int.floor_le _
  have h2 : x / y < ((⌊x / y⌋ : Int) : ℚ) + 1 := Int.lt_floor_add_one _
  rw [le_div_iff₀ hy] at h1
  rw [div_lt_iff₀ hy] at h2
  constructor <;> linarith

theorem processBlock_lastTime (playHead : Option AudioPlayHead) (buffer : AudioSampleBuffer)
    (midiMessages : List Int) (m m1 : MiniProcessor E)
    (h : processBlock playHead buffer midiMessages m = some m1) :
    m1.m_lastTimeInQuarters = m.m_lastTimeInQuarters ∧ m1.m_processor = m.m_processor ∧
      m1.calls = m.calls := by
  unfold processBlock at h
  simp only at h
  split at h
  · cases h; exact ⟨rfl, rfl, rfl⟩
  · split at h
    · cases h
    · cases h; exact ⟨rfl, rfl, rfl⟩

theorem drain_succ (eng : KProcessor E) (isPlaying : Bool) (fuel : Nat)
    (t : ProcessingThread E) :
    drain eng isPlaying (fuel + 1) t =
      if toUInt32 t.m_owner.m_ringBuffer.getReadSpace ≥ subBlockSize then
        match readSubBlock t with
        | none => none
        | some t1 => drain eng isPlaying fuel (processSubBlock eng isPlaying t1)
      else some t := rfl

theorem pushParameters_frame (eng : KProcessor E) (bpm : Dbl) (n : Int)
    (t : ProcessingThread E) :
    (pushParameters eng bpm n t).m_owner.m_ringBuffer = t.m_owner.m_ringBuffer ∧
    (pushParameters eng bpm n t).m_owner.m_lastTimeInQuarters = t.m_owner.m_lastTimeInQuarters ∧
    (pushParameters eng bpm n t).m_owner.m_numChannels = t.m_owner.m_numChannels ∧
    (pushParameters eng bpm n t).lastPpq = t.lastPpq ∧
    (pushParameters eng bpm n t).syncDataBlock = t.syncDataBlock ∧
    (pushParameters eng bpm n t).audioSubBlocks0 = t.audioSubBlocks0 ∧
    (pushParameters eng bpm n t).audioSubBlocks1 = t.audioSubBlocks1 ∧
    ∃ evs, (pushParameters eng bpm n t).m_owner.calls = t.m_owner.calls ++ evs ∧
      processedLeft evs = [] ∧ processedRight evs = [] := by
  unfold pushParameters
  simp only
  split <;> split
  · exact ⟨rfl, rfl, rfl, rfl, rfl, rfl, rfl,
      [Event.setParameterFloat Key.Bpm bpm, Event.setParameterInt Key.TimeSignatureNumerator n],
      by simp [call], rfl, rfl⟩
  · exact ⟨rfl, rfl, rfl, rfl, rfl, rfl, rfl, [_], rfl, rfl, rfl⟩
  · exact ⟨rfl, rfl, rfl, rfl, rfl, rfl, rfl, [_], rfl, rfl, rfl⟩
  · exact ⟨rfl, rfl, rfl, rfl, rfl, rfl, rfl, [], by simp, rfl, rfl⟩

/-- C10. `getLastPosInQtrs()` is 0 after construction and is changed neither
by `processBlock` nor by an iteration of the processing loop that finds less
than a whole sub-block; after a sub-block processed with `isPlaying` true it is
the `ppqPosition` of the last record of that sub-block as the host gave it
(before the loop modulo and the pre-roll clamp); after a sub-block processed
with `isPlaying` false it is unchanged. -/
theorem lastPosInQtrs (eng : KProcessor E) :
    (∀ (engine : E) (playhead : CurrentPositionInfo) (valid : Bool),
      (MiniProcessor.construct eng engine playhead valid).getLastPosInQtrs = Dbl.fin 0) ∧
    (∀ (playHead : Option AudioPlayHead) (buffer : AudioSampleBuffer) (midi : List Int)
      (m m1 : MiniProcessor E), processBlock playHead buffer midi m = some m1 →
      m1.getLastPosInQtrs = m.getLastPosInQtrs) ∧
    (∀ (toFloat : Dbl → Dbl) (t t1 : ProcessingThread E),
      toUInt32 t.m_owner.m_ringBuffer.getReadSpace < subBlockSize →
      iteration eng toFloat t = some t1 →
      t1.m_owner.getLastPosInQtrs = t.m_owner.getLastPosInQtrs) ∧
    (∀ t : ProcessingThread E,
      (processSubBlock eng true t).m_owner.getLastPosInQtrs = (lastRecord t).ppqPosition) ∧
    (∀ t : ProcessingThread E,
      (processSubBlock eng false t).m_owner.getLastPosInQtrs = t.m_owner.getLastPosInQtrs) := by
  refine ⟨fun _ _ _ => rfl, ?_, ?_, ?_, ?_⟩
  · intro playHead buffer midi m m1 h
    exact (processBlock_lastTime playHead buffer midi m m1 h).1
  · intro toFloat t t1 hrs h
    have hnot : ¬ (toUInt32 t.m_owner.m_ringBuffer.getReadSpace ≥ subBlockSize) := by omega
    unfold iteration at h
    simp only at h
    split at h
    · split at h
      · cases h; rfl
      · split at h
        · cases h
        · rename_i t4 hd
          cases h
          have hf := pushParameters_frame eng
            (snapshot toFloat (t.call (eng.prepare t.m_owner.m_processor).2
              (Event.prepare (eng.prepare t.m_owner.m_processor).1))).2.1
            (snapshot toFloat (t.call (eng.prepare t.m_owner.m_processor).2
              (Event.prepare (eng.prepare t.m_owner.m_processor).1))).2.2
            (t.call (eng.prepare t.m_owner.m_processor).2
              (Event.prepare (eng.prepare t.m_owner.m_processor).1))
          have hrb : (pushParameters eng
              (snapshot toFloat (t.call (eng.prepare t.m_owner.m_processor).2
                (Event.prepare (eng.prepare t.m_owner.m_processor).1))).2.1
              (snapshot toFloat (t.call (eng.prepare t.m_owner.m_processor).2
                (Event.prepare (eng.prepare t.m_owner.m_processor).1))).2.2
              (t.call (eng.prepare t.m_owner.m_processor).2
                (Event.prepare (eng.prepare t.m_owner.m_processor).1))).m_owner.m_ringBuffer
              = t.m_owner.m_ringBuffer := hf.1
          rw [drain_succ, hrb, if_neg hnot] at hd
          cases hd
          exact hf.2.1
    · cases h; rfl
  · intro t
    simpa [MiniProcessor.getLastPosInQtrs] using (processSubBlock_spec eng true t).2.2.1
  · intro t
    simpa [MiniProcessor.getLastPosInQtrs] using (processSubBlock_spec eng false t).2.2.1

/-- Witness for C10: a stereo block of three samples given to `processBlock`
after construction, and an iteration of the processing loop on the newly
constructed processor. -/
theorem lastPosInQtrs_witness :
    (processBlock none { numSamples := 3, channels := [[Dbl.fin 1, Dbl.fin 2, Dbl.fin 3],
        [Dbl.fin 4, Dbl.fin 5, Dbl.fin 6]] } [] demoProcessor).map
      MiniProcessor.getLastPosInQtrs = some demoProcessor.getLastPosInQtrs ∧
    (iteration demoEngine id (start demoProcessor)).map
      (fun t => t.m_owner.getLastPosInQtrs) = some (start demoProcessor).m_owner.getLastPosInQtrs := by
  constructor
  · cases h : processBlock none { numSamples := 3, channels := [[Dbl.fin 1, Dbl.fin 2, Dbl.fin 3],
        [Dbl.fin 4, Dbl.fin 5, Dbl.fin 6]] } [] demoProcessor with
    | none =>
      have : (processBlock none { numSamples := 3, channels := [[Dbl.fin 1, Dbl.fin 2, Dbl.fin 3],
        [Dbl.fin 4, Dbl.fin 5, Dbl.fin 6]] } [] demoProcessor).isSome = true := by decide!
      rw [h] at this; cases this
    | some m1 =>
      rw [Option.map_some', (lastPosInQtrs demoEngine).2.1 _ _ _ _ _ h]
  · cases h : iteration demoEngine id (start demoProcessor) with
    | none =>
      have : (iteration demoEngine id (start demoProcessor)).isSome = true := by decide!
      rw [h] at this; cases this
    | some t1 =>
      rw [Option.map_some', (lastPosInQtrs demoEngine).2.2.1 id _ _ (by decide!) h]

end ProcessingThread

/-! ### processBlock pushes one record per sample, in order -/

theorem pushSample_spec (pb : AudioSampleBuffer) (nc : Int) (p l : Dbl) (i j : Nat)
    (st : Ingest) :
    (pushSample pb nc p l i j st).ringBuffer
        = st.ringBuffer.push (recordAt pb nc p l (i + j)) ∧
      (pushSample pb nc p l i j st).midiIt = st.midiIt ∧
      (pushSample pb nc p l i j st).midiSamplePosition = st.midiSamplePosition := by
  simp [pushSample, recordAt, triggerEnabled]

theorem pushSamples_spec (pb : AudioSampleBuffer) (nc : Int) (p l : Dbl) (i : Nat)
    (count : Nat) :
    ∀ (j : Nat) (st : Ingest),
      (pushSamples pb nc p l i count j st).ringBuffer
        = RingBuffer.pushAll st.ringBuffer
            ((List.range count).map fun d => recordAt pb nc p l (i + j + d)) := by
  induction count with
  | zero => intro j st; rfl
  | succ count ih =>
    intro j st
    rw [pushSamples, ih, (pushSample_spec pb nc p l i j st).1, List.range_succ_eq_map]
    simp only [List.map_cons, List.map_map, RingBuffer.pushAll, Nat.add_zero]
    congr 2
    funext d
    simp only [Function.comp, Nat.succ_eq_add_one]
    congr 1; omega

theorem pushAll_append {T : Type} (a b : List T) :
    ∀ rb : RingBuffer T, RingBuffer.pushAll rb (a ++ b)
      = RingBuffer.pushAll (RingBuffer.pushAll rb a) b := by
  induction a with
  | nil => intro rb; rfl
  | cons v a ih => intro rb; exact ih (rb.push v)

theorem pushSubBlocks_spec (pb : AudioSampleBuffer) (nc : Int) (p l : Dbl) (numSamples : Nat)
    (fuel : Nat) :
    ∀ (i : Nat) (st : Ingest), numSamples ≤ i + fuel →
      ∃ st1, pushSubBlocks pb nc p l numSamples fuel i st = some st1 ∧
        st1.ringBuffer = RingBuffer.pushAll st.ringBuffer
          ((List.range (numSamples - i)).map fun d => recordAt pb nc p l (i + d)) := by
  induction fuel with
  | zero =>
    intro i st h
    have h0 : numSamples - i = 0 := by omega
    refine ⟨st, ?_, by rw [h0]; rfl⟩
    simp only [pushSubBlocks]
    rw [if_neg (by omega)]
  | succ fuel ih =>
    intro i st h
    by_cases hi : i < numSamples
    · obtain ⟨st1, h1, h2⟩ := ih (i + subBlockSize)
        (pushSamples pb nc p l i (min subBlockSize (numSamples - i)) 0 st)
        (by simp only [subBlockSize]; omega)
      refine ⟨st1, ?_, ?_⟩
      · simp only [pushSubBlocks]
        rw [if_pos hi]; exact h1
      · rw [h2, pushSamples_spec, ← pushAll_append]
        congr 1
        have hsplit : numSamples - i
            = min subBlockSize (numSamples - i) + (numSamples - (i + subBlockSize)) := by
          simp only [subBlockSize]; omega
        conv_rhs => rw [hsplit, List.range_add, List.map_append]
        have e1 : (List.range (min subBlockSize (numSamples - i))).map
              (fun d => recordAt pb nc p l (i + 0 + d))
            = (List.range (min subBlockSize (numSamples - i))).map
              (fun d => recordAt pb nc p l (i + d)) := by
          simp only [Nat.add_zero]
        have e2 : (List.range (numSamples - (i + subBlockSize))).map
              (fun d => recordAt pb nc p l (i + subBlockSize + d))
            = ((List.range (numSamples - (i + subBlockSize))).map
                (fun x => min subBlockSize (numSamples - i) + x)).map
              (fun d => recordAt pb nc p l (i + d)) := by
          rw [List.map_map]
          apply List.map_congr_left
          intro d hd
          have hd2 : d < numSamples - (i + subBlockSize) := List.mem_range.mp hd
          have hmin : min subBlockSize (numSamples - i) = subBlockSize := by
            simp only [subBlockSize] at hd2 ⊢; omega
          simp only [Function.comp, hmin, Nat.add_assoc]
        rw [e1, e2]
    · have h0 : numSamples - i = 0 := by omega
      refine ⟨st, ?_, by rw [h0]; rfl⟩
      simp only [pushSubBlocks]
      rw [if_neg hi]

theorem holds_pushAll {T : Type} (vs : List T) :
    ∀ (rb : RingBuffer T) (q : List T), RingBuffer.Holds rb q →
      q.length + vs.length < rb.m_capacity →
      RingBuffer.Holds (RingBuffer.pushAll rb vs) (q ++ vs) ∧
        (RingBuffer.pushAll rb vs).m_capacity = rb.m_capacity := by
  induction vs with
  | nil => intro rb q h _; simpa [RingBuffer.pushAll] using h
  | cons v vs ih =>
    intro rb q h hlen
    simp only [List.length_cons] at hlen
    have h1 := RingBuffer.holds_push rb q v h (by omega)
    obtain ⟨h2, h3⟩ := ih (rb.push v) (q ++ [v]) h1
      (by simp only [List.length_append, List.length_singleton, RingBuffer.push_capacity]; omega)
    refine ⟨?_, ?_⟩
    · simpa [RingBuffer.pushAll] using h2
    · rw [RingBuffer.pushAll, h3]; rfl

theorem map_sample_range (b : AudioSampleBuffer) (c : Nat)
    (h : (b.channels.getD c []).length = b.numSamples) :
    (List.range b.numSamples).map (fun k => b.sample c k) = b.channels.getD c [] := by
  apply List.ext_getElem
  · rw [List.length_map, List.length_range, h]
  · intro k h1 h2
    simp only [List.getElem_map, List.getElem_range, AudioSampleBuffer.sample]
    rw [List.getD_eq_getElem _ _ h2]

theorem processBlock_stereo {E : Type} (m : MiniProcessor E) (q : List SyncData)
    (playHead : Option AudioPlayHead) (buffer : AudioSampleBuffer) (midi : List Int)
    (hh : RingBuffer.Holds m.m_ringBuffer q)
    (h2 : buffer.channels.length = 2)
    (hall : buffer.channels.all (fun ch => decide (ch.length = buffer.numSamples)) = true)
    (hfit : q.length + buffer.numSamples < m.m_ringBuffer.m_capacity) :
    ∃ (m1 : MiniProcessor E) (recs : List SyncData),
      processBlock playHead buffer midi m = some m1 ∧
      RingBuffer.Holds m1.m_ringBuffer (q ++ recs) ∧
      m1.m_ringBuffer.m_capacity = m.m_ringBuffer.m_capacity ∧
      recs.length = buffer.numSamples ∧
      recs.map (fun s => s.left) = buffer.channels.getD 0 [] ∧
      recs.map (fun s => s.right) = buffer.channels.getD 1 [] ∧
      m1.m_numChannels = 2 ∧ m1.calls = m.calls := by
  have hpb : processingBufferOf buffer = buffer := by
    simp [processingBufferOf, AudioSampleBuffer.getNumChannels, h2]
  have hnc : (min 2 ((buffer.getNumChannels : Nat) : Int)) = 2 := by
    simp [AudioSampleBuffer.getNumChannels, h2]
  have hch : ∀ c, c < 2 → (buffer.channels.getD c []).length = buffer.numSamples := by
    intro c hc
    rw [List.all_eq_true] at hall
    have hmem : buffer.channels.getD c [] ∈ buffer.channels := by
      rw [List.getD_eq_getElem _ _ (by omega)]
      exact List.getElem_mem _
    simpa using hall _ hmem
  by_cases hn : buffer.numSamples = 0
  · refine ⟨{ m with m_processingBuffer := buffer, m_numChannels := 2 }, [], ?_, by simpa using hh,
      rfl, by simp [hn], ?_, ?_, rfl, rfl⟩
    · simp [processBlock, hpb, hnc, hn]
    · have := hch 0 (by omega)
      rw [hn] at this
      rw [List.map_nil]; exact (List.length_eq_zero.mp this).symm
    · have := hch 1 (by omega)
      rw [hn] at this
      rw [List.map_nil]; exact (List.length_eq_zero.mp this).symm
  · let tr := readPlayhead playHead m.m_playhead
    obtain ⟨st1, hs1, hs2⟩ := pushSubBlocks_spec buffer 2 tr.ppqPosition tr.ppqLoopEnd
      buffer.numSamples buffer.numSamples 0
      { ringBuffer := m.m_ringBuffer, midiIt := (nextMidiEvent midi).1,
        midiSamplePosition := (nextMidiEvent midi).2 } (by omega)
    simp only [Nat.sub_zero, Nat.zero_add] at hs2
    obtain ⟨hh1, hcap⟩ := holds_pushAll
      ((List.range buffer.numSamples).map fun d =>
        recordAt buffer 2 tr.ppqPosition tr.ppqLoopEnd d) m.m_ringBuffer q hh
      (by simpa using hfit)
    refine ⟨{ m with
        m_processingBuffer := buffer
        m_numChannels := 2
        m_playhead := tr.playhead
        m_playheadValid := tr.playheadValid
        m_ringBuffer := st1.ringBuffer },
      ((List.range buffer.numSamples).map fun d =>
        recordAt buffer 2 tr.ppqPosition tr.ppqLoopEnd d), ?_, ?_, ?_, by simp, ?_, ?_, rfl, rfl⟩
    · simp only [processBlock, hpb, hnc]
      rw [if_neg (by simp [hn])]
      simp only [hs1, tr]
    · simp only [hs2]; exact hh1
    · simp only [hs2]; exact hcap
    · rw [List.map_map]
      exact map_sample_range buffer 0 (hch 0 (by omega))
    · rw [List.map_map]
      have : ((fun s : SyncData => s.right) ∘ fun d =>
          recordAt buffer 2 tr.ppqPosition tr.ppqLoopEnd d) = fun k => buffer.sample 1 k := by
        funext d; simp [recordAt]
      rw [this]
      exact map_sample_range buffer 1 (hch 1 (by omega))

namespace ProcessingThread
variable {E : Type}

/-! ### The unpacked arrays of a sub-block -/

theorem unpack_audio (eng : KProcessor E) (count : Nat) :
    ∀ (i : Nat) (t : ProcessingThread E),
      (unpack eng count i t).audioSubBlocks0.length = t.audioSubBlocks0.length ∧
      (unpack eng count i t).audioSubBlocks1.length = t.audioSubBlocks1.length ∧
      (∀ k, (unpack eng count i t).audioSubBlocks0[k]?
        = if i ≤ k ∧ k < i + count ∧ k < t.audioSubBlocks0.length
          then some (t.syncDataBlock.getD k SyncData.init).left else t.audioSubBlocks0[k]?) ∧
      (∀ k, (unpack eng count i t).audioSubBlocks1[k]?
        = if i ≤ k ∧ k < i + count ∧ k < t.audioSubBlocks1.length
          then some (t.syncDataBlock.getD k SyncData.init).right else t.audioSubBlocks1[k]?) := by
  induction count with
  | zero =>
    intro i t
    refine ⟨rfl, rfl, ?_, ?_⟩ <;> intro k <;> rw [if_neg (by omega)] <;> rfl
  | succ count ih =>
    intro i t
    have key : ∀ t2 : ProcessingThread E,
        t2.audioSubBlocks0 = t.audioSubBlocks0.set i (t.syncDataBlock.getD i SyncData.init).left →
        t2.audioSubBlocks1 = t.audioSubBlocks1.set i (t.syncDataBlock.getD i SyncData.init).right →
        t2.syncDataBlock = t.syncDataBlock →
        (unpack eng count (i + 1) t2).audioSubBlocks0.length = t.audioSubBlocks0.length ∧
        (unpack eng count (i + 1) t2).audioSubBlocks1.length = t.audioSubBlocks1.length ∧
        (∀ k, (unpack eng count (i + 1) t2).audioSubBlocks0[k]?
          = if i ≤ k ∧ k < i + (count + 1) ∧ k < t.audioSubBlocks0.length
            then some (t.syncDataBlock.getD k SyncData.init).left
            else t.audioSubBlocks0[k]?) ∧
        (∀ k, (unpack eng count (i + 1) t2).audioSubBlocks1[k]?
          = if i ≤ k ∧ k < i + (count + 1) ∧ k < t.audioSubBlocks1.length
            then some (t.syncDataBlock.getD k SyncData.init).right
            else t.audioSubBlocks1[k]?) := by
      intro t2 e0 e1 es
      obtain ⟨h1, h2, h3, h4⟩ := ih (i + 1) t2
      refine ⟨by rw [h1, e0, List.length_set], by rw [h2, e1, List.length_set], ?_, ?_⟩
      · intro k
        rw [h3 k, e0, es, List.length_set, List.getElem?_set]
        by_cases hik : i = k
        · subst hik
          by_cases hl : i < t.audioSubBlocks0.length
          · rw [if_neg (by omega), if_pos rfl, if_pos hl, if_pos ⟨le_refl _, by omega, hl⟩]
          · rw [if_neg (by omega), if_pos rfl, if_neg hl, if_neg (by omega)]
            exact (List.getElem?_eq_none (by omega)).symm
        · rw [if_neg hik]
          by_cases hc : i + 1 ≤ k ∧ k < i + 1 + count ∧ k < t.audioSubBlocks0.length
          · rw [if_pos hc, if_pos ⟨by omega, by omega, hc.2.2⟩]
          · rw [if_neg hc, if_neg (by omega)]
      · intro k
        rw [h4 k, e1, es, List.length_set, List.getElem?_set]
        by_cases hik : i = k
        · subst hik
          by_cases hl : i < t.audioSubBlocks1.length
          · rw [if_neg (by omega), if_pos rfl, if_pos hl, if_pos ⟨le_refl _, by omega, hl⟩]
          · rw [if_neg (by omega), if_pos rfl, if_neg hl, if_neg (by omega)]
            exact (List.getElem?_eq_none (by omega)).symm
        · rw [if_neg hik]
          by_cases hc : i + 1 ≤ k ∧ k < i + 1 + count ∧ k < t.audioSubBlocks1.length
          · rw [if_pos hc, if_pos ⟨by omega, by omega, hc.2.2⟩]
          · rw [if_neg hc, if_neg (by omega)]
    simp only [unpack]
    split
    · exact key _ rfl rfl rfl
    · exact key _ rfl rfl rfl

theorem unpack_block (eng : KProcessor E) (t : ProcessingThread E)
    (hb : t.syncDataBlock.length = subBlockSize) (h0 : t.audioSubBlocks0.length = subBlockSize)
    (h1 : t.audioSubBlocks1.length = subBlockSize) :
    (unpack eng subBlockSize 0 t).audioSubBlocks0 = t.syncDataBlock.map (fun s => s.left) ∧
    (unpack eng subBlockSize 0 t).audioSubBlocks1 = t.syncDataBlock.map (fun s => s.right) := by
  obtain ⟨_, _, g0, g1⟩ := unpack_audio eng subBlockSize 0 t
  constructor
  · apply List.ext_getElem?
    intro k
    rw [g0 k, h0]
    by_cases hk : k < subBlockSize
    · rw [if_pos ⟨by omega, by omega, hk⟩, List.getElem?_map,
        List.getD_eq_getElem _ _ (by omega : k < t.syncDataBlock.length),
        List.getElem?_eq_getElem (by omega : k < t.syncDataBlock.length)]
      rfl
    · rw [if_neg (by omega), List.getElem?_eq_none (by omega),
        List.getElem?_eq_none (by simp; omega)]
  · apply List.ext_getElem?
    intro k
    rw [g1 k, h1]
    by_cases hk : k < subBlockSize
    · rw [if_pos ⟨by omega, by omega, hk⟩, List.getElem?_map,
        List.getD_eq_getElem _ _ (by omega : k < t.syncDataBlock.length),
        List.getElem?_eq_getElem (by omega : k < t.syncDataBlock.length)]
      rfl
    · rw [if_neg (by omega), List.getElem?_eq_none (by omega),
        List.getElem?_eq_none (by simp; omega)]

end ProcessingThread

theorem processedLeft_append (a b : List Event) :
    processedLeft (a ++ b) = processedLeft a ++ processedLeft b := by
  simp [processedLeft]

theorem processedRight_append (a b : List Event) :
    processedRight (a ++ b) = processedRight a ++ processedRight b := by
  simp [processedRight]

theorem processedLeft_replicate (k : Nat) :
    processedLeft (List.replicate k Event.resetPosition) = [] := by
  induction k with
  | zero => rfl
  | succ k _ => simp [processedLeft, List.replicate_succ]

theorem processedRight_replicate (k : Nat) :
    processedRight (List.replicate k Event.resetPosition) = [] := by
  induction k with
  | zero => rfl
  | succ k _ => simp [processedRight, List.replicate_succ]

namespace ProcessingThread
variable {E : Type}

theorem processedLeft_transport (eng : KProcessor E) (isPlaying : Bool)
    (t : ProcessingThread E) : processedLeft (transportEvents eng isPlaying t) = [] := by
  unfold transportEvents
  split <;> split <;> simp [processedLeft]

theorem processedRight_transport (eng : KProcessor E) (isPlaying : Bool)
    (t : ProcessingThread E) : processedRight (transportEvents eng isPlaying t) = [] := by
  unfold transportEvents
  split <;> split <;> simp [processedRight]

theorem processSubBlock_audio (eng : KProcessor E) (isPlaying : Bool) (t : ProcessingThread E) :
    (processSubBlock eng isPlaying t).audioSubBlocks0
        = (unpack eng subBlockSize 0 t).audioSubBlocks0 ∧
      (processSubBlock eng isPlaying t).audioSubBlocks1
        = (unpack eng subBlockSize 0 t).audioSubBlocks1 ∧
      (processSubBlock eng isPlaying t).syncDataBlock = t.syncDataBlock := by
  obtain ⟨_, _, _, s4, s5, _, _, s8⟩ :=
    syncTransport_spec eng isPlaying (unpack eng subBlockSize 0 t)
  refine ⟨?_, ?_, ?_⟩
  · simp only [processSubBlock, call, s4]
  · simp only [processSubBlock, call, s5]
  · simp only [processSubBlock, call, s8, (unpack_frame eng subBlockSize 0 t).2.1]

theorem readSubBlock_eq (t : ProcessingThread E) :
    readSubBlock t =
      match t.m_owner.m_ringBuffer.read (subBlockSize : Int) with
      | none => none
      | some (out, rb) =>
        some { t with
          m_owner := { t.m_owner with m_ringBuffer := rb }
          syncDataBlock := out ++ t.syncDataBlock.drop out.length } := rfl

theorem ready_readSpace (t : ProcessingThread E) (q : List SyncData) (h : Ready t q) :
    t.m_owner.m_ringBuffer.getReadSpace = (q.length : Int) := by
  obtain ⟨hh, hc, _⟩ := h
  rw [RingBuffer.getReadSpace_of_holds _ q hh]
  have : q.length < subBlockSize * k_ringBufferElements := by
    rw [← hc]; exact hh.2.2.2.2.1
  simp only [subBlockSize, k_ringBufferElements] at this
  exact toInt32_natCast _ (by omega)

theorem subBlock_step (eng : KProcessor E) (isPlaying : Bool) (t : ProcessingThread E)
    (q : List SyncData) (h : Ready t q) (hq : subBlockSize ≤ q.length) :
    ∃ t1, readSubBlock t = some t1 ∧
      Ready (processSubBlock eng isPlaying t1) (q.drop subBlockSize) ∧
      (processSubBlock eng isPlaying t1).m_owner.m_numChannels = t.m_owner.m_numChannels ∧
      ∃ evs, (processSubBlock eng isPlaying t1).m_owner.calls = t.m_owner.calls ++ evs ∧
        processedLeft evs = (q.take subBlockSize).map (fun s => s.left) ∧
        processedRight evs = (q.take subBlockSize).map (fun s => s.right) := by
  obtain ⟨hh, hc, hb, h0, h1⟩ := h
  obtain ⟨rb1, hr, hh1, hcap⟩ :=
    RingBuffer.read_of_holds t.m_owner.m_ringBuffer q subBlockSize hh hq (by simp [subBlockSize])
  have htake : (q.take subBlockSize).length = subBlockSize := by
    rw [List.length_take]; omega
  have hsync : q.take subBlockSize ++ t.syncDataBlock.drop (q.take subBlockSize).length
      = q.take subBlockSize := by
    rw [htake, List.drop_of_length_le (by omega), List.append_nil]
  refine ⟨{ t with
      m_owner := { t.m_owner with m_ringBuffer := rb1 }
      syncDataBlock := q.take subBlockSize }, ?_, ?_, ?_, ?_⟩
  · rw [readSubBlock_eq, hr]
    simp only [hsync]
  · obtain ⟨a0, a1, a2⟩ := processSubBlock_audio eng isPlaying
      { t with m_owner := { t.m_owner with m_ringBuffer := rb1 }
               syncDataBlock := q.take subBlockSize }
    obtain ⟨l0, l1, _, _⟩ := unpack_audio eng subBlockSize 0
      { t with m_owner := { t.m_owner with m_ringBuffer := rb1 }
               syncDataBlock := q.take subBlockSize }
    obtain ⟨_, _, _, p4, _⟩ := processSubBlock_spec eng isPlaying
      { t with m_owner := { t.m_owner with m_ringBuffer := rb1 }
               syncDataBlock := q.take subBlockSize }
    refine ⟨?_, ?_, ?_, ?_, ?_⟩
    · rw [p4]; exact hh1
    · rw [p4]; exact hcap.trans hc
    · rw [a2]; exact htake
    · rw [a0, l0]; exact h0
    · rw [a1, l1]; exact h1
  · exact (processSubBlock_spec eng isPlaying _).2.2.2.2
  · obtain ⟨⟨k, hk⟩, _⟩ := processSubBlock_spec eng isPlaying
      { t with m_owner := { t.m_owner with m_ringBuffer := rb1 }
               syncDataBlock := q.take subBlockSize }
    obtain ⟨u0, u1⟩ := unpack_block eng
      { t with m_owner := { t.m_owner with m_ringBuffer := rb1 }
               syncDataBlock := q.take subBlockSize } htake h0 h1
    refine ⟨_, hk, ?_, ?_⟩
    · rw [processedLeft_append, processedLeft_append, processedLeft_replicate,
        processedLeft_transport, u0]
      simp [processedLeft]
    · rw [processedRight_append, processedRight_append, processedRight_replicate,
        processedRight_transport, u1]
      simp [processedRight]

theorem drain_spec (eng : KProcessor E) (isPlaying : Bool) (fuel : Nat) :
    ∀ (t : ProcessingThread E) (q : List SyncData), Ready t q →
      q.length / subBlockSize < fuel →
      ∃ t1 evs, drain eng isPlaying fuel t = some t1 ∧
        Ready t1 (q.drop (subBlockSize * (q.length / subBlockSize))) ∧
        t1.m_owner.m_numChannels = t.m_owner.m_numChannels ∧
        t1.m_owner.calls = t.m_owner.calls ++ evs ∧
        processedLeft evs
          = (q.take (subBlockSize * (q.length / subBlockSize))).map (fun s => s.left) ∧
        processedRight evs
          = (q.take (subBlockSize * (q.length / subBlockSize))).map (fun s => s.right) := by
  induction fuel with
  | zero => intro t q _ h; exact absurd h (Nat.not_lt_zero _)
  | succ fuel ih =>
    intro t q hr hf
    have hrs := ready_readSpace t q hr
    have hu : toUInt32 t.m_owner.m_ringBuffer.getReadSpace = q.length := by
      have hlt : q.length < subBlockSize * k_ringBufferElements := by
        rw [← hr.2.1]; exact hr.1.2.2.2.2.1
      simp only [subBlockSize, k_ringBufferElements] at hlt
      rw [hrs]; unfold toUInt32; omega
    rw [drain_succ, hu]
    by_cases hq : subBlockSize ≤ q.length
    · rw [if_pos hq]
      obtain ⟨t1, h1, hr1, hn1, evs1, hc1, hl1, hrr1⟩ := subBlock_step eng isPlaying t q hr hq
      rw [h1]
      simp only
      have hlen : (q.drop subBlockSize).length = q.length - subBlockSize := List.length_drop _ _
      have hdiv : q.length / subBlockSize = (q.length - subBlockSize) / subBlockSize + 1 := by
        simp only [subBlockSize] at hq ⊢; omega
      obtain ⟨t2, evs2, h2, hr2, hn2, hc2, hl2, hrr2⟩ :=
        ih (processSubBlock eng isPlaying t1) (q.drop subBlockSize) hr1 (by rw [hlen]; omega)
      have hmul : subBlockSize * (q.length / subBlockSize)
          = subBlockSize + subBlockSize * ((q.length - subBlockSize) / subBlockSize) := by
        rw [hdiv]; ring
      refine ⟨t2, evs1 ++ evs2, h2, ?_, by rw [hn2, hn1], ?_, ?_, ?_⟩
      · rw [hmul, ← List.drop_drop]
        rw [hlen] at hr2
        rw [Nat.add_comm] at *
        simpa [List.drop_drop, Nat.add_comm] using hr2
      · rw [hc2, hc1, List.append_assoc]
      · rw [processedLeft_append, hl1, hl2, hlen, hmul, ← List.map_append]
        congr 1
        rw [List.take_add]
      · rw [processedRight_append, hrr1, hrr2, hlen, hmul, ← List.map_append]
        congr 1
        rw [List.take_add]
    · rw [if_neg hq]
      have hz : q.length / subBlockSize = 0 := by
        simp only [subBlockSize] at hq ⊢; omega
      refine ⟨t, [], rfl, by simpa [hz] using hr, rfl, by simp, by simp [hz, processedLeft],
        by simp [hz, processedRight]⟩

theorem iteration_spec (eng : KProcessor E) (toFloat : Dbl → Dbl) (t : ProcessingThread E)
    (q : List SyncData) (hr : Ready t q) (hprep : ∀ e, (eng.prepare e).1 = true)
    (hnc : t.m_owner.m_numChannels = 2 ∨ (t.m_owner.m_numChannels = 0 ∧ q = [])) :
    ∃ t1 evs, iteration eng toFloat t = some t1 ∧
      Ready t1 (q.drop (subBlockSize * (q.length / subBlockSize))) ∧
      t1.m_owner.m_numChannels = t.m_owner.m_numChannels ∧
      t1.m_owner.calls = t.m_owner.calls ++ evs ∧
      processedLeft evs
        = (q.take (subBlockSize * (q.length / subBlockSize))).map (fun s => s.left) ∧
      processedRight evs
        = (q.take (subBlockSize * (q.length / subBlockSize))).map (fun s => s.right) := by
  have hrs := ready_readSpace t q hr
  by_cases hg : t.m_owner.m_numChannels > 0 ∧ t.m_owner.m_ringBuffer.getReadSpace > 0
  · have hp := hprep t.m_owner.m_processor
    obtain ⟨f1, f2, f3, f4, f5, f6, f7, evp, f8, f9, f10⟩ := pushParameters_frame eng
      (snapshot toFloat (t.call (eng.prepare t.m_owner.m_processor).2
        (Event.prepare (eng.prepare t.m_owner.m_processor).1))).2.1
      (snapshot toFloat (t.call (eng.prepare t.m_owner.m_processor).2
        (Event.prepare (eng.prepare t.m_owner.m_processor).1))).2.2
      (t.call (eng.prepare t.m_owner.m_processor).2
        (Event.prepare (eng.prepare t.m_owner.m_processor).1))
    have hr2 : Ready (pushParameters eng
        (snapshot toFloat (t.call (eng.prepare t.m_owner.m_processor).2
          (Event.prepare (eng.prepare t.m_owner.m_processor).1))).2.1
        (snapshot toFloat (t.call (eng.prepare t.m_owner.m_processor).2
          (Event.prepare (eng.prepare t.m_owner.m_processor).1))).2.2
        (t.call (eng.prepare t.m_owner.m_processor).2
          (Event.prepare (eng.prepare t.m_owner.m_processor).1))) q := by
      unfold Ready
      rw [f1, f5, f6, f7]
      exact hr
    have hu : toUInt32 (pushParameters eng
        (snapshot toFloat (t.call (eng.prepare t.m_owner.m_processor).2
          (Event.prepare (eng.prepare t.m_owner.m_processor).1))).2.1
        (snapshot toFloat (t.call (eng.prepare t.m_owner.m_processor).2
          (Event.prepare (eng.prepare t.m_owner.m_processor).1))).2.2
        (t.call (eng.prepare t.m_owner.m_processor).2
          (Event.prepare (eng.prepare t.m_owner.m_processor).1))).m_owner.m_ringBuffer.getReadSpace
        = q.length := by
      rw [ready_readSpace _ q hr2]; unfold toUInt32
      have hlt : q.length < subBlockSize * k_ringBufferElements := by
        rw [← hr.2.1]; exact hr.1.2.2.2.2.1
      simp only [subBlockSize, k_ringBufferElements] at hlt
      omega
    obtain ⟨t3, evs, hd, hr3, hn3, hc3, hl3, hrr3⟩ := drain_spec eng
      (snapshot toFloat (t.call (eng.prepare t.m_owner.m_processor).2
        (Event.prepare (eng.prepare t.m_owner.m_processor).1))).1
      (q.length / subBlockSize + 1) _ q hr2 (Nat.lt_succ_self _)
    refine ⟨wait t3, [Event.prepare (eng.prepare t.m_owner.m_processor).1] ++ evp ++ evs ++
      [Event.wait k_processingThreadTimeoutMs], ?_, ?_, ?_, ?_, ?_, ?_⟩
    · unfold iteration
      rw [if_pos hg]
      simp only []
      rw [if_neg (by rw [hp]; simp), hu, hd]
    · exact hr3
    · show t3.m_owner.m_numChannels = _
      rw [hn3, f3]; rfl
    · show t3.m_owner.calls ++ [Event.wait k_processingThreadTimeoutMs] = _
      rw [hc3, f8]
      simp [call, List.append_assoc]
    · rw [processedLeft_append, processedLeft_append, processedLeft_append, f9, hl3]
      simp [processedLeft]
    · rw [processedRight_append, processedRight_append, processedRight_append, f10, hrr3]
      simp [processedRight]
  · have hz : q.length / subBlockSize = 0 := by
      rcases hnc with h2 | ⟨_, h0⟩
      · rw [h2, hrs] at hg
        simp only [subBlockSize]
        omega
      · rw [h0]; rfl
    refine ⟨wait t, [Event.wait k_processingThreadTimeoutMs], ?_, by simpa [hz] using hr, rfl,
      rfl, by simp [hz, processedLeft], by simp [hz, processedRight]⟩
    unfold iteration
    rw [if_neg hg]

end ProcessingThread

open ProcessingThread

theorem runSteps_spec {E : Type} (eng : KProcessor E) (toFloat : Dbl → Dbl)
    (hprep : ∀ e, (eng.prepare e).1 = true) (steps : List Step) :
    ∀ (t : ProcessingThread E) (q : List SyncData) (pushed : Nat), Regrouped t q pushed →
      stereo steps = true →
      fits (subBlockSize * k_ringBufferElements) pushed
        (processedLeft t.m_owner.calls).length steps = true →
      ∃ t1 q1, runSteps eng toFloat t steps = some t1 ∧
        Regrouped t1 q1 (pushed + pushedSamples steps) ∧
        processedLeft t1.m_owner.calls ++ q1.map (fun s => s.left)
          = processedLeft t.m_owner.calls ++ q.map (fun s => s.left) ++ inputChannel 0 steps ∧
        processedRight t1.m_owner.calls ++ q1.map (fun s => s.right)
          = processedRight t.m_owner.calls ++ q.map (fun s => s.right) ++ inputChannel 1 steps ∧
        (∀ steps1, steps = steps1 ++ [Step.drain] → q1.length < subBlockSize) := by
  induction steps with
  | nil =>
    intro t q pushed hinv _ _
    exact ⟨t, q, rfl, by simpa [pushedSamples] using hinv, by simp [inputChannel],
      by simp [inputChannel], by intro s hs; simp at hs⟩
  | cons step rest ih =>
    intro t q pushed hinv hst hfit
    obtain ⟨hr, hnc, hlen, hrl, hmod⟩ := hinv
    cases step with
    | block playHead buffer midi =>
      simp only [stereo, Bool.and_eq_true, decide_eq_true_eq] at hst
      simp only [fits, Bool.and_eq_true, decide_eq_true_eq] at hfit
      obtain ⟨⟨hch2, hall⟩, hst2⟩ := hst
      obtain ⟨hcapfit, hfit2⟩ := hfit
      obtain ⟨m1, recs, hpb, hh1, hcap1, hrecs, hleft, hright, hnum, hcalls⟩ :=
        processBlock_stereo t.m_owner q playHead buffer midi hr.1 hch2 hall
          (by rw [hr.2.1]; omega)
      have hinv1 : Regrouped ({ t with m_owner := m1 } : ProcessingThread E) (q ++ recs)
          (pushed + buffer.numSamples) := by
        refine ⟨⟨hh1, by rw [hcap1]; exact hr.2.1, hr.2.2.1, hr.2.2.2.1, hr.2.2.2.2⟩,
          Or.inl hnum, ?_, ?_, ?_⟩
        · simp only [hcalls, List.length_append, hrecs]; omega
        · simp only [hcalls]; exact hrl
        · simp only [hcalls]; exact hmod
      obtain ⟨t1, q1, hrun, hinv2, hl, hrr, hlast⟩ :=
        ih ({ t with m_owner := m1 } : ProcessingThread E) (q ++ recs)
          (pushed + buffer.numSamples) hinv1 hst2 (by simpa only [hcalls] using hfit2)
      refine ⟨t1, q1, ?_, ?_, ?_, ?_, ?_⟩
      · simp only [runSteps, hpb]; exact hrun
      · simpa [pushedSamples, Nat.add_assoc] using hinv2
      · rw [hl]; simp only [hcalls, List.map_append, hleft, inputChannel, List.append_assoc]
      · rw [hrr]; simp only [hcalls, List.map_append, hright, inputChannel, List.append_assoc]
      · intro steps1 hs
        cases steps1 with
        | nil => simp at hs
        | cons s1 steps2 =>
          simp only [List.cons_append, List.cons.injEq] at hs
          exact hlast steps2 hs.2
    | drain =>
      simp only [stereo] at hst
      simp only [fits] at hfit
      obtain ⟨t1, evs, hit, hr1, hn1, hc1, hl1, hrr1⟩ := iteration_spec eng toFloat t q hr hprep hnc
      have hk : subBlockSize * (q.length / subBlockSize) ≤ q.length := Nat.mul_div_le _ _
      have hlt : (q.take (subBlockSize * (q.length / subBlockSize))).length
          = subBlockSize * (q.length / subBlockSize) := by
        rw [List.length_take]; omega
      have hd1 : (processedLeft t1.m_owner.calls).length
          = (processedLeft t.m_owner.calls).length
            + subBlockSize * (q.length / subBlockSize) := by
        rw [hc1, processedLeft_append, List.length_append, hl1, List.length_map, hlt]
      have hd2 : (processedRight t1.m_owner.calls).length
          = (processedRight t.m_owner.calls).length
            + subBlockSize * (q.length / subBlockSize) := by
        rw [hc1, processedRight_append, List.length_append, hrr1, List.length_map, hlt]
      have hinv1 : Regrouped t1 (q.drop (subBlockSize * (q.length / subBlockSize))) pushed := by
        refine ⟨hr1, ?_, ?_, ?_, ?_⟩
        · rw [hn1]
          rcases hnc with h | ⟨h, h0⟩
          · exact Or.inl h
          · exact Or.inr ⟨h, by rw [h0]; rfl⟩
        · rw [hd1, List.length_drop]; omega
        · rw [hd1, hd2, hrl]
        · rw [hd1, Nat.add_mul_mod_self_left]; exact hmod
      have hfit1 : fits (subBlockSize * k_ringBufferElements) pushed
          (processedLeft t1.m_owner.calls).length rest = true := by
        have : (processedLeft t1.m_owner.calls).length
            = subBlockSize * (pushed / subBlockSize) := by
          rw [hd1]
          simp only [subBlockSize] at hmod hlen ⊢
          omega
        rw [this]; exact hfit
      obtain ⟨t2, q2, hrun, hinv2, hl, hrr, hlast⟩ :=
        ih t1 (q.drop (subBlockSize * (q.length / subBlockSize))) pushed hinv1 hst hfit1
      refine ⟨t2, q2, ?_, ?_, ?_, ?_, ?_⟩
      · simp only [runSteps, hit]; exact hrun
      · simpa [pushedSamples] using hinv2
      · rw [hl, hc1, processedLeft_append, hl1]
        simp only [inputChannel, List.append_assoc]
        rw [← List.append_assoc ((q.take _).map _), ← List.map_append, List.take_append_drop]
      · rw [hrr, hc1, processedRight_append, hrr1]
        simp only [inputChannel, List.append_assoc]
        rw [← List.append_assoc ((q.take _).map _), ← List.map_append, List.take_append_drop]
      · intro steps1 hs
        cases steps1 with
        | nil =>
          simp only [List.nil_append, List.cons.injEq, true_and] at hs
          subst hs
          simp only [runSteps] at hrun
          cases hrun
          have e3 := ready_readSpace _ _ hinv2.1
          have e4 := ready_readSpace _ _ hr1
          have hq2 : q2.length = (q.drop (subBlockSize * (q.length / subBlockSize))).length :=
            Int.ofNat.inj (e3.symm.trans e4)
          rw [hq2, List.length_drop]
          have hm := Nat.mod_add_div q.length subBlockSize
          have hm2 := Nat.mod_lt q.length (show 0 < subBlockSize by decide)
          generalize subBlockSize * (q.length / subBlockSize) = a at hm ⊢
          generalize q.length % subBlockSize = b at hm hm2
          generalize subBlockSize = c at hm2 ⊢
          omega
        | cons s1 steps2 =>
          simp only [List.cons_append, List.cons.injEq] at hs
          exact hlast steps2 hs.2

open ProcessingThread

theorem regrouped_start {E : Type} (eng : KProcessor E) (engine : E)
    (playhead : CurrentPositionInfo) (valid : Bool) :
    Regrouped (start (MiniProcessor.construct eng engine playhead valid)) [] 0 := by
  refine ⟨⟨?_, rfl, ?_, ?_, ?_⟩, Or.inr ⟨rfl, rfl⟩, rfl, rfl, rfl⟩
  · exact RingBuffer.holds_construct _ _ (by decide) (by decide)
  · exact List.length_replicate _ _
  · exact List.length_replicate _ _
  · exact List.length_replicate _ _

/-- C2. End-to-end regrouping: for every schedule of `processBlock` calls with
stereo input of arbitrary sizes and of iterations of the processing loop, run
from construction, in which `prepare` succeeds and the ring buffer never holds
`32 * 4096 = 131072` or more unread records, the run completes, and the left
and the right arrays given to the successive `process` calls, concatenated, are
prefixes of the concatenated samples of channel 0 and of channel 1 of the
blocks; after a schedule that ends with an iteration, with `L` samples pushed
in total, exactly `32 * (L / 32)` samples were delivered and `L mod 32` stay
in the ring buffer. -/
theorem regrouping {E : Type} (eng : KProcessor E) (toFloat : Dbl → Dbl) (engine : E)
    (playhead : CurrentPositionInfo) (valid : Bool) (steps : List Step)
    (hprep : ∀ e, (eng.prepare e).1 = true) (hst : stereo steps = true)
    (hfit : fits (subBlockSize * k_ringBufferElements) 0 0 steps = true) :
    ∃ t, runSteps eng toFloat (start (MiniProcessor.construct eng engine playhead valid)) steps
        = some t ∧
      processedLeft t.m_owner.calls <+: inputChannel 0 steps ∧
      processedRight t.m_owner.calls <+: inputChannel 1 steps ∧
      (∀ steps1, steps = steps1 ++ [Step.drain] →
        (processedLeft t.m_owner.calls).length
          = subBlockSize * (pushedSamples steps / subBlockSize) ∧
        (processedRight t.m_owner.calls).length
          = subBlockSize * (pushedSamples steps / subBlockSize) ∧
        t.m_owner.m_ringBuffer.getReadSpace
          = ((pushedSamples steps % subBlockSize : Nat) : Int)) := by
  obtain ⟨t, q, hrun, hinv, hl, hr, hlast⟩ := runSteps_spec eng toFloat hprep steps
    (start (MiniProcessor.construct eng engine playhead valid)) [] 0
    (regrouped_start eng engine playhead valid) hst hfit
  have h0l : processedLeft
      (start (MiniProcessor.construct eng engine playhead valid)).m_owner.calls = [] := rfl
  have h0r : processedRight
      (start (MiniProcessor.construct eng engine playhead valid)).m_owner.calls = [] := rfl
  rw [h0l] at hl
  rw [h0r] at hr
  simp only [List.map_nil, List.nil_append] at hl hr
  refine ⟨t, hrun, ⟨_, hl⟩, ⟨_, hr⟩, ?_⟩
  intro steps1 hs
  have hq := hlast steps1 hs
  obtain ⟨hready, _, hsum, hrl, hmod⟩ := hinv
  rw [Nat.zero_add] at hsum
  have hrs := ready_readSpace t q hready
  have hm := Nat.mod_add_div (pushedSamples steps) subBlockSize
  have hD := Nat.mod_add_div (processedLeft t.m_owner.calls).length subBlockSize
  rw [hmod, Nat.zero_add] at hD
  have key : (processedLeft t.m_owner.calls).length
        = subBlockSize * (pushedSamples steps / subBlockSize) ∧
      q.length = pushedSamples steps % subBlockSize := by
    have hdiv : pushedSamples steps / subBlockSize
        = (processedLeft t.m_owner.calls).length / subBlockSize := by
      rw [← hsum, ← hD, Nat.mul_add_div (by decide), Nat.div_eq_of_lt hq, Nat.add_zero,
        Nat.mul_div_cancel_left _ (by decide)]
    constructor
    · rw [hdiv, hD]
    · rw [hdiv, hD] at hm
      omega
  exact ⟨key.1, by rw [hrl, key.1], by rw [hrs, key.2]⟩

/-- Witness for C2: a stereo block of 33 samples, an iteration, a stereo block
of 31 samples and an iteration, on the stand-in engine. -/
theorem regrouping_witness :
    ∃ t, runSteps demoEngine id (start demoProcessor) demoSchedule = some t ∧
      processedLeft t.m_owner.calls <+: inputChannel 0 demoSchedule ∧
      processedRight t.m_owner.calls <+: inputChannel 1 demoSchedule ∧
      (processedLeft t.m_owner.calls).length = subBlockSize * (64 / subBlockSize) ∧
      t.m_owner.m_ringBuffer.getReadSpace = ((64 % subBlockSize : Nat) : Int) := by
  obtain ⟨t, h1, h2, h3, h4⟩ := regrouping demoEngine id { playing := false, initial := true }
    { isPlaying := false, bpm := Dbl.fin 0, timeSigNumerator := 0, ppqPosition := Dbl.fin 0,
      isLooping := false, ppqLoopEnd := Dbl.fin 0 } false demoSchedule
    (fun _ => rfl) (by decide!) (by decide!)
  exact ⟨t, h1, h2, h3,
    (h4 [Step.block none (demoBuffer 33) [], Step.drain, Step.block none (demoBuffer 31) []]
      rfl).1,
    (h4 [Step.block none (demoBuffer 33) [], Step.drain, Step.block none (demoBuffer 31) []]
      rfl).2.2⟩

namespace ProcessingThread
variable {E : Type}

/-! ### The guard and the prepare step of an iteration -/

theorem newCalls_call (t : ProcessingThread E) (engine : E) (ev : Event) :
    newCalls t (t.call engine ev) = [ev] := by
  simp [newCalls, call]

/-- C11. Idle safety: an iteration of the processing loop entered with a
channel count of 0 or with `getReadSpace() = 0` goes to the timed wait and
does nothing else: the only logged event is the wait, so no call is made into
the engine, and the engine state, the ring buffer with its indices, `lastPpq`
and the last time in quarters are unchanged. -/
theorem idle_safety (eng : KProcessor E) (toFloat : Dbl → Dbl) (t : ProcessingThread E)
    (h : t.m_owner.m_numChannels = 0 ∨ t.m_owner.m_ringBuffer.getReadSpace = 0) :
    ∃ t1, iteration eng toFloat t = some t1 ∧
      newCalls t t1 = [Event.wait k_processingThreadTimeoutMs] ∧
      t1.m_owner.m_processor = t.m_owner.m_processor ∧
      t1.m_owner.m_ringBuffer = t.m_owner.m_ringBuffer ∧
      t1.lastPpq = t.lastPpq ∧
      t1.m_owner.getLastPosInQtrs = t.m_owner.getLastPosInQtrs := by
  have hg : ¬ (t.m_owner.m_numChannels > 0 ∧ t.m_owner.m_ringBuffer.getReadSpace > 0) := by
    rcases h with h | h <;> omega
  refine ⟨wait t, ?_, newCalls_call _ _ _, rfl, rfl, rfl, rfl⟩
  unfold iteration
  rw [if_neg hg]

/-- Witness for C11: the first iteration after construction, the channel count
still 0. -/
theorem idle_safety_witness :
    ∃ t1, iteration demoEngine id (start demoProcessor) = some t1 ∧
      newCalls (start demoProcessor) t1 = [Event.wait k_processingThreadTimeoutMs] ∧
      t1.m_owner.m_processor = (start demoProcessor).m_owner.m_processor ∧
      t1.m_owner.m_ringBuffer = (start demoProcessor).m_owner.m_ringBuffer ∧
      t1.lastPpq = (start demoProcessor).lastPpq ∧
      t1.m_owner.getLastPosInQtrs = (start demoProcessor).m_owner.getLastPosInQtrs :=
  idle_safety demoEngine id (start demoProcessor) (Or.inl rfl)

/-- C12. No partial processing on prepare failure: in an iteration that finds
data and whose `prepare()` returns false the run completes, `prepare` is the
only call into the engine, and the thread afterwards differs from the thread
before in the engine state and the log only: the ring buffer with its tail and
read space, `syncDataBlock`, `lastPpq` and the last time in quarters are
unchanged, so a later iteration finds the same records. -/
theorem prepare_failure_frame (eng : KProcessor E) (toFloat : Dbl → Dbl)
    (t : ProcessingThread E)
    (hg : t.m_owner.m_numChannels > 0 ∧ t.m_owner.m_ringBuffer.getReadSpace > 0)
    (hp : (eng.prepare t.m_owner.m_processor).1 = false) :
    ∃ t1, iteration eng toFloat t = some t1 ∧
      newCalls t t1 = [Event.prepare false] ∧
      t1 = { t with m_owner := { t.m_owner with
              m_processor := (eng.prepare t.m_owner.m_processor).2
              calls := t.m_owner.calls ++ [Event.prepare false] } } ∧
      t1.m_owner.m_ringBuffer.m_tail = t.m_owner.m_ringBuffer.m_tail ∧
      t1.m_owner.m_ringBuffer.getReadSpace = t.m_owner.m_ringBuffer.getReadSpace ∧
      t1.lastPpq = t.lastPpq ∧
      t1.m_owner.getLastPosInQtrs = t.m_owner.getLastPosInQtrs := by
  refine ⟨t.call (eng.prepare t.m_owner.m_processor).2 (Event.prepare false), ?_,
    newCalls_call _ _ _, rfl, rfl, rfl, rfl, rfl⟩
  unfold iteration
  rw [if_pos hg]
  simp only []
  rw [if_pos (by rw [hp]; rfl), hp]

/-- Witness for C12: three records in the ring buffer and an engine whose
`prepare` fails. -/
theorem prepare_failure_frame_witness :
    ∃ t1, iteration failingEngine id (start (demoAfterBlock none (demoBuffer 3))) = some t1 ∧
      newCalls (start (demoAfterBlock none (demoBuffer 3))) t1 = [Event.prepare false] ∧
      t1.m_owner.m_ringBuffer.getReadSpace = 3 ∧
      t1.lastPpq = k_PpqInitialState := by
  obtain ⟨t1, h1, h2, _, _, h5, h6, _⟩ := prepare_failure_frame failingEngine id
    (start (demoAfterBlock none (demoBuffer 3))) (by decide!) rfl
  exact ⟨t1, h1, h2, by rw [h5]; decide!, h6⟩

/-- C13 fails on the code: the `continue` taken when `prepare()` fails jumps
over the timed wait.  With three records in the ring buffer and an engine whose
`prepare` fails, two consecutive iterations call `prepare` twice with no wait
in between, while an iteration whose `prepare` succeeds, and an idle one, end
with the wait. -/
theorem prepare_retry_spins :
    ((iteration failingEngine id (start (demoAfterBlock none (demoBuffer 3)))).bind
        (iteration failingEngine id)).map
      (newCalls (start (demoAfterBlock none (demoBuffer 3))))
      = some [Event.prepare false, Event.prepare false] ∧
    (iteration demoEngine id (start (demoAfterBlock none (demoBuffer 3)))).map
      (newCalls (start (demoAfterBlock none (demoBuffer 3))))
      = some [Event.prepare true, Event.wait k_processingThreadTimeoutMs] ∧
    (iteration failingEngine id (start demoProcessor)).map (newCalls (start demoProcessor))
      = some [Event.wait k_processingThreadTimeoutMs] := by
  decide!

end ProcessingThread
/-! ### The records of one processBlock call -/

theorem processingBufferOf_numSamples (buffer : AudioSampleBuffer) :
    (processingBufferOf buffer).numSamples = buffer.numSamples := by
  unfold processingBufferOf
  split <;> rfl

theorem processingBufferOf_channels (buffer : AudioSampleBuffer) :
    (min 2 (((processingBufferOf buffer).getNumChannels : Nat) : Int)) = 2 := by
  unfold processingBufferOf
  split
  · simp [AudioSampleBuffer.getNumChannels, AudioSampleBuffer.copyChannel,
      AudioSampleBuffer.setSize]
  · rename_i h
    simp only [AudioSampleBuffer.getNumChannels] at h ⊢
    omega

theorem processBlock_records {E : Type} (playHead : Option AudioPlayHead)
    (buffer : AudioSampleBuffer) (midi : List Int) (m : MiniProcessor E) :
    ∃ m1, processBlock playHead buffer midi m = some m1 ∧
      m1.m_ringBuffer
        = RingBuffer.pushAll m.m_ringBuffer (blockRecords playHead buffer m.m_playhead) ∧
      m1.m_numChannels = 2 ∧
      m1.m_playheadValid = (if buffer.numSamples = 0 then m.m_playheadValid
        else (readPlayhead playHead m.m_playhead).playheadValid) ∧
      m1.m_playhead = (if buffer.numSamples = 0 then m.m_playhead
        else (readPlayhead playHead m.m_playhead).playhead) ∧
      m1.m_processor = m.m_processor ∧ m1.calls = m.calls ∧
      m1.m_processingBuffer = processingBufferOf buffer := by
  have hns := processingBufferOf_numSamples buffer
  have hnc := processingBufferOf_channels buffer
  by_cases hn : buffer.numSamples = 0
  · refine ⟨{ m with m_processingBuffer := processingBufferOf buffer, m_numChannels := 2 },
      ?_, ?_, rfl, by simp [hn], by simp [hn], rfl, rfl, rfl⟩
    · simp [processBlock, hns, hnc, hn]
    · simp [blockRecords, hn, RingBuffer.pushAll]
  · obtain ⟨st1, hs1, hs2⟩ := pushSubBlocks_spec (processingBufferOf buffer) 2
      (readPlayhead playHead m.m_playhead).ppqPosition
      (readPlayhead playHead m.m_playhead).ppqLoopEnd
      buffer.numSamples buffer.numSamples 0
      { ringBuffer := m.m_ringBuffer, midiIt := (nextMidiEvent midi).1,
        midiSamplePosition := (nextMidiEvent midi).2 } (by omega)
    simp only [Nat.sub_zero, Nat.zero_add] at hs2
    refine ⟨{ m with
        m_processingBuffer := processingBufferOf buffer
        m_numChannels := 2
        m_playhead := (readPlayhead playHead m.m_playhead).playhead
        m_playheadValid := (readPlayhead playHead m.m_playhead).playheadValid
        m_ringBuffer := st1.ringBuffer }, ?_, ?_, rfl, by simp [hn], by simp [hn], rfl, rfl, rfl⟩
    · simp only [processBlock, hns, hnc]
      rw [if_neg (by simp [hn])]
      simp only [hs1]
    · simp only [hs2, blockRecords]

theorem blockRecords_length (playHead : Option AudioPlayHead) (buffer : AudioSampleBuffer)
    (stored : CurrentPositionInfo) :
    (blockRecords playHead buffer stored).length = buffer.numSamples := by
  simp [blockRecords]

theorem blockRecords_get (playHead : Option AudioPlayHead) (buffer : AudioSampleBuffer)
    (stored : CurrentPositionInfo) (k : Nat) (hk : k < buffer.numSamples) :
    (blockRecords playHead buffer stored)[k]?
      = some (recordAt (processingBufferOf buffer) 2 (readPlayhead playHead stored).ppqPosition
          (readPlayhead playHead stored).ppqLoopEnd k) := by
  simp [blockRecords, List.getElem?_map, List.getElem?_range hk]

theorem blockRecords_mem (playHead : Option AudioPlayHead) (buffer : AudioSampleBuffer)
    (stored : CurrentPositionInfo) (r : SyncData) (hr : r ∈ blockRecords playHead buffer stored) :
    r.ppqPosition = (readPlayhead playHead stored).ppqPosition ∧
      r.ppqLoopEnd = (readPlayhead playHead stored).ppqLoopEnd ∧ r.noteOn = false := by
  simp only [blockRecords, List.mem_map] at hr
  obtain ⟨k, _, rfl⟩ := hr
  exact ⟨rfl, rfl, rfl⟩

theorem mono_samples (buffer : AudioSampleBuffer) (h1 : buffer.channels.length = 1) (k : Nat)
    (hk : k < buffer.numSamples) :
    (processingBufferOf buffer).sample 0 k = buffer.sample 0 k ∧
      (processingBufferOf buffer).sample 1 k = buffer.sample 0 k := by
  have hr : List.range 2 = [0, 1] := by decide
  simp [processingBufferOf, AudioSampleBuffer.getNumChannels, h1, AudioSampleBuffer.copyChannel,
    AudioSampleBuffer.setSize, AudioSampleBuffer.sample, hr, hk, List.getD_eq_getElem?_getD,
    List.getElem?_append, List.getElem?_map, List.getElem?_range]

theorem recordAt_right (pb : AudioSampleBuffer) (p l : Dbl) (k : Nat) :
    (recordAt pb 2 p l k).right = pb.sample 1 k := by
  simp [recordAt]

/-- C14. Block-granular transport in records: a `processBlock` call with
`numSamples > 0` returns, and the ring buffer afterwards is the one before with
a list of exactly `numSamples` records pushed first to last, the record `k`
holding the samples of index `k` of the two channels of the processing buffer;
all the records carry one and the same `ppqPosition` and one and the same
`ppqLoopEnd`, whatever the samples and the number of chunks of 32; where the
ring buffer held the unread records `q` and has room for the block it holds
`q` followed by the new records. -/
theorem block_granular_transport {E : Type} (playHead : Option AudioPlayHead)
    (buffer : AudioSampleBuffer) (midi : List Int) (m : MiniProcessor E)
    (hn : 0 < buffer.numSamples) :
    ∃ (m1 : MiniProcessor E) (recs : List SyncData) (p l : Dbl),
      processBlock playHead buffer midi m = some m1 ∧
      m1.m_ringBuffer = RingBuffer.pushAll m.m_ringBuffer recs ∧
      recs.length = buffer.numSamples ∧ recs ≠ [] ∧
      (∀ k, k < buffer.numSamples → ∃ r, recs[k]? = some r ∧
        r.left = (processingBufferOf buffer).sample 0 k ∧
        r.right = (processingBufferOf buffer).sample 1 k) ∧
      (∀ r ∈ recs, r.ppqPosition = p ∧ r.ppqLoopEnd = l) ∧
      (∀ q, RingBuffer.Holds m.m_ringBuffer q →
        q.length + buffer.numSamples < m.m_ringBuffer.m_capacity →
        RingBuffer.Holds m1.m_ringBuffer (q ++ recs)) := by
  obtain ⟨m1, h1, h2, _⟩ := processBlock_records playHead buffer midi m
  have hlen := blockRecords_length playHead buffer m.m_playhead
  refine ⟨m1, blockRecords playHead buffer m.m_playhead,
    (readPlayhead playHead m.m_playhead).ppqPosition,
    (readPlayhead playHead m.m_playhead).ppqLoopEnd, h1, h2, hlen, ?_, ?_, ?_, ?_⟩
  · intro h0
    rw [h0] at hlen
    simp only [List.length_nil] at hlen
    omega
  · intro k hk
    exact ⟨_, blockRecords_get playHead buffer m.m_playhead k hk, rfl, recordAt_right _ _ _ _⟩
  · intro r hr
    exact ⟨(blockRecords_mem playHead buffer m.m_playhead r hr).1,
      (blockRecords_mem playHead buffer m.m_playhead r hr).2.1⟩
  · intro q hq hfit
    rw [h2]
    exact (holds_pushAll _ m.m_ringBuffer q hq (by rw [hlen]; exact hfit)).1

/-- Witness for C14: a stereo block of 33 samples (two chunks) with a looping
playhead at `9.5` and a loop end of `4.0`, on a newly constructed processor. -/
theorem block_granular_transport_witness :
    ∃ (m1 : MiniProcessor DemoState) (recs : List SyncData) (p l : Dbl),
      processBlock (some demoPlayHead) (demoBuffer 33) [] demoProcessor = some m1 ∧
      m1.m_ringBuffer = RingBuffer.pushAll demoProcessor.m_ringBuffer recs ∧
      recs.length = 33 ∧
      (∀ r ∈ recs, r.ppqPosition = p ∧ r.ppqLoopEnd = l) := by
  obtain ⟨m1, recs, p, l, h1, h2, h3, _, _, h6, _⟩ :=
    block_granular_transport (some demoPlayHead) (demoBuffer 33) [] demoProcessor (by decide)
  exact ⟨m1, recs, p, l, h1, h2, h3, h6⟩

/-- C15 fails on the code as stated: `processBlock` returns on a buffer of no
samples before it reads the playhead.  With a playhead that is supplied and
whose `getCurrentPosition` succeeds, a call with a stereo buffer of no samples
leaves `m_playheadValid` false; and after a block that set the flag, a call
without playhead and with no samples leaves it true. -/
theorem transport_at_ingest_counterexample :
    (demoPlayHead.getCurrentPosition demoProcessor.m_playhead).1 = true ∧
    (processBlock (some demoPlayHead) (demoBuffer 0) [] demoProcessor).map
        (fun m => m.m_playheadValid) = some false ∧
    (demoAfterBlock (some demoPlayHead) (demoBuffer 3)).m_playheadValid = true ∧
    (processBlock none (demoBuffer 0) []
        (demoAfterBlock (some demoPlayHead) (demoBuffer 3))).map
        (fun m => m.m_playheadValid) = some true := by
  decide!

/-- C15, amended. Transport defaults at ingest: a `processBlock` call returns
and pushes `numSamples` records.  Every record carries the `ppqPosition` of
the host when a playhead is supplied and its `getCurrentPosition` succeeds,
with the `ppqLoopEnd` of the host when `isLooping` is true and `+infinity`
when it is false; without a playhead, or when `getCurrentPosition` fails,
every record carries `ppqPosition = 0` and `ppqLoopEnd = +infinity`.  After a
call with `numSamples > 0`, `m_playheadValid` is true exactly when the
playhead is supplied and `getCurrentPosition` succeeds; a call with
`numSamples = 0` leaves `m_playheadValid` and `m_playhead` as they were. -/
theorem transport_at_ingest {E : Type} (playHead : Option AudioPlayHead)
    (buffer : AudioSampleBuffer) (midi : List Int) (m : MiniProcessor E) :
    ∃ (m1 : MiniProcessor E) (recs : List SyncData),
      processBlock playHead buffer midi m = some m1 ∧
      m1.m_ringBuffer = RingBuffer.pushAll m.m_ringBuffer recs ∧
      recs.length = buffer.numSamples ∧
      (∀ r ∈ recs,
        (∀ ph, playHead = some ph → (ph.getCurrentPosition m.m_playhead).1 = true →
          r.ppqPosition = (ph.getCurrentPosition m.m_playhead).2.ppqPosition ∧
          ((ph.getCurrentPosition m.m_playhead).2.isLooping = true →
            r.ppqLoopEnd = (ph.getCurrentPosition m.m_playhead).2.ppqLoopEnd) ∧
          ((ph.getCurrentPosition m.m_playhead).2.isLooping = false →
            r.ppqLoopEnd = Dbl.pinf)) ∧
        (playHead = none ∨
            (∃ ph, playHead = some ph ∧ (ph.getCurrentPosition m.m_playhead).1 = false) →
          r.ppqPosition = Dbl.fin 0 ∧ r.ppqLoopEnd = Dbl.pinf)) ∧
      (0 < buffer.numSamples →
        (m1.m_playheadValid = true ↔
          ∃ ph, playHead = some ph ∧ (ph.getCurrentPosition m.m_playhead).1 = true)) ∧
      (buffer.numSamples = 0 →
        m1.m_playheadValid = m.m_playheadValid ∧ m1.m_playhead = m.m_playhead) := by
  obtain ⟨m1, h1, h2, _, h4, h5, _⟩ := processBlock_records playHead buffer midi m
  refine ⟨m1, blockRecords playHead buffer m.m_playhead, h1, h2,
    blockRecords_length playHead buffer m.m_playhead, ?_, ?_, ?_⟩
  · intro r hr
    obtain ⟨hp, hl, _⟩ := blockRecords_mem playHead buffer m.m_playhead r hr
    refine ⟨?_, ?_⟩
    · intro ph hph hs
      subst hph
      simp only [readPlayhead, hs, if_true] at hp hl
      refine ⟨hp, ?_, ?_⟩
      · intro hloop
        rw [hl, if_pos hloop]
      · intro hloop
        rw [hl, hloop]
        rfl
    · rintro (hnone | ⟨ph, hph, hs⟩)
      · subst hnone
        exact ⟨hp, hl⟩
      · subst hph
        simp only [readPlayhead, hs] at hp hl
        exact ⟨hp, hl⟩
  · intro hn
    rw [h4, if_neg (by omega)]
    cases playHead with
    | none => simp [readPlayhead]
    | some ph =>
      cases hs : (ph.getCurrentPosition m.m_playhead).1 <;> simp [readPlayhead, hs]
  · intro hn
    rw [h4, h5, if_pos hn, if_pos hn]
    exact ⟨rfl, rfl⟩

/-- Witness for C15: a block of 3 samples with a looping playhead at `9.5`
whose loop ends at `4.0`: the flag is set and every record carries that
position and that loop end. -/
theorem transport_at_ingest_witness :
    ∃ (m1 : MiniProcessor DemoState) (recs : List SyncData),
      processBlock (some demoPlayHead) (demoBuffer 3) [] demoProcessor = some m1 ∧
      m1.m_ringBuffer = RingBuffer.pushAll demoProcessor.m_ringBuffer recs ∧
      recs.length = 3 ∧
      (∀ r ∈ recs, r.ppqPosition = Dbl.fin (19 / 2) ∧ r.ppqLoopEnd = Dbl.fin 4) ∧
      m1.m_playheadValid = true := by
  obtain ⟨m1, recs, h1, h2, h3, h4, h5, _⟩ :=
    transport_at_ingest (some demoPlayHead) (demoBuffer 3) [] demoProcessor
  refine ⟨m1, recs, h1, h2, h3, ?_, (h5 (by decide)).2 ⟨demoPlayHead, rfl, rfl⟩⟩
  intro r hr
  obtain ⟨hp, hl, _⟩ := (h4 r hr).1 demoPlayHead rfl rfl
  exact ⟨hp, hl rfl⟩

/-- C16. Mono mirroring: a `processBlock` call whose input has exactly one
channel and `N > 0` samples returns and pushes `N` records, and the record
`k` has `left` equal to the sample `k` of input channel 0 and `right` equal to
`left`. -/
theorem mono_mirroring {E : Type} (playHead : Option AudioPlayHead)
    (buffer : AudioSampleBuffer) (midi : List Int) (m : MiniProcessor E)
    (h1 : buffer.channels.length = 1) (hn : 0 < buffer.numSamples) :
    ∃ (m1 : MiniProcessor E) (recs : List SyncData),
      processBlock playHead buffer midi m = some m1 ∧
      m1.m_ringBuffer = RingBuffer.pushAll m.m_ringBuffer recs ∧
      recs.length = buffer.numSamples ∧ recs ≠ [] ∧
      ∀ k, k < buffer.numSamples → ∃ r, recs[k]? = some r ∧
        r.left = buffer.sample 0 k ∧ r.right = r.left := by
  obtain ⟨m1, hm, h2, _⟩ := processBlock_records playHead buffer midi m
  have hlen := blockRecords_length playHead buffer m.m_playhead
  refine ⟨m1, blockRecords playHead buffer m.m_playhead, hm, h2, hlen, ?_, ?_⟩
  · intro h0
    rw [h0] at hlen
    simp only [List.length_nil] at hlen
    omega
  · intro k hk
    obtain ⟨s0, s1⟩ := mono_samples buffer h1 k hk
    refine ⟨_, blockRecords_get playHead buffer m.m_playhead k hk, s0, ?_⟩
    rw [recordAt_right, s1]
    exact s0.symm

/-- Witness for C16: the mono block `[1, 2, 3]` without playhead on a newly
constructed processor. -/
theorem mono_mirroring_witness :
    ∃ (m1 : MiniProcessor DemoState) (recs : List SyncData),
      processBlock none (monoBuffer [Dbl.fin 1, Dbl.fin 2, Dbl.fin 3]) [] demoProcessor
        = some m1 ∧
      m1.m_ringBuffer = RingBuffer.pushAll demoProcessor.m_ringBuffer recs ∧
      recs.length = 3 ∧
      ∃ r, recs[2]? = some r ∧ r.left = Dbl.fin 3 ∧ r.right = r.left := by
  obtain ⟨m1, recs, h1, h2, h3, _, h5⟩ := mono_mirroring none
    (monoBuffer [Dbl.fin 1, Dbl.fin 2, Dbl.fin 3]) [] demoProcessor rfl (by decide)
  exact ⟨m1, recs, h1, h2, h3, h5 2 (by decide)⟩

/-- C17 fails on the code: `processBlock` mirrors channel 0 of a mono input
into channel 1 before the records are built, so the channel count is 2 and
`right` is the sample, not 0.  The record read back after the mono block `[1]`
has `left = 1` and `right = 1`. -/
theorem mono_right_channel_counterexample :
    ((processBlock none (monoBuffer [Dbl.fin 1]) [] demoProcessor).bind
        (fun m => m.m_ringBuffer.read 1)).map
      (fun r => r.1.map (fun s => (s.left, s.right))) = some [(Dbl.fin 1, Dbl.fin 1)] ∧
    (processBlock none (monoBuffer [Dbl.fin 1]) [] demoProcessor).map
      (fun m => m.m_numChannels) = some 2 := by
  decide!

/-- C17, amended. For every `processBlock` call whose input has exactly one
channel, the call returns with a stored channel count of 2, and the `right`
field of the record pushed for the sample `k` is the sample `k` of input
channel 0, so that it is 0 exactly where that input sample is 0. -/
theorem mono_right_channel {E : Type} (playHead : Option AudioPlayHead)
    (buffer : AudioSampleBuffer) (midi : List Int) (m : MiniProcessor E)
    (h1 : buffer.channels.length = 1) :
    ∃ (m1 : MiniProcessor E) (recs : List SyncData),
      processBlock playHead buffer midi m = some m1 ∧
      m1.m_ringBuffer = RingBuffer.pushAll m.m_ringBuffer recs ∧
      m1.m_numChannels = 2 ∧
      recs.length = buffer.numSamples ∧
      ∀ k, k < buffer.numSamples → ∃ r, recs[k]? = some r ∧
        r.right = buffer.sample 0 k ∧
        (r.right = Dbl.fin 0 ↔ buffer.sample 0 k = Dbl.fin 0) := by
  obtain ⟨m1, hm, h2, h3, _⟩ := processBlock_records playHead buffer midi m
  refine ⟨m1, blockRecords playHead buffer m.m_playhead, hm, h2, h3,
    blockRecords_length playHead buffer m.m_playhead, ?_⟩
  intro k hk
  have hr : (recordAt (processingBufferOf buffer) 2
      (readPlayhead playHead m.m_playhead).ppqPosition
      (readPlayhead playHead m.m_playhead).ppqLoopEnd k).right = buffer.sample 0 k := by
    rw [recordAt_right]
    exact (mono_samples buffer h1 k hk).2
  exact ⟨_, blockRecords_get playHead buffer m.m_playhead k hk, hr, by rw [hr]⟩

/-- Witness for C17: the mono block `[0, 5]`: the record of the silent sample
has `right = 0` and the record of the other sample has `right = 5`. -/
theorem mono_right_channel_witness :
    ∃ (m1 : MiniProcessor DemoState) (recs : List SyncData),
      processBlock none (monoBuffer [Dbl.fin 0, Dbl.fin 5]) [] demoProcessor = some m1 ∧
      m1.m_ringBuffer = RingBuffer.pushAll demoProcessor.m_ringBuffer recs ∧
      m1.m_numChannels = 2 ∧
      (∃ r, recs[0]? = some r ∧ r.right = Dbl.fin 0) ∧
      (∃ r, recs[1]? = some r ∧ r.right = Dbl.fin 5) := by
  obtain ⟨m1, recs, h1, h2, h3, _, h5⟩ := mono_right_channel none
    (monoBuffer [Dbl.fin 0, Dbl.fin 5]) [] demoProcessor rfl
  obtain ⟨r0, a0, b0, _⟩ := h5 0 (by decide)
  obtain ⟨r1, a1, b1, _⟩ := h5 1 (by decide)
  exact ⟨m1, recs, h1, h2, h3, ⟨r0, a0, b0⟩, ⟨r1, a1, b1⟩⟩

namespace RingBuffer
variable {T : Type}

/-- C19 fails on the code for a capacity that is not a power of two: the index
`(m_head - 1) % m_capacity` is computed in `size_t`, and with `m_head = 0` it
is `(2^64 - 1) % m_capacity`.  On a buffer of capacity 3, after the pushes of
1 and 2, a read of both and the push of 3, the head is 0 and
`getPreviousValue` yields 1, the value of slot 0, while the value pushed last
is 3 in slot 2.  On a buffer of capacity 4 the same wrap of the head yields
the value pushed last, and away from the wrap the capacity 3 does too. -/
theorem getPreviousValue_wrap :
    (exec (construct 3 (0 : Int)) [Op.push 1, Op.push 2, Op.read 2, Op.push 3]).map
      (fun r => (r.2.m_buffer, r.2.m_head, r.2.getPreviousValue))
      = some ([1, 2, 3], 0, some 1) ∧
    toSizeT ((0 : Int) - 1) % 3 = 0 ∧
    (exec (construct 4 (0 : Int))
        [Op.push 1, Op.push 2, Op.push 3, Op.read 3, Op.push 4]).map
      (fun r => (r.2.m_buffer, r.2.m_head, r.2.getPreviousValue))
      = some ([1, 2, 3, 4], 0, some 4) ∧
    (exec (construct 3 (0 : Int)) [Op.push 1, Op.push 2]).map
      (fun r => (r.2.m_head, r.2.getPreviousValue)) = some (2, some 2) := by
  decide

end RingBuffer

/-! ### The parameter and play-state calls of an iteration -/

theorem setParameterCalls_append (a b : List Event) :
    setParameterCalls (a ++ b) = setParameterCalls a ++ setParameterCalls b := by
  simp [setParameterCalls]

theorem setParameterCalls_replicate (k : Nat) :
    setParameterCalls (List.replicate k Event.resetPosition) = [] := by
  induction k with
  | zero => rfl
  | succ k _ => simp [setParameterCalls, List.replicate_succ]

namespace ProcessingThread
variable {E : Type}

theorem setParameterCalls_transport (eng : KProcessor E) (isPlaying : Bool)
    (t : ProcessingThread E) :
    setParameterCalls (transportEvents eng isPlaying t) = [] := by
  unfold transportEvents
  split <;> split <;> simp [setParameterCalls]

theorem processSubBlock_events (eng : KProcessor E) (isPlaying : Bool)
    (t : ProcessingThread E) :
    ∃ evs, (processSubBlock eng isPlaying t).m_owner.calls = t.m_owner.calls ++ evs ∧
      setParameterCalls evs = [] ∧ (setPlayingCalls evs).map Prod.fst = [isPlaying] := by
  obtain ⟨⟨k, hk⟩, _⟩ := processSubBlock_spec eng isPlaying t
  refine ⟨_, hk, ?_, ?_⟩
  · rw [setParameterCalls_append, setParameterCalls_append, setParameterCalls_replicate,
      setParameterCalls_transport]
    simp [setParameterCalls]
  · rw [setPlayingCalls_append, setPlayingCalls_append, setPlayingCalls_replicate,
      setPlayingCalls_transport]
    simp [setPlayingCalls]

theorem readSubBlock_calls (t t1 : ProcessingThread E) (h : readSubBlock t = some t1) :
    t1.m_owner.calls = t.m_owner.calls := by
  rw [readSubBlock_eq] at h
  cases hread : t.m_owner.m_ringBuffer.read (subBlockSize : Int) with
  | none => rw [hread] at h; cases h
  | some r =>
    rw [hread] at h
    cases h
    rfl

theorem drain_events (eng : KProcessor E) (isPlaying : Bool) (fuel : Nat) :
    ∀ (t : ProcessingThread E) (q : List SyncData), Ready t q →
      q.length / subBlockSize < fuel →
      ∃ t1 evs, drain eng isPlaying fuel t = some t1 ∧
        t1.m_owner.calls = t.m_owner.calls ++ evs ∧
        setParameterCalls evs = [] ∧
        (setPlayingCalls evs).map Prod.fst
          = List.replicate (q.length / subBlockSize) isPlaying := by
  induction fuel with
  | zero => intro t q _ h; exact absurd h (Nat.not_lt_zero _)
  | succ fuel ih =>
    intro t q hr hf
    have hrs := ready_readSpace t q hr
    have hu : toUInt32 t.m_owner.m_ringBuffer.getReadSpace = q.length := by
      have hlt : q.length < subBlockSize * k_ringBufferElements := by
        rw [← hr.2.1]; exact hr.1.2.2.2.2.1
      simp only [subBlockSize, k_ringBufferElements] at hlt
      rw [hrs]; unfold toUInt32; omega
    rw [drain_succ, hu]
    by_cases hq : subBlockSize ≤ q.length
    · rw [if_pos hq]
      obtain ⟨t1, h1, hr1, _, _⟩ := subBlock_step eng isPlaying t q hr hq
      obtain ⟨evs1, hc1, hp1, hs1⟩ := processSubBlock_events eng isPlaying t1
      rw [readSubBlock_calls t t1 h1] at hc1
      rw [h1]
      simp only
      have hlen : (q.drop subBlockSize).length = q.length - subBlockSize := List.length_drop _ _
      have hdiv : q.length / subBlockSize = (q.length - subBlockSize) / subBlockSize + 1 := by
        simp only [subBlockSize] at hq ⊢; omega
      obtain ⟨t2, evs2, h2, hc2, hp2, hs2⟩ :=
        ih (processSubBlock eng isPlaying t1) (q.drop subBlockSize) hr1 (by rw [hlen]; omega)
      refine ⟨t2, evs1 ++ evs2, h2, ?_, ?_, ?_⟩
      · rw [hc2, hc1, List.append_assoc]
      · rw [setParameterCalls_append, hp1, hp2]; rfl
      · rw [setPlayingCalls_append, List.map_append, hs1, hs2, hlen, hdiv,
          List.replicate_succ]
        rfl
    · rw [if_neg hq]
      have hz : q.length / subBlockSize = 0 := by
        simp only [subBlockSize] at hq ⊢; omega
      exact ⟨t, [], rfl, by simp, rfl, by simp [hz, setPlayingCalls]⟩

theorem pushParameters_calls (eng : KProcessor E) (bpm : Dbl) (n : Int)
    (t : ProcessingThread E) :
    (pushParameters eng bpm n t).m_owner.calls = t.m_owner.calls ++
      ((if Dbl.gt bpm (Dbl.fin 0) = true then [Event.setParameterFloat Key.Bpm bpm] else []) ++
        (if n > 0 then [Event.setParameterInt Key.TimeSignatureNumerator n] else [])) := by
  unfold pushParameters
  simp only
  split <;> split <;> simp [call]

theorem ready_demoAfterBlock (playHead : Option AudioPlayHead) (buffer : AudioSampleBuffer)
    (h : buffer.numSamples < subBlockSize * k_ringBufferElements) :
    Ready (start (demoAfterBlock playHead buffer))
      (blockRecords playHead buffer demoProcessor.m_playhead) := by
  obtain ⟨m1, h1, h2, _⟩ := processBlock_records playHead buffer [] demoProcessor
  have hm : demoAfterBlock playHead buffer = m1 := by simp [demoAfterBlock, h1]
  have h0 : RingBuffer.Holds demoProcessor.m_ringBuffer ([] : List SyncData) :=
    RingBuffer.holds_construct _ _ (by decide) (by decide)
  obtain ⟨hh, hcap⟩ := holds_pushAll (blockRecords playHead buffer demoProcessor.m_playhead)
    demoProcessor.m_ringBuffer [] h0
    (by rw [blockRecords_length]; simpa using h)
  rw [hm]
  refine ⟨?_, ?_, List.length_replicate _ _, List.length_replicate _ _,
    List.length_replicate _ _⟩
  · show RingBuffer.Holds m1.m_ringBuffer _
    rw [h2]
    simpa using hh
  · show m1.m_ringBuffer.m_capacity = _
    rw [h2, hcap]
    rfl

/-- C20 fails on the code as stated: `run()` stores the `double` bpm of the
playhead in a `float` before it tests `bpm > 0.0f`.  After a block with a
valid playhead whose bpm is `2^-200`, which is positive, an iteration that
passes the guard and `prepare` makes no `setParameter(Bpm, ...)` call: the
bpm narrows to `0.0f`, being below half of the least subnormal `float`
(so the result is the same when denormals are flushed to zero). -/
theorem transport_parameters_counterexample :
    (start (demoAfterBlock (some slowPlayHead) (demoBuffer 3))).m_owner.m_playheadValid = true ∧
    Dbl.gt (start (demoAfterBlock (some slowPlayHead) (demoBuffer 3))).m_owner.m_playhead.bpm
      (Dbl.fin 0) = true ∧
    (iteration demoEngine Dbl.toFloat
        (start (demoAfterBlock (some slowPlayHead) (demoBuffer 3)))).map
      (newCalls (start (demoAfterBlock (some slowPlayHead) (demoBuffer 3))))
      = some [Event.prepare true, Event.setParameterInt Key.TimeSignatureNumerator 4,
          Event.wait k_processingThreadTimeoutMs] := by
  decide!

/-- C20, amended. Non-critical transport parameters: in an iteration that
passes the guard and `prepare`, entered with a ring buffer that holds the
unread records `q`, the iteration completes; `setParameter(Bpm, bpm)` is
called, once and before any sub-block, if and only if the mirrored playhead
is valid and its bpm narrowed to `float` is greater than 0, with the narrowed
value; `setParameter(TimeSignatureNumerator, n)` is called, once, if and only
if the playhead is valid and `n > 0`; no other `setParameter` call is made;
every one of the `|q| / 32` sub-blocks is processed with the `isPlaying` of the
playhead when it is valid.  When no valid playhead exists neither parameter
is written and every sub-block is processed with `isPlaying = true`. -/
theorem transport_parameters (eng : KProcessor E) (toFloat : Dbl → Dbl)
    (t : ProcessingThread E) (q : List SyncData) (hr : Ready t q)
    (hg : t.m_owner.m_numChannels > 0 ∧ t.m_owner.m_ringBuffer.getReadSpace > 0)
    (hp : (eng.prepare t.m_owner.m_processor).1 = true) :
    ∃ t1, iteration eng toFloat t = some t1 ∧
      setParameterCalls (newCalls t t1) =
        (if t.m_owner.m_playheadValid = true ∧
            Dbl.gt (toFloat t.m_owner.m_playhead.bpm) (Dbl.fin 0) = true
          then [Event.setParameterFloat Key.Bpm (toFloat t.m_owner.m_playhead.bpm)] else []) ++
        (if t.m_owner.m_playheadValid = true ∧ t.m_owner.m_playhead.timeSigNumerator > 0
          then [Event.setParameterInt Key.TimeSignatureNumerator
            t.m_owner.m_playhead.timeSigNumerator] else []) ∧
      (setPlayingCalls (newCalls t t1)).map Prod.fst
        = List.replicate (q.length / subBlockSize)
            (if t.m_owner.m_playheadValid = true then t.m_owner.m_playhead.isPlaying else true) ∧
      (t.m_owner.m_playheadValid = false →
        setParameterCalls (newCalls t t1) = [] ∧
        (setPlayingCalls (newCalls t t1)).map Prod.fst
          = List.replicate (q.length / subBlockSize) true) := by
  obtain ⟨f1, _, _, _, f5, f6, f7, _⟩ := pushParameters_frame eng
    (snapshot toFloat (t.call (eng.prepare t.m_owner.m_processor).2
      (Event.prepare (eng.prepare t.m_owner.m_processor).1))).2.1
    (snapshot toFloat (t.call (eng.prepare t.m_owner.m_processor).2
      (Event.prepare (eng.prepare t.m_owner.m_processor).1))).2.2
    (t.call (eng.prepare t.m_owner.m_processor).2
      (Event.prepare (eng.prepare t.m_owner.m_processor).1))
  have fc := pushParameters_calls eng
    (snapshot toFloat (t.call (eng.prepare t.m_owner.m_processor).2
      (Event.prepare (eng.prepare t.m_owner.m_processor).1))).2.1
    (snapshot toFloat (t.call (eng.prepare t.m_owner.m_processor).2
      (Event.prepare (eng.prepare t.m_owner.m_processor).1))).2.2
    (t.call (eng.prepare t.m_owner.m_processor).2
      (Event.prepare (eng.prepare t.m_owner.m_processor).1))
  have hr2 : Ready (pushParameters eng
      (snapshot toFloat (t.call (eng.prepare t.m_owner.m_processor).2
        (Event.prepare (eng.prepare t.m_owner.m_processor).1))).2.1
      (snapshot toFloat (t.call (eng.prepare t.m_owner.m_processor).2
        (Event.prepare (eng.prepare t.m_owner.m_processor).1))).2.2
      (t.call (eng.prepare t.m_owner.m_processor).2
        (Event.prepare (eng.prepare t.m_owner.m_processor).1))) q := by
    unfold Ready
    rw [f1, f5, f6, f7]
    exact hr
  have hu : toUInt32 (pushParameters eng
      (snapshot toFloat (t.call (eng.prepare t.m_owner.m_processor).2
        (Event.prepare (eng.prepare t.m_owner.m_processor).1))).2.1
      (snapshot toFloat (t.call (eng.prepare t.m_owner.m_processor).2
        (Event.prepare (eng.prepare t.m_owner.m_processor).1))).2.2
      (t.call (eng.prepare t.m_owner.m_processor).2
        (Event.prepare (eng.prepare t.m_owner.m_processor).1))).m_owner.m_ringBuffer.getReadSpace
      = q.length := by
    rw [ready_readSpace _ q hr2]; unfold toUInt32
    have hlt : q.length < subBlockSize * k_ringBufferElements := by
      rw [← hr.2.1]; exact hr.1.2.2.2.2.1
    simp only [subBlockSize, k_ringBufferElements] at hlt
    omega
  obtain ⟨t3, evs, hd, hc3, hp3, hs3⟩ := drain_events eng
    (snapshot toFloat (t.call (eng.prepare t.m_owner.m_processor).2
      (Event.prepare (eng.prepare t.m_owner.m_processor).1))).1
    (q.length / subBlockSize + 1) _ q hr2 (Nat.lt_succ_self _)
  have hsnap : snapshot toFloat (t.call (eng.prepare t.m_owner.m_processor).2
      (Event.prepare (eng.prepare t.m_owner.m_processor).1)) = snapshot toFloat t := rfl
  rw [hsnap] at fc hc3 hs3
  have hcalls : newCalls t (wait t3) = [Event.prepare (eng.prepare t.m_owner.m_processor).1] ++
      ((if Dbl.gt (snapshot toFloat t).2.1 (Dbl.fin 0) = true
          then [Event.setParameterFloat Key.Bpm (snapshot toFloat t).2.1] else []) ++
        (if (snapshot toFloat t).2.2 > 0
          then [Event.setParameterInt Key.TimeSignatureNumerator (snapshot toFloat t).2.2]
          else [])) ++ evs ++ [Event.wait k_processingThreadTimeoutMs] := by
    unfold newCalls
    show (t3.m_owner.calls ++ [Event.wait k_processingThreadTimeoutMs]).drop _ = _
    rw [hc3, fc]
    show (t.m_owner.calls ++ [_] ++ _ ++ evs ++ _).drop _ = _
    simp only [List.append_assoc]
    rw [List.drop_left]
  have hpar : setParameterCalls (newCalls t (wait t3)) =
      (if t.m_owner.m_playheadValid = true ∧
          Dbl.gt (toFloat t.m_owner.m_playhead.bpm) (Dbl.fin 0) = true
        then [Event.setParameterFloat Key.Bpm (toFloat t.m_owner.m_playhead.bpm)] else []) ++
      (if t.m_owner.m_playheadValid = true ∧ t.m_owner.m_playhead.timeSigNumerator > 0
        then [Event.setParameterInt Key.TimeSignatureNumerator
          t.m_owner.m_playhead.timeSigNumerator] else []) := by
    rw [hcalls, setParameterCalls_append, setParameterCalls_append, setParameterCalls_append,
      setParameterCalls_append, hp3]
    cases hv : t.m_owner.m_playheadValid
    · simp [snapshot, hv, setParameterCalls, Dbl.gt, Dbl.lt]
    · by_cases hb : Dbl.gt (toFloat t.m_owner.m_playhead.bpm) (Dbl.fin 0) = true <;>
        by_cases hn : t.m_owner.m_playhead.timeSigNumerator > 0 <;>
        simp [snapshot, hv, setParameterCalls, hb, hn]
  have hplay : (setPlayingCalls (newCalls t (wait t3))).map Prod.fst
      = List.replicate (q.length / subBlockSize)
          (if t.m_owner.m_playheadValid = true then t.m_owner.m_playhead.isPlaying else true) := by
    rw [hcalls, setPlayingCalls_append, setPlayingCalls_append, setPlayingCalls_append,
      setPlayingCalls_append, List.map_append, List.map_append, List.map_append,
      List.map_append, hs3]
    have e1 : setPlayingCalls [Event.prepare (eng.prepare t.m_owner.m_processor).1] = [] := rfl
    have e2 : setPlayingCalls [Event.wait k_processingThreadTimeoutMs] = [] := rfl
    have e3 : setPlayingCalls
        (if Dbl.gt (snapshot toFloat t).2.1 (Dbl.fin 0) = true
          then [Event.setParameterFloat Key.Bpm (snapshot toFloat t).2.1] else []) = [] := by
      split <;> rfl
    have e4 : setPlayingCalls
        (if (snapshot toFloat t).2.2 > 0
          then [Event.setParameterInt Key.TimeSignatureNumerator (snapshot toFloat t).2.2]
          else []) = [] := by
      split <;> rfl
    rw [e1, e2, e3, e4]
    cases hv : t.m_owner.m_playheadValid <;> simp [snapshot, hv]
  refine ⟨wait t3, ?_, hpar, hplay, ?_⟩
  · unfold iteration
    rw [if_pos hg]
    simp only []
    rw [if_neg (by rw [hp]; simp), hu, hd]
  · intro hv
    rw [hpar, hplay, hv]
    simp

/-- Witness for C20: after a stereo block of 40 samples with a playing playhead at
120 bpm and four beats, an iteration on the stand-in engine writes both
parameters and processes the one whole sub-block with `isPlaying = true`. -/
theorem transport_parameters_witness :
    ∃ t1, iteration demoEngine Dbl.toFloat
        (start (demoAfterBlock (some demoPlayHead) (demoBuffer 40))) = some t1 ∧
      setParameterCalls (newCalls (start (demoAfterBlock (some demoPlayHead) (demoBuffer 40))) t1)
        = [Event.setParameterFloat Key.Bpm (Dbl.fin 120),
            Event.setParameterInt Key.TimeSignatureNumerator 4] ∧
      (setPlayingCalls
          (newCalls (start (demoAfterBlock (some demoPlayHead) (demoBuffer 40))) t1)).map Prod.fst
        = [true] := by
  obtain ⟨t1, h1, h2, h3, _⟩ := transport_parameters demoEngine Dbl.toFloat
    (start (demoAfterBlock (some demoPlayHead) (demoBuffer 40)))
    (blockRecords (some demoPlayHead) (demoBuffer 40) demoProcessor.m_playhead)
    (ready_demoAfterBlock _ _ (by decide)) (by decide!) rfl
  refine ⟨t1, h1, ?_, ?_⟩
  · rw [h2]
    decide!
  · rw [h3, blockRecords_length]
    decide!

end ProcessingThread

/-! ### The function ceilPower2 -/

theorem ceilPower2Loop_spec (fuel : Nat) :
    ∀ (y p : Nat), 0 < y → y < 2 ^ fuel → p < 2 ^ 32 →
      ceilPower2Loop fuel y p = some (p * 2 ^ Nat.log 2 y % 2 ^ 32) := by
  induction fuel with
  | zero => intro y p hy hlt _; simp at hlt; omega
  | succ fuel ih =>
    intro y p hy hlt hp
    by_cases h1 : y / 2 = 0
    · have hy1 : y = 1 := by omega
      subst hy1
      have hp2 : p % 4294967296 = p := Nat.mod_eq_of_lt hp
      simp [ceilPower2Loop, hp2]
    · have hy2 : 2 ≤ y := by omega
      have hlog : Nat.log 2 y = Nat.log 2 (y / 2) + 1 :=
        Nat.log_of_one_lt_of_le (by decide) hy2
      have hlt2 : y / 2 < 2 ^ fuel := by
        rw [pow_succ] at hlt
        omega
      rw [ceilPower2Loop, if_pos h1, ih (y / 2) (p * 2 % 2 ^ 32) (by omega) hlt2
        (Nat.mod_lt _ (by decide)), hlog, pow_succ]
      congr 1
      rw [Nat.mod_mul_mod]
      congr 1
      ring

theorem ceilPower2_eq (x : Nat) (h1 : 1 < x) (h32 : x < 2 ^ 32) :
    ceilPower2 x = some (2 ^ (Nat.log 2 (x - 1) + 1) % 2 ^ 32) := by
  unfold ceilPower2
  rw [if_neg (by omega), Nat.mod_eq_of_lt (by omega),
    ceilPower2Loop_spec 32 (x - 1) 2 (by omega) (by omega) (by decide)]
  congr 2
  rw [pow_succ]
  ring

/-- C24 fails on the code as stated: for `x = 2^31 + 1`, and for `x = 2^32 - 1`,
the power `2^32` wraps in `uint32_t` and `ceilPower2` returns 0, which is no
power of two and is less than `x`. -/
theorem ceilPower2_spec_counterexample :
    ceilPower2 (2 ^ 31 + 1) = some 0 ∧ ceilPower2 (2 ^ 32 - 1) = some 0 ∧
    ¬ (2 ^ 31 + 1 ≤ 0) ∧ ∀ k : Nat, (0 : Nat) ≠ 2 ^ k := by
  refine ⟨by decide, by decide, by decide, ?_⟩
  intro k h
  have hpos : 0 < 2 ^ k := Nat.pow_pos (by decide)
  omega

/-- C24, amended. For every 32-bit unsigned `x ≤ 2^31`, `ceilPower2(x)` returns
the smallest power of two that is `≥ x`, with `ceilPower2(0) = 1`; in
particular `ceilPower2(x) = x` when `x` is a power of two; for
`2^31 < x < 2^32` the arithmetic in `uint32_t` gives 0. -/
theorem ceilPower2_spec (x : Nat) (h32 : x < 2 ^ 32) :
    (x ≤ 2 ^ 31 →
      ∃ k : Nat, ceilPower2 x = some (2 ^ k) ∧ x ≤ 2 ^ k ∧ ∀ j : Nat, x ≤ 2 ^ j → 2 ^ k ≤ 2 ^ j) ∧
    ceilPower2 0 = some 1 ∧
    (∀ k : Nat, x = 2 ^ k → ceilPower2 x = some x) ∧
    (2 ^ 31 < x → ceilPower2 x = some 0) := by
  have key : x ≤ 2 ^ 31 →
      ∃ k : Nat, ceilPower2 x = some (2 ^ k) ∧ x ≤ 2 ^ k ∧
        ∀ j : Nat, x ≤ 2 ^ j → 2 ^ k ≤ 2 ^ j := by
    intro hx
    by_cases h1 : x ≤ 1
    · refine ⟨0, by simp [ceilPower2, h1], by simpa using h1, ?_⟩
      intro j _
      exact Nat.pow_le_pow_right (by decide) (Nat.zero_le j)
    · have hlt : x - 1 < 2 ^ (Nat.log 2 (x - 1) + 1) := Nat.lt_pow_succ_log_self (by decide) _
      have hle : 2 ^ Nat.log 2 (x - 1) ≤ x - 1 := Nat.pow_log_le_self 2 (by omega)
      have hk : Nat.log 2 (x - 1) < 31 := by
        apply (Nat.pow_lt_pow_iff_right (by decide : 1 < 2)).mp
        omega
      have hsmall : 2 ^ (Nat.log 2 (x - 1) + 1) < 2 ^ 32 :=
        Nat.pow_lt_pow_right (by decide) (by omega)
      refine ⟨Nat.log 2 (x - 1) + 1, ?_, by omega, ?_⟩
      · rw [ceilPower2_eq x (by omega) h32, Nat.mod_eq_of_lt hsmall]
      · intro j hj
        apply Nat.pow_le_pow_right (by decide)
        by_contra hcon
        have hjk : j ≤ Nat.log 2 (x - 1) := by omega
        have := Nat.pow_le_pow_right (by decide : 0 < 2) hjk
        omega
  refine ⟨key, by decide, ?_, ?_⟩
  · intro k hk
    have hk32 : k < 32 := by
      apply (Nat.pow_lt_pow_iff_right (by decide : 1 < 2)).mp
      rw [← hk]; exact h32
    have hx31 : x ≤ 2 ^ 31 := by
      rw [hk]; exact Nat.pow_le_pow_right (by decide) (by omega)
    obtain ⟨k1, e1, e2, e3⟩ := key hx31
    rw [e1]
    congr 1
    apply le_antisymm
    · rw [hk]; exact e3 k (by rw [hk])
    · exact e2
  · intro hx
    have hle : 2 ^ 31 ≤ x - 1 := by omega
    have h31 : Nat.log 2 (x - 1) = 31 := by
      apply Nat.log_eq_of_pow_le_of_lt_pow hle
      omega
    rw [ceilPower2_eq x (by omega) h32, h31]
    rfl

/-- Witness for C24: `ceilPower2(1000) = 1024`, and what follows for 1000 from
the amended claim. -/
theorem ceilPower2_spec_witness :
    ceilPower2 1000 = some 1024 ∧
    ∃ k : Nat, ceilPower2 1000 = some (2 ^ k) ∧ 1000 ≤ 2 ^ k ∧
      ∀ j : Nat, 1000 ≤ 2 ^ j → 2 ^ k ≤ 2 ^ j :=
  ⟨by decide, (ceilPower2_spec 1000 (by decide)).1 (by decide)⟩

namespace RingBuffer
variable {T : Type}

/-! ### The indices stay inside the buffer -/

theorem readAux_indices (fuel : Nat) :
    ∀ (rb : RingBuffer T) (m : Nat), 0 < rb.m_capacity → rb.m_capacity < 2 ^ 64 →
      rb.m_tail < rb.m_capacity → m < 2 ^ 31 → m < fuel →
      ∃ out rb1, readAux fuel rb (m : Int) = some (out, rb1) ∧
        rb1.m_tail < rb.m_capacity ∧ rb1.m_head = rb.m_head ∧ rb1.m_buffer = rb.m_buffer ∧
        rb1.m_capacity = rb.m_capacity := by
  induction fuel with
  | zero => intro rb m _ _ _ _ hf; omega
  | succ fuel ih =>
    intro rb m hc hc64 ht hm hf
    have e1 : toSizeT ((rb.m_capacity : Int) - rb.m_tail) = rb.m_capacity - rb.m_tail :=
      toSizeT_sub _ _ (by omega) hc64
    have e2 : toSizeT (m : Int) = m := toSizeT_natCast m (by omega)
    by_cases hm0 : m = 0
    · subst hm0
      refine ⟨(rb.m_buffer.drop rb.m_tail).take
          (min (toSizeT ((rb.m_capacity : Int) - rb.m_tail)) (toSizeT ((0 : Nat) : Int))),
        { rb with m_tail := toSizeT ((rb.m_tail : Int) +
            (min (toSizeT ((rb.m_capacity : Int) - rb.m_tail)) (toSizeT ((0 : Nat) : Int)) : Nat))
              % rb.m_capacity }, ?_, Nat.mod_lt _ hc, rfl, rfl, rfl⟩
      rw [readAux]
      simp
    · have hpos : (m : Int) > 0 := by omega
      have hk : min (rb.m_capacity - rb.m_tail) m ≤ m := Nat.min_le_right _ _
      have hk1 : 1 ≤ min (rb.m_capacity - rb.m_tail) m := by
        rw [Nat.le_min]; omega
      have e4 : toInt32 ((m : Int) - (min (rb.m_capacity - rb.m_tail) m : Nat))
          = ((m - min (rb.m_capacity - rb.m_tail) m : Nat) : Int) := by
        have : ((m : Int) - (min (rb.m_capacity - rb.m_tail) m : Nat))
            = ((m - min (rb.m_capacity - rb.m_tail) m : Nat) : Int) := by omega
        rw [this]; exact toInt32_natCast _ (by omega)
      obtain ⟨rest, rb2, hrest, g1, g2, g3, g4⟩ :=
        ih { rb with m_tail := toSizeT ((rb.m_tail : Int) +
              (min (rb.m_capacity - rb.m_tail) m : Nat)) % rb.m_capacity }
          (m - min (rb.m_capacity - rb.m_tail) m) hc hc64 (Nat.mod_lt _ hc) (by omega) (by omega)
      refine ⟨(rb.m_buffer.drop rb.m_tail).take (min (rb.m_capacity - rb.m_tail) m) ++ rest,
        rb2, ?_, g1, g2, g3, g4⟩
      rw [readAux]
      simp only [e1, e2, e4, hpos, if_true, hrest]

/-- C29. The index invariant of the ring buffer: for every capacity `c ≥ 1`,
`head < c` and `tail < c` hold after construction and, from any state in which
they hold, after `push`, after `read(dst, n)` for every `int` `n ≥ 0` (which
returns), after `advance(offset)` and `skip(n)` for every integer argument,
negative ones included, after `resetIndices` and after `reset`.  The function
`push` changes only the head and the slot at the old head, `read` and `skip`
change only the tail, and `advance` changes only the head. -/
theorem index_invariant (c : Nat) (hc : 1 ≤ c) (hc64 : c < 2 ^ 64) :
    (∀ d : T, (construct c d).m_head < c ∧ (construct c d).m_tail < c ∧
      (construct c d).m_capacity = c) ∧
    ∀ rb : RingBuffer T, rb.m_capacity = c → rb.m_head < c → rb.m_tail < c →
      (∀ v : T, (rb.push v).m_head < c ∧ (rb.push v).m_tail = rb.m_tail ∧
        (rb.push v).m_capacity = c ∧ (rb.push v).m_buffer = rb.m_buffer.set rb.m_head v) ∧
      (∀ n : Int, 0 ≤ n → n < 2 ^ 31 → ∃ out rb1, rb.read n = some (out, rb1) ∧
        rb1.m_tail < c ∧ rb1.m_head = rb.m_head ∧ rb1.m_capacity = c ∧
        rb1.m_buffer = rb.m_buffer) ∧
      (∀ offset : Int, (rb.advance offset).m_head < c ∧
        (rb.advance offset).m_tail = rb.m_tail ∧ (rb.advance offset).m_capacity = c ∧
        (rb.advance offset).m_buffer = rb.m_buffer) ∧
      (∀ n : Int, (rb.skip n).m_tail < c ∧ (rb.skip n).m_head = rb.m_head ∧
        (rb.skip n).m_capacity = c ∧ (rb.skip n).m_buffer = rb.m_buffer) ∧
      ((resetIndices rb).m_head < c ∧ (resetIndices rb).m_tail < c ∧
        (resetIndices rb).m_capacity = c ∧ (resetIndices rb).m_buffer = rb.m_buffer) ∧
      ((reset rb).m_head < c ∧ (reset rb).m_tail < c ∧ (reset rb).m_capacity = c) := by
  refine ⟨fun d => ⟨hc, hc, rfl⟩, ?_⟩
  intro rb hcap hh ht
  refine ⟨?_, ?_, ?_, ?_, ⟨hc, hc, hcap, rfl⟩, ⟨hc, hc, hcap⟩⟩
  · intro v
    refine ⟨?_, rfl, hcap, rfl⟩
    show toSizeT ((rb.m_head : Int) + 1) % rb.m_capacity < c
    rw [hcap]
    exact Nat.mod_lt _ hc
  · intro n hn0 hn31
    obtain ⟨m, rfl⟩ := Int.eq_ofNat_of_zero_le hn0
    obtain ⟨out, rb1, h1, h2, h3, h4, h5⟩ := readAux_indices (m + 1) rb m (by omega)
      (by omega) (by omega) (by omega) (Nat.lt_succ_self _)
    refine ⟨out, rb1, ?_, by omega, h3, by omega, h4⟩
    rw [read]
    exact h1
  · intro offset
    have hpos : rb.m_capacity > 0 := by omega
    have ha : rb.advance offset
        = { rb with m_head := toSizeT ((rb.m_head : Int) + toSizeT offset) % rb.m_capacity } := by
      unfold advance
      rw [if_pos hpos]
    rw [ha]
    refine ⟨?_, rfl, hcap, rfl⟩
    show toSizeT ((rb.m_head : Int) + toSizeT offset) % rb.m_capacity < c
    rw [hcap]
    exact Nat.mod_lt _ hc
  · intro n
    refine ⟨?_, rfl, hcap, rfl⟩
    show toSizeT ((rb.m_tail : Int) + toSizeT n) % rb.m_capacity < c
    rw [hcap]
    exact Nat.mod_lt _ hc

/-- Witness for C29: a buffer of capacity 3 with head 2 and tail 1: `advance(-5)`
and `skip(-1)` leave both indices below 3, and a read of 7 elements returns. -/
theorem index_invariant_witness :
    ((⟨3, [1, 2, 3], 2, 1⟩ : RingBuffer Nat).advance (-5)).m_head < 3 ∧
    ((⟨3, [1, 2, 3], 2, 1⟩ : RingBuffer Nat).skip (-1)).m_tail < 3 ∧
    ∃ out rb1, (⟨3, [1, 2, 3], 2, 1⟩ : RingBuffer Nat).read 7 = some (out, rb1) ∧
      rb1.m_tail < 3 ∧ rb1.m_head = 2 :=
  ⟨((index_invariant 3 (by decide) (by decide)).2 (⟨3, [1, 2, 3], 2, 1⟩ : RingBuffer Nat)
      rfl (by decide) (by decide)).2.2.1 (-5) |>.1,
    ((index_invariant 3 (by decide) (by decide)).2 (⟨3, [1, 2, 3], 2, 1⟩ : RingBuffer Nat)
      rfl (by decide) (by decide)).2.2.2.1 (-1) |>.1,
    by
      obtain ⟨out, rb1, h1, h2, h3, _⟩ :=
        ((index_invariant 3 (by decide) (by decide)).2 (⟨3, [1, 2, 3], 2, 1⟩ : RingBuffer Nat)
          rfl (by decide) (by decide)).2.1 7 (by decide) (by decide)
      exact ⟨out, rb1, h1, h2, h3⟩⟩

end RingBuffer

namespace ProcessorParameters

/-! ### ProcessorParameters -/

theorem mem_enumerators (k : Key) : k ∈ Key.enumerators := by
  cases k <;> decide

theorem construct_values :
    ∃ p0, construct = some p0 ∧
      p0.m_values Key.FtSize = some (some (Datum.ftSize FtSize.Size4096)) ∧
      p0.m_values Key.Window = some (some (Datum.window Window.WindowBlackman)) ∧
      p0.m_values Key.StftOverlap = some (some (Datum.float (Dbl.fin (7 / 8)))) ∧
      p0.m_values Key.Bpm = some (some (Datum.float (Dbl.fin 120))) ∧
      p0.m_values Key.TimeSignatureNumerator = some (some (Datum.int 1)) ∧
      p0.m_values Key.TimeFactor = some (some (Datum.float (Dbl.fin 1))) ∧
      p0.m_values Key.TimeMultiplier = some (some (Datum.float (Dbl.fin 1))) ∧
      p0.m_values Key.SampleRate = some none ∧
      p0.m_values Key.Override = some (some (Datum.bool false)) ∧
      p0.m_values Key.PlayHeadSynced = some (some (Datum.bool false)) ∧
      p0.m_values Key.MixMode = some (some (Datum.mixMode MixMode.Mid)) ∧
      p0.m_values Key.Rotate = some (some (Datum.bool false)) ∧
      p0.m_values Key.Flatten = some (some (Datum.bool false)) ∧
      p0.m_values Key.End = none := by
  have h : construct.map (fun p => Key.enumerators.map p.m_values) =
      some [some (some (Datum.ftSize FtSize.Size4096)),
        some (some (Datum.window Window.WindowBlackman)),
        some (some (Datum.float (Dbl.fin (7 / 8)))),
        some (some (Datum.float (Dbl.fin 120))),
        some (some (Datum.int 1)),
        some (some (Datum.float (Dbl.fin 1))),
        some (some (Datum.float (Dbl.fin 1))),
        some none,
        some (some (Datum.bool false)),
        some (some (Datum.bool false)),
        some (some (Datum.mixMode MixMode.Mid)),
        some (some (Datum.bool false)),
        some (some (Datum.bool false)),
        none] := by decide!
  cases hc : construct with
  | none => rw [hc] at h; cases h
  | some p0 =>
    rw [hc] at h
    simp only [Option.map_some', Option.some.injEq, Key.enumerators, List.map_cons, List.map_nil,
      List.cons.injEq, and_true] at h
    exact ⟨p0, rfl, h⟩

theorem setValue_cases (p : ProcessorParameters) (key : Key) (v : Datum)
    (hk : p.m_values key ≠ none) (hE : key ≠ Key.End) :
    (validate key (some v) = some true ∧
      p.setValue key v = some (true,
        { m_values := fun k => if k = key then some (some v) else p.m_values k })) ∨
    (validate key (some v) = some false ∧ p.setValue key v = some (false, p)) := by
  cases hm : p.m_values key with
  | none => exact absurd hm hk
  | some old =>
    cases hv : validate key (some v) with
    | none => cases key <;> first | exact absurd rfl hE | (cases v <;> simp [validate] at hv)
    | some b =>
      cases b
      · right; exact ⟨rfl, by simp [setValue, hm, hv]⟩
      · left; exact ⟨rfl, by simp [setValue, hm, hv]⟩

theorem reachable_inv (p : ProcessorParameters) (h : Reachable p) :
    (∀ k, p.m_values k = none ↔ k = Key.End) ∧
    (∀ key d, p.m_values key = some (some d) → Valid key d) := by
  induction h with
  | init p hc =>
    obtain ⟨p0, h0, a1, a2, a3, a4, a5, a6, a7, a8, a9, a10, a11, a12, a13, a14⟩ :=
      construct_values
    rw [hc] at h0
    cases h0
    constructor
    · intro k
      cases k <;> simp [*]
    · intro key d hd
      cases key <;> simp_all [Valid, validate] <;> decide!
  | step p p1 key v b _ hs ih =>
    obtain ⟨ih1, ih2⟩ := ih
    have hkE : key ≠ Key.End := by
      intro hE
      rw [hE] at hs
      simp [setValue, (ih1 Key.End).mpr rfl] at hs
    have hk : p.m_values key ≠ none := fun hn => hkE ((ih1 key).mp hn)
    rcases setValue_cases p key v hk hkE with ⟨hv, he⟩ | ⟨_, he⟩
    · rw [he] at hs
      cases hs
      constructor
      · intro k
        by_cases hkk : k = key
        · subst hkk
          simp [hkE]
        · simp only [if_neg hkk]
          exact ih1 k
      · intro k d hd
        by_cases hkk : k = key
        · subst hkk
          simp only [if_true, Option.some.injEq] at hd
          subst hd
          exact hv
        · simp only [if_neg hkk] at hd
          exact ih2 k d hd
    · rw [he] at hs
      cases hs
      exact ⟨ih1, ih2⟩

theorem operatorBool_iff (p : ProcessorParameters) (hent : ∀ k, p.m_values k = none ↔ k = Key.End) :
    p.operatorBool = true ↔ ∀ key, key ≠ Key.End → p.hasValue key = some true := by
  unfold operatorBool
  rw [List.all_eq_true]
  constructor
  · intro h key hk
    have h1 := h key (mem_enumerators key)
    cases hm : p.m_values key with
    | none => exact absurd ((hent key).mp hm) hk
    | some value =>
      rw [hm] at h1
      simp only [hasValue, hm]
      simpa using h1
  · intro h key _
    cases hm : p.m_values key with
    | none => rfl
    | some value =>
      have hk : key ≠ Key.End := by
        intro hE
        rw [hE, (hent Key.End).mpr rfl] at hm
        cases hm
      have h1 := h key hk
      simp only [hasValue, hm, Option.some.injEq] at h1
      simpa using h1

/-- C22. The function `setValue` updates if and only if the value is valid: on
every reachable object, for every key of the 13 and every value `v`,
`setValue(key, v)` returns, and it returns true exactly when `v` is valid for
the key: a float `> 0` for `Bpm`, `TimeFactor`, `TimeMultiplier` and
`SampleRate`, an int `> 0` for `TimeSignatureNumerator`, a float strictly
between 0 and 1 for `StftOverlap`, any value for the seven other keys.  When
it returns true, `getValue<T>(key)` is `v` afterwards; when it returns false,
the object is unchanged; the entries of all other keys are unchanged in both
cases. -/
theorem setValue_iff_valid (p : ProcessorParameters) (hp : Reachable p) (key : Key)
    (hk : key ≠ Key.End) (v : Datum) :
    (∃ (b : Bool) (p1 : ProcessorParameters), p.setValue key v = some (b, p1) ∧
      (b = true ↔ Valid key v) ∧
      (b = true → p1.getValue v.type key = some v) ∧
      (b = false → p1.m_values key = p.m_values key ∧
        ∀ T, p1.getValue T key = p.getValue T key) ∧
      (∀ k, k ≠ key → p1.m_values k = p.m_values k ∧
        ∀ T, p1.getValue T k = p.getValue T k)) ∧
    ((key = Key.Bpm ∨ key = Key.TimeFactor ∨ key = Key.TimeMultiplier ∨ key = Key.SampleRate) →
      (Valid key v ↔ ∃ x, v = Datum.float x ∧ Dbl.gt x (Dbl.fin 0) = true)) ∧
    (key = Key.TimeSignatureNumerator → (Valid key v ↔ ∃ n : Int, v = Datum.int n ∧ n > 0)) ∧
    (key = Key.StftOverlap →
      (Valid key v ↔ ∃ x, v = Datum.float x ∧ Dbl.gt x (Dbl.fin 0) = true ∧
        Dbl.lt x (Dbl.fin 1) = true)) ∧
    ((key = Key.FtSize ∨ key = Key.Window ∨ key = Key.Override ∨ key = Key.PlayHeadSynced ∨
        key = Key.MixMode ∨ key = Key.Rotate ∨ key = Key.Flatten) → Valid key v) := by
  obtain ⟨hent, _⟩ := reachable_inv p hp
  have hne : p.m_values key ≠ none := fun hn => hk ((hent key).mp hn)
  refine ⟨?_, ?_, ?_, ?_, ?_⟩
  · rcases setValue_cases p key v hne hk with ⟨hv, he⟩ | ⟨hv, he⟩
    · refine ⟨true, _, he, ?_, ?_, ?_, ?_⟩
      · simp [Valid, hv]
      · intro _
        simp [getValue, hasValue]
      · intro hb; cases hb
      · intro k hkk
        refine ⟨by simp [hkk], ?_⟩
        intro T
        simp [getValue, hasValue, hkk]
    · refine ⟨false, p, he, ?_, ?_, ?_, ?_⟩
      · simp [Valid, hv]
      · intro hb; cases hb
      · intro _; exact ⟨rfl, fun _ => rfl⟩
      · intro k _; exact ⟨rfl, fun _ => rfl⟩
  · rintro (h | h | h | h) <;> subst h <;> cases v <;> simp [Valid, validate]
  · intro h; subst h; cases v <;> simp [Valid, validate]
  · intro h; subst h; cases v <;> simp [Valid, validate]
  · rintro (h | h | h | h | h | h | h) <;> subst h <;> rfl

/-- Witness for C22: on the constructed object `setValue(Bpm, 90.0f)` returns
true and `getValue<float>(Bpm)` is 90 afterwards, with the entry of `StftOverlap`
untouched. -/
theorem setValue_iff_valid_witness :
    ∃ (p0 : ProcessorParameters) (b : Bool) (p1 : ProcessorParameters),
      construct = some p0 ∧
      p0.setValue Key.Bpm (Datum.float (Dbl.fin 90)) = some (b, p1) ∧ b = true ∧
      p1.getValue ValueType.float Key.Bpm = some (Datum.float (Dbl.fin 90)) ∧
      p1.m_values Key.StftOverlap = p0.m_values Key.StftOverlap := by
  obtain ⟨p0, h0, _⟩ := construct_values
  obtain ⟨⟨b, p1, h1, h2, h3, _, h5⟩, _⟩ := setValue_iff_valid p0 (Reachable.init p0 h0)
    Key.Bpm (by decide) (Datum.float (Dbl.fin 90))
  have hv : Valid Key.Bpm (Datum.float (Dbl.fin 90)) := by
    unfold Valid
    decide!
  have hb : b = true := h2.mpr hv
  exact ⟨p0, b, p1, h0, h1, hb, h3 hb, (h5 Key.StftOverlap (by decide)).1⟩

/-- C23. The completeness flag: on every reachable object `operator bool` is true
if and only if every one of the 13 keys has a value.  The constructor returns
an object with a value for every key except `SampleRate` (`FtSize = Size4096`,
`Window = WindowBlackman`, `StftOverlap = 7/8`, `Bpm = 120`,
`TimeSignatureNumerator = 1`, `TimeFactor = 1`, `TimeMultiplier = 1`,
`Override = PlayHeadSynced = Rotate = Flatten = false`, `MixMode = Mid`), so
`operator bool` is false after construction, and it is true after a
`setValue(SampleRate, r)` with `r > 0`.  In every reachable state the map has
an entry for each of the 13 keys and each stored value is valid for its key. -/
theorem completeness_flag :
    (∀ p, Reachable p →
      (p.operatorBool = true ↔ ∀ key, key ≠ Key.End → p.hasValue key = some true)) ∧
    (∃ p0, construct = some p0 ∧ p0.operatorBool = false ∧
      p0.hasValue Key.SampleRate = some false ∧
      (∀ key, key ≠ Key.End → key ≠ Key.SampleRate → p0.hasValue key = some true) ∧
      p0.getValue ValueType.ftSize Key.FtSize = some (Datum.ftSize FtSize.Size4096) ∧
      p0.getValue ValueType.window Key.Window = some (Datum.window Window.WindowBlackman) ∧
      p0.getValue ValueType.float Key.StftOverlap = some (Datum.float (Dbl.fin (7 / 8))) ∧
      p0.getValue ValueType.float Key.Bpm = some (Datum.float (Dbl.fin 120)) ∧
      p0.getValue ValueType.int Key.TimeSignatureNumerator = some (Datum.int 1) ∧
      p0.getValue ValueType.float Key.TimeFactor = some (Datum.float (Dbl.fin 1)) ∧
      p0.getValue ValueType.float Key.TimeMultiplier = some (Datum.float (Dbl.fin 1)) ∧
      p0.getValue ValueType.bool Key.Override = some (Datum.bool false) ∧
      p0.getValue ValueType.bool Key.PlayHeadSynced = some (Datum.bool false) ∧
      p0.getValue ValueType.mixMode Key.MixMode = some (Datum.mixMode MixMode.Mid) ∧
      p0.getValue ValueType.bool Key.Rotate = some (Datum.bool false) ∧
      p0.getValue ValueType.bool Key.Flatten = some (Datum.bool false) ∧
      ∀ r, Dbl.gt r (Dbl.fin 0) = true →
        ∃ p1, p0.setValue Key.SampleRate (Datum.float r) = some (true, p1) ∧
          p1.operatorBool = true) ∧
    (∀ p, Reachable p →
      (∀ key, key ≠ Key.End → p.m_values key ≠ none) ∧
      ∀ key d, p.m_values key = some (some d) → Valid key d) := by
  refine ⟨fun p hp => operatorBool_iff p (reachable_inv p hp).1, ?_, ?_⟩
  · obtain ⟨p0, h0, a1, a2, a3, a4, a5, a6, a7, a8, a9, a10, a11, a12, a13, a14⟩ :=
      construct_values
    have hent := (reachable_inv p0 (Reachable.init p0 h0)).1
    refine ⟨p0, h0, ?_, by simp [hasValue, a8], ?_,
      by simp [getValue, hasValue, a1, Datum.type], by simp [getValue, hasValue, a2, Datum.type],
      by simp [getValue, hasValue, a3, Datum.type], by simp [getValue, hasValue, a4, Datum.type],
      by simp [getValue, hasValue, a5, Datum.type], by simp [getValue, hasValue, a6, Datum.type],
      by simp [getValue, hasValue, a7, Datum.type], by simp [getValue, hasValue, a9, Datum.type],
      by simp [getValue, hasValue, a10, Datum.type], by simp [getValue, hasValue, a11, Datum.type],
      by simp [getValue, hasValue, a12, Datum.type], by simp [getValue, hasValue, a13, Datum.type],
      ?_⟩
    · cases hb : p0.operatorBool with
      | false => rfl
      | true =>
        have := (operatorBool_iff p0 hent).mp hb Key.SampleRate (by decide)
        simp [hasValue, a8] at this
    · intro key hE hS
      cases key <;> simp_all [hasValue]
    · intro r hr
      have hv : validate Key.SampleRate (some (Datum.float r)) = some true := by
        simp [validate, hr]
      refine ⟨{ m_values := fun k =>
          if k = Key.SampleRate then some (some (Datum.float r)) else p0.m_values k },
        by simp [setValue, a8, hv], ?_⟩
      simp [operatorBool, Key.enumerators, a1, a2, a3, a4, a5, a6, a7, a9, a10, a11, a12, a13, a14]
  · intro p hp
    obtain ⟨h1, h2⟩ := reachable_inv p hp
    exact ⟨fun key hk hn => hk ((h1 key).mp hn), h2⟩

/-- Witness for C23: the object after construction and `setValue(SampleRate, 44100.0f)`
is reachable, its flag is true and its stored values are valid. -/
theorem completeness_flag_witness :
    ∃ (p0 p1 : ProcessorParameters), construct = some p0 ∧
      p0.setValue Key.SampleRate (Datum.float (Dbl.fin 44100)) = some (true, p1) ∧
      p1.operatorBool = true ∧
      (∀ key, key ≠ Key.End → p1.hasValue key = some true) ∧
      ∀ key d, p1.m_values key = some (some d) → Valid key d := by
  obtain ⟨_, ⟨p0, h0, hrest⟩, h3⟩ := completeness_flag
  obtain ⟨p1, h1, h2⟩ := hrest.2.2.2.2.2.2.2.2.2.2.2.2.2.2.2 (Dbl.fin 44100) (by decide!)
  have hreach : Reachable p1 := Reachable.step p0 p1 _ _ _ (Reachable.init p0 h0) h1
  exact ⟨p0, p1, h0, h1, h2, (completeness_flag.1 p1 hreach).mp h2, (h3 p1 hreach).2⟩

end ProcessorParameters

namespace ProcessingThread
variable {E : Type}

/-! ### One sub-block: what the engine is told -/

theorem processSubBlock_calls (eng : KProcessor E) (isPlaying : Bool) (t : ProcessingThread E) :
    (processSubBlock eng isPlaying t).m_owner.calls
      = (unpack eng subBlockSize 0 t).m_owner.calls ++
          transportEvents eng isPlaying (unpack eng subBlockSize 0 t) ++
          [Event.process (unpack eng subBlockSize 0 t).audioSubBlocks0
            (unpack eng subBlockSize 0 t).audioSubBlocks1
            (unpack eng subBlockSize 0 t).m_owner.m_numChannels] := by
  obtain ⟨s1, _, _, s4, s5, s6, _, _⟩ :=
    syncTransport_spec eng isPlaying (unpack eng subBlockSize 0 t)
  simp only [processSubBlock, call, s1, s4, s5, s6]

theorem transportEvents_congr (eng : KProcessor E) (isPlaying : Bool)
    (u1 u2 : ProcessingThread E) (hl : u1.lastPpq = u2.lastPpq)
    (hp : u1.m_owner.m_processor = u2.m_owner.m_processor)
    (h1 : (lastRecord u1).ppqPosition = (lastRecord u2).ppqPosition)
    (h2 : (lastRecord u1).ppqLoopEnd = (lastRecord u2).ppqLoopEnd) :
    transportEvents eng isPlaying u1 = transportEvents eng isPlaying u2 ∧
      resolvedPpq eng u1 = resolvedPpq eng u2 := by
  simp only [transportEvents, resolvedPpq, resyncFlag, wrappedPpq, hl, hp, h1, h2, and_self]

theorem withBlock_lastPpq (u : ProcessingThread E) (b : List SyncData) :
    (u.withBlock b).lastPpq = u.lastPpq := rfl

theorem withBlock_owner (u : ProcessingThread E) (b : List SyncData) :
    (u.withBlock b).m_owner = u.m_owner := rfl

theorem withBlock_audio (u : ProcessingThread E) (b : List SyncData) :
    (u.withBlock b).audioSubBlocks0 = u.audioSubBlocks0 ∧
      (u.withBlock b).audioSubBlocks1 = u.audioSubBlocks1 := ⟨rfl, rfl⟩

theorem lastRecord_withBlock (u : ProcessingThread E) (b : List SyncData) :
    lastRecord (u.withBlock b) = b.getD (subBlockSize - 1) SyncData.init := rfl

theorem unpack_withBlock (eng : KProcessor E) (b1 b2 : List SyncData) (count : Nat) :
    ∀ (i : Nat) (t : ProcessingThread E),
      (∀ j, i ≤ j → j < i + count →
        (b1.getD j SyncData.init).left = (b2.getD j SyncData.init).left ∧
        (b1.getD j SyncData.init).right = (b2.getD j SyncData.init).right ∧
        (b1.getD j SyncData.init).noteOn = (b2.getD j SyncData.init).noteOn) →
      unpack eng count i (t.withBlock b1) = (unpack eng count i (t.withBlock b2)).withBlock b1 := by
  induction count with
  | zero => intro i t _; rfl
  | succ count ih =>
    intro i t h
    obtain ⟨hl, hr, hn⟩ := h i (le_refl _) (by omega)
    have hrest : ∀ j, i + 1 ≤ j → j < i + 1 + count →
        (b1.getD j SyncData.init).left = (b2.getD j SyncData.init).left ∧
        (b1.getD j SyncData.init).right = (b2.getD j SyncData.init).right ∧
        (b1.getD j SyncData.init).noteOn = (b2.getD j SyncData.init).noteOn :=
      fun j h1 h2 => h j (by omega) (by omega)
    simp only [unpack, withBlock]
    rw [hl, hr, hn]
    split
    · exact ih (i + 1)
        (call { t with
          audioSubBlocks0 := t.audioSubBlocks0.set i (b2.getD i SyncData.init).left
          audioSubBlocks1 := t.audioSubBlocks1.set i (b2.getD i SyncData.init).right }
          (eng.resetPosition t.m_owner.m_processor) Event.resetPosition) hrest
    · exact ih (i + 1)
        { t with
          audioSubBlocks0 := t.audioSubBlocks0.set i (b2.getD i SyncData.init).left
          audioSubBlocks1 := t.audioSubBlocks1.set i (b2.getD i SyncData.init).right } hrest

/-- C26. Only the transport of the last record counts: two sub-blocks of 32
records that agree on all `left`, `right` and `noteOn` fields and on the
`ppqPosition` and the `ppqLoopEnd` of record 31, processed from the same state
of the processing thread with the same `isPlaying` and the same engine, give
the same sequence of engine calls with the same arguments, the same new
`lastPpq` and the same new last time in quarters, whatever `ppqPosition` and
`ppqLoopEnd` the records 0 to 30 carry. -/
theorem last_record_transport (eng : KProcessor E) (isPlaying : Bool) (t : ProcessingThread E)
    (b1 b2 : List SyncData) (h32 : b1.length = subBlockSize)
    (hleft : b1.map (fun s => s.left) = b2.map (fun s => s.left))
    (hright : b1.map (fun s => s.right) = b2.map (fun s => s.right))
    (hnote : b1.map (fun s => s.noteOn) = b2.map (fun s => s.noteOn))
    (hppq : (b1.getD (subBlockSize - 1) SyncData.init).ppqPosition
      = (b2.getD (subBlockSize - 1) SyncData.init).ppqPosition)
    (hend : (b1.getD (subBlockSize - 1) SyncData.init).ppqLoopEnd
      = (b2.getD (subBlockSize - 1) SyncData.init).ppqLoopEnd) :
    b2.length = subBlockSize ∧
    newCalls (t.withBlock b1) (processSubBlock eng isPlaying (t.withBlock b1))
      = newCalls (t.withBlock b2) (processSubBlock eng isPlaying (t.withBlock b2)) ∧
    (processSubBlock eng isPlaying (t.withBlock b1)).lastPpq
      = (processSubBlock eng isPlaying (t.withBlock b2)).lastPpq ∧
    (processSubBlock eng isPlaying (t.withBlock b1)).m_owner.getLastPosInQtrs
      = (processSubBlock eng isPlaying (t.withBlock b2)).m_owner.getLastPosInQtrs := by
  have hlen : b2.length = subBlockSize := by
    have := congrArg List.length hleft
    simp only [List.length_map] at this
    omega
  have hagree : ∀ j, 0 ≤ j → j < 0 + subBlockSize →
      (b1.getD j SyncData.init).left = (b2.getD j SyncData.init).left ∧
      (b1.getD j SyncData.init).right = (b2.getD j SyncData.init).right ∧
      (b1.getD j SyncData.init).noteOn = (b2.getD j SyncData.init).noteOn := by
    intro j _ _
    have e1 := congrArg (fun l => l.getD j (SyncData.init).left) hleft
    have e2 := congrArg (fun l => l.getD j (SyncData.init).right) hright
    have e3 := congrArg (fun l => l.getD j (SyncData.init).noteOn) hnote
    simp only [List.getD_map] at e1 e2 e3
    exact ⟨e1, e2, e3⟩
  have hU := unpack_withBlock eng b1 b2 subBlockSize 0 t hagree
  have hsync : (unpack eng subBlockSize 0 (t.withBlock b2)).syncDataBlock = b2 :=
    (unpack_frame eng subBlockSize 0 (t.withBlock b2)).2.1
  obtain ⟨hte, hres⟩ := transportEvents_congr eng isPlaying
    (unpack eng subBlockSize 0 (t.withBlock b1)) (unpack eng subBlockSize 0 (t.withBlock b2))
    (by rw [hU, withBlock_lastPpq]) (by rw [hU, withBlock_owner])
    (by rw [hU, lastRecord_withBlock, hppq, lastRecord, hsync])
    (by rw [hU, lastRecord_withBlock, hend, lastRecord, hsync])
  have hcalls : (processSubBlock eng isPlaying (t.withBlock b1)).m_owner.calls
      = (processSubBlock eng isPlaying (t.withBlock b2)).m_owner.calls := by
    rw [processSubBlock_calls, processSubBlock_calls, hte, hU, withBlock_owner,
      (withBlock_audio _ _).1, (withBlock_audio _ _).2]
  refine ⟨hlen, ?_, ?_, ?_⟩
  · unfold newCalls
    rw [hcalls, withBlock_owner, withBlock_owner]
  · rw [(processSubBlock_spec eng isPlaying (t.withBlock b1)).2.1,
      (processSubBlock_spec eng isPlaying (t.withBlock b2)).2.1, hres]
  · show (processSubBlock eng isPlaying (t.withBlock b1)).m_owner.m_lastTimeInQuarters
      = (processSubBlock eng isPlaying (t.withBlock b2)).m_owner.m_lastTimeInQuarters
    rw [(processSubBlock_spec eng isPlaying (t.withBlock b1)).2.2.1,
      (processSubBlock_spec eng isPlaying (t.withBlock b2)).2.2.1]
    rw [lastRecord_withBlock, lastRecord_withBlock, hppq, withBlock_owner, withBlock_owner]

/-- Witness for C26: a sub-block whose records all carry the position `9.5` and
the loop end `4.0`, and one whose first 31 records carry the position `100`
without loop instead. -/
theorem last_record_transport_witness :
    newCalls ((start demoProcessor).withBlock (staleBlock (Dbl.fin (19 / 2)) (Dbl.fin 4)))
        (processSubBlock demoEngine true
          ((start demoProcessor).withBlock (staleBlock (Dbl.fin (19 / 2)) (Dbl.fin 4))))
      = newCalls ((start demoProcessor).withBlock (subBlockOf (Dbl.fin (19 / 2)) (Dbl.fin 4)))
        (processSubBlock demoEngine true
          ((start demoProcessor).withBlock (subBlockOf (Dbl.fin (19 / 2)) (Dbl.fin 4)))) ∧
    (processSubBlock demoEngine true
        ((start demoProcessor).withBlock (staleBlock (Dbl.fin (19 / 2)) (Dbl.fin 4)))).lastPpq
      = (processSubBlock demoEngine true
        ((start demoProcessor).withBlock (subBlockOf (Dbl.fin (19 / 2)) (Dbl.fin 4)))).lastPpq :=
  ⟨(last_record_transport demoEngine true (start demoProcessor)
      (staleBlock (Dbl.fin (19 / 2)) (Dbl.fin 4)) (subBlockOf (Dbl.fin (19 / 2)) (Dbl.fin 4))
      (by decide) (by decide!) (by decide!) (by decide!) (by decide!) (by decide!)).2.1,
    (last_record_transport demoEngine true (start demoProcessor)
      (staleBlock (Dbl.fin (19 / 2)) (Dbl.fin 4)) (subBlockOf (Dbl.fin (19 / 2)) (Dbl.fin 4))
      (by decide) (by decide!) (by decide!) (by decide!) (by decide!) (by decide!)).2.2.1⟩

theorem resolvedPpq_not_negative (eng : KProcessor E) (t : ProcessingThread E) :
    Dbl.ltz (resolvedPpq eng t) (Dbl.fin 0) = false ∧
      Dbl.eqz (resolvedPpq eng t) k_PpqInitialState = false ∧
      resolvedPpq eng t
        = (if Dbl.ltz (wrappedPpq t) (Dbl.fin 0) = true then Dbl.fin 0 else wrappedPpq t) := by
  have hres : resolvedPpq eng t
      = (if Dbl.ltz (wrappedPpq t) (Dbl.fin 0) = true then Dbl.fin 0 else wrappedPpq t) := by
    simp only [resolvedPpq, preRoll]
    split <;> rfl
  have hneg : Dbl.ltz (resolvedPpq eng t) (Dbl.fin 0) = false := by
    rw [hres]
    by_cases h : Dbl.ltz (wrappedPpq t) (Dbl.fin 0) = true
    · rw [if_pos h]; exact settled_zero
    · rw [if_neg h]; simpa using h
  refine ⟨hneg, ?_, hres⟩
  unfold Dbl.ltz at hneg
  rw [daz_zero] at hneg
  unfold Dbl.eqz
  rw [daz_initial]
  exact ne_initial_of_not_neg _ hneg

theorem feed_lastPpq (eng : KProcessor E) (steps : List (Bool × List SyncData)) :
    ∀ (t : ProcessingThread E), steps ≠ [] →
      Dbl.eqz (feed eng t steps).lastPpq k_PpqInitialState = false ∧
        Dbl.ltz (feed eng t steps).lastPpq (Dbl.fin 0) = false := by
  induction steps with
  | nil => intro t h; exact absurd rfl h
  | cons s rest ih =>
    intro t _
    obtain ⟨ip, block⟩ := s
    by_cases hr : rest = []
    · subst hr
      simp only [feed]
      rw [(processSubBlock_spec eng ip (t.withBlock block)).2.1]
      obtain ⟨a, b, _⟩ := resolvedPpq_not_negative eng
        (unpack eng subBlockSize 0 (t.withBlock block))
      exact ⟨b, a⟩
    · simp only [feed]
      exact ih _ hr

theorem fmod_bounds (x y : ℚ) (hy : 0 < y) :
    x - (Dbl.trunc (x / y) : ℚ) * y < y ∧ (0 ≤ x → 0 ≤ x - (Dbl.trunc (x / y) : ℚ) * y) := by
  by_cases hx : 0 ≤ x
  · obtain ⟨h1, h2⟩ := trunc_spec x y hx hy
    exact ⟨h2, fun _ => h1⟩
  · have hq : ¬ (0 ≤ x / y) := by
      intro h
      have := mul_nonneg h (le_of_lt hy)
      rw [div_mul_cancel₀ x (ne_of_gt hy)] at this
      exact hx this
    simp only [Dbl.trunc, hq, if_false]
    have h1 : x / y ≤ ((⌈x / y⌉ : Int) : ℚ) := Int.le_ceil _
    rw [div_le_iff₀ hy] at h1
    exact ⟨by linarith, fun h => absurd h hx⟩

/-- C28 fails on the code as stated.  After a sub-block whose ppq is a NaN,
`lastPpq` is that NaN and `lastPpq >= 0` is false; after a sub-block with the
position `+infinity` and the loop end `4.0` the loop modulo gives a NaN, so
`lastPpq < ppqLoopEnd` is false as well.  After a sub-block at the negative
subnormal position `-2^-1060` the value of `lastPpq` is `-2^-1060`, which is
negative; after a sub-block at position `5.0` with the loop end `2^-1060`,
which is finite and positive, `lastPpq` is `5.0`, not below the loop end. -/
theorem lastPpq_sentinel_counterexample :
    (processSubBlock demoEngine true
      ((start demoProcessor).withBlock (subBlockOf Dbl.nan Dbl.pinf))).lastPpq = Dbl.nan ∧
    Dbl.le (Dbl.fin 0) (processSubBlock demoEngine true
      ((start demoProcessor).withBlock (subBlockOf Dbl.nan Dbl.pinf))).lastPpq = false ∧
    Dbl.le (Dbl.fin 0) (processSubBlock demoEngine true
      ((start demoProcessor).withBlock (subBlockOf Dbl.pinf (Dbl.fin 4)))).lastPpq = false ∧
    Dbl.lt (processSubBlock demoEngine true
      ((start demoProcessor).withBlock (subBlockOf Dbl.pinf (Dbl.fin 4)))).lastPpq
      (Dbl.fin 4) = false ∧
    (processSubBlock demoEngine true subnormalPreRoll).lastPpq
      = Dbl.fin (-(Dbl.pow2 (-1060))) ∧
    Dbl.le (Dbl.fin 0) (processSubBlock demoEngine true subnormalPreRoll).lastPpq = false ∧
    (lastRecord subnormalLoop).ppqLoopEnd = Dbl.fin (Dbl.pow2 (-1060)) ∧
    Dbl.gt (lastRecord subnormalLoop).ppqLoopEnd (Dbl.fin 0) = true ∧
    (processSubBlock demoEngine true subnormalLoop).lastPpq = Dbl.fin 5 ∧
    Dbl.lt (processSubBlock demoEngine true subnormalLoop).lastPpq
      (lastRecord subnormalLoop).ppqLoopEnd = false := by
  decide!

/-- C28, amended. The sentinel of `lastPpq`: `lastPpq` is `k_PpqInitialState = -1`
before the first sub-block is processed; after every processed sub-block the
tests `lastPpq < 0` and `lastPpq == k_PpqInitialState` of the loop, which under
`ScopedNoDenormals` read a subnormal number as zero, are false, and `lastPpq`,
when it is a number, is greater than `-2^-1022`; it is `>= 0` whenever the
loop-wrapped ppq of that sub-block is neither a NaN nor a negative subnormal
number; it is a number `r` with `-2^-1022 < r < ppqLoopEnd`, and with `0 <= r`
when `ppqPosition >= 0`, when the sub-block had a finite `ppqPosition` and a
finite loop end `>= 2^-1022`.  Hence the test `lastPpq == k_PpqInitialState` is
true on the first sub-block and on no later one, for every sequence of
sub-blocks, negative ppq, ppq exactly `-1`, subnormal ppq and NaN included. -/
theorem lastPpq_sentinel (eng : KProcessor E) (owner : MiniProcessor E) :
    (start owner).lastPpq = k_PpqInitialState ∧
    (∀ (isPlaying : Bool) (t : ProcessingThread E),
      Dbl.ltz (processSubBlock eng isPlaying t).lastPpq (Dbl.fin 0) = false ∧
      Dbl.eqz (processSubBlock eng isPlaying t).lastPpq k_PpqInitialState = false ∧
      (∀ a : ℚ, (processSubBlock eng isPlaying t).lastPpq = Dbl.fin a → -Dbl.minNormal < a) ∧
      (wrappedPpq t ≠ Dbl.nan →
        (¬ ∃ a : ℚ, wrappedPpq t = Dbl.fin a ∧ -Dbl.minNormal < a ∧ a < 0) →
        Dbl.le (Dbl.fin 0) (processSubBlock eng isPlaying t).lastPpq = true) ∧
      (∀ x y : ℚ, (lastRecord t).ppqPosition = Dbl.fin x →
        (lastRecord t).ppqLoopEnd = Dbl.fin y → Dbl.minNormal ≤ y →
        ∃ r : ℚ, (processSubBlock eng isPlaying t).lastPpq = Dbl.fin r ∧
          -Dbl.minNormal < r ∧ r < y ∧ (0 ≤ x → 0 ≤ r))) ∧
    (∀ steps : List (Bool × List SyncData),
      Dbl.eqz (feed eng (start owner) steps).lastPpq k_PpqInitialState = true ↔ steps = []) := by
  have hm := minNormal_pos
  refine ⟨rfl, ?_, ?_⟩
  · intro isPlaying t
    obtain ⟨a, b, c⟩ := resolvedPpq_not_negative eng (unpack eng subBlockSize 0 t)
    have hl := (processSubBlock_spec eng isPlaying t).2.1
    rw [wrappedPpq_unpack] at c
    refine ⟨by rw [hl]; exact a, by rw [hl]; exact b, ?_, ?_, ?_⟩
    · intro q hq
      rw [hl] at hq
      rw [hq] at a
      exact (ltz_zero_false_iff q).mp a
    · intro hnan hsub
      rw [hl, c]
      by_cases hneg : Dbl.ltz (wrappedPpq t) (Dbl.fin 0) = true
      · rw [if_pos hneg]
        decide!
      · rw [if_neg hneg]
        cases hw : wrappedPpq t with
        | fin q =>
          have h1 : -Dbl.minNormal < q := by
            rw [hw] at hneg
            exact (ltz_zero_false_iff q).mp (by simpa using hneg)
          have h2 : 0 ≤ q := by
            by_contra hc
            exact hsub ⟨q, hw, h1, not_le.mp hc⟩
          simp [Dbl.le, h2]
        | pinf => rfl
        | ninf =>
          rw [hw] at hneg
          exact absurd ((ltz_zero_iff _).mpr (Or.inl rfl)) hneg
        | nan => exact absurd hw hnan
    · intro x y hx hy hy0
      have hypos : 0 < y := lt_of_lt_of_le hm hy0
      have hg : Dbl.gtz (Dbl.fin y) (Dbl.fin 0) = true :=
        (gtz_zero_iff _).mpr (Or.inr ⟨y, rfl, hy0⟩)
      have hw : wrappedPpq t = Dbl.fin (x - (Dbl.trunc (x / y) : ℚ) * y) := by
        simp [wrappedPpq, loopWrap, hx, hy, Dbl.isfinite, hg, Dbl.fmod, ne_of_gt hypos]
      obtain ⟨f1, f2⟩ := fmod_bounds x y hypos
      rw [hl, c, hw]
      by_cases hneg : Dbl.ltz (Dbl.fin (x - (Dbl.trunc (x / y) : ℚ) * y)) (Dbl.fin 0) = true
      · rw [if_pos hneg]
        exact ⟨0, rfl, by linarith, hypos, fun _ => le_refl _⟩
      · rw [if_neg hneg]
        exact ⟨x - (Dbl.trunc (x / y) : ℚ) * y, rfl,
          (ltz_zero_false_iff _).mp (by simpa using hneg), f1, f2⟩
  · intro steps
    constructor
    · intro h
      by_contra hne
      rw [(feed_lastPpq eng steps (start owner) hne).1] at h
      cases h
    · intro h
      subst h
      show Dbl.eqz k_PpqInitialState k_PpqInitialState = true
      decide!

/-- Witness for C28: a first sub-block at position `-1` exactly and one at `-5`
with loop end `4.0`: `lastPpq` is 0 after each, inside the loop, and the
sentinel test is false after the first. -/
theorem lastPpq_sentinel_witness :
    (∃ r : ℚ, (processSubBlock demoEngine true
        ((start demoProcessor).withBlock (subBlockOf (Dbl.fin (-5)) (Dbl.fin 4)))).lastPpq
        = Dbl.fin r ∧ -Dbl.minNormal < r ∧ r < 4 ∧ ((0 : ℚ) ≤ -5 → 0 ≤ r)) ∧
    (processSubBlock demoEngine true
      ((start demoProcessor).withBlock (subBlockOf (Dbl.fin (-5)) (Dbl.fin 4)))).lastPpq
      = Dbl.fin 0 ∧
    Dbl.le (Dbl.fin 0) (processSubBlock demoEngine true
      ((start demoProcessor).withBlock (subBlockOf (Dbl.fin (-1)) Dbl.pinf))).lastPpq = true ∧
    ¬ (Dbl.eqz (feed demoEngine (start demoProcessor)
        [(true, subBlockOf (Dbl.fin (-1)) Dbl.pinf)]).lastPpq k_PpqInitialState = true) :=
  ⟨((lastPpq_sentinel demoEngine demoProcessor).2.1 true
      ((start demoProcessor).withBlock (subBlockOf (Dbl.fin (-5)) (Dbl.fin 4)))).2.2.2.2
      (-5) 4 (by decide!) (by decide!) (by decide!),
    by decide!,
    ((lastPpq_sentinel demoEngine demoProcessor).2.1 true
      ((start demoProcessor).withBlock (subBlockOf (Dbl.fin (-1)) Dbl.pinf))).2.2.2.1
      (by decide!) (by
        rintro ⟨a, ha, h1, h2⟩
        have hw : wrappedPpq ((start demoProcessor).withBlock
            (subBlockOf (Dbl.fin (-1)) Dbl.pinf)) = Dbl.fin (-1) := by decide!
        rw [hw] at ha
        cases ha
        have := minNormal_lt_one
        linarith),
    fun h => absurd (((lastPpq_sentinel demoEngine demoProcessor).2.2
      [(true, subBlockOf (Dbl.fin (-1)) Dbl.pinf)]).mp h) (by decide)⟩

/-! ### The drain loop -/

theorem processArgs_append (a b : List Event) :
    processArgs (a ++ b) = processArgs a ++ processArgs b := by
  simp [processArgs]

theorem processArgs_replicate (k : Nat) :
    processArgs (List.replicate k Event.resetPosition) = [] := by
  induction k with
  | zero => rfl
  | succ k _ => simp [processArgs, List.replicate_succ]

theorem processArgs_transport (eng : KProcessor E) (isPlaying : Bool)
    (t : ProcessingThread E) : processArgs (transportEvents eng isPlaying t) = [] := by
  unfold transportEvents
  split <;> split <;> simp [processArgs]

theorem drain_mono (eng : KProcessor E) (isPlaying : Bool) (fuel : Nat) :
    ∀ (t t1 : ProcessingThread E), drain eng isPlaying fuel t = some t1 →
      drain eng isPlaying (fuel + 1) t = some t1 := by
  induction fuel with
  | zero => intro t t1 h; cases h
  | succ fuel ih =>
    intro t t1 h
    rw [drain_succ] at h
    rw [drain_succ]
    by_cases hc : toUInt32 t.m_owner.m_ringBuffer.getReadSpace ≥ subBlockSize
    · rw [if_pos hc] at h ⊢
      cases hread : readSubBlock t with
      | none => rw [hread] at h; cases h
      | some t2 =>
        rw [hread] at h
        exact ih _ _ h
    · rw [if_neg hc] at h ⊢
      exact h

theorem drain_mono_le (eng : KProcessor E) (isPlaying : Bool) (t t1 : ProcessingThread E)
    (fuel : Nat) (h : drain eng isPlaying fuel t = some t1) :
    ∀ fuel1, fuel ≤ fuel1 → drain eng isPlaying fuel1 t = some t1 := by
  intro fuel1 hle
  induction fuel1 with
  | zero =>
    have : fuel = 0 := by omega
    subst this
    exact h
  | succ n ih =>
    by_cases hn : fuel ≤ n
    · exact drain_mono eng isPlaying n t t1 (ih hn)
    · have : fuel = n + 1 := by omega
      subst this
      exact h

theorem subBlock_process (eng : KProcessor E) (isPlaying : Bool) (t : ProcessingThread E)
    (q : List SyncData) (h : Ready t q) (hq : subBlockSize ≤ q.length) :
    ∃ t1, readSubBlock t = some t1 ∧
      Ready (processSubBlock eng isPlaying t1) (q.drop subBlockSize) ∧
      (processSubBlock eng isPlaying t1).m_owner.m_numChannels = t.m_owner.m_numChannels ∧
      ∃ evs, (processSubBlock eng isPlaying t1).m_owner.calls = t.m_owner.calls ++ evs ∧
        processArgs evs = [((q.take subBlockSize).map (fun s => s.left),
          (q.take subBlockSize).map (fun s => s.right), t.m_owner.m_numChannels)] := by
  obtain ⟨t1, h1, h2, h3, _⟩ := subBlock_step eng isPlaying t q h hq
  obtain ⟨hh, hc, hb, h0, h1a⟩ := h
  obtain ⟨rb1, hr, _, _⟩ :=
    RingBuffer.read_of_holds t.m_owner.m_ringBuffer q subBlockSize hh hq (by simp [subBlockSize])
  have htake : (q.take subBlockSize).length = subBlockSize := by
    rw [List.length_take]; omega
  have hsync : q.take subBlockSize ++ t.syncDataBlock.drop (q.take subBlockSize).length
      = q.take subBlockSize := by
    rw [htake, List.drop_of_length_le (by omega), List.append_nil]
  have ht1 : t1 = { t with
      m_owner := { t.m_owner with m_ringBuffer := rb1 }
      syncDataBlock := q.take subBlockSize } := by
    rw [readSubBlock_eq, hr] at h1
    simp only [hsync, Option.some.injEq] at h1
    exact h1.symm
  refine ⟨t1, h1, h2, h3, ?_⟩
  obtain ⟨⟨k, hk⟩, _⟩ := processSubBlock_spec eng isPlaying t1
  obtain ⟨u0, u1⟩ := unpack_block eng t1 (by rw [ht1]; exact htake) (by rw [ht1]; exact h0)
    (by rw [ht1]; exact h1a)
  have hcalls : t1.m_owner.calls = t.m_owner.calls := by rw [ht1]
  have hsd : t1.syncDataBlock = q.take subBlockSize := by rw [ht1]
  have hnc : t1.m_owner.m_numChannels = t.m_owner.m_numChannels := by rw [ht1]
  rw [hcalls, u0, u1, hsd, hnc] at hk
  refine ⟨_, hk, ?_⟩
  rw [processArgs_append, processArgs_append, processArgs_replicate, processArgs_transport]
  simp [processArgs]

theorem drain_process (eng : KProcessor E) (isPlaying : Bool) (fuel : Nat) :
    ∀ (t : ProcessingThread E) (q : List SyncData), Ready t q →
      q.length / subBlockSize < fuel →
      ∃ t1 evs, drain eng isPlaying fuel t = some t1 ∧
        Ready t1 (q.drop (subBlockSize * (q.length / subBlockSize))) ∧
        t1.m_owner.calls = t.m_owner.calls ++ evs ∧
        processArgs evs = (List.range (q.length / subBlockSize)).map fun i =>
          (((q.drop (subBlockSize * i)).take subBlockSize).map (fun s => s.left),
            ((q.drop (subBlockSize * i)).take subBlockSize).map (fun s => s.right),
            t.m_owner.m_numChannels) := by
  induction fuel with
  | zero => intro t q _ h; exact absurd h (Nat.not_lt_zero _)
  | succ fuel ih =>
    intro t q hr hf
    have hrs := ready_readSpace t q hr
    have hu : toUInt32 t.m_owner.m_ringBuffer.getReadSpace = q.length := by
      have hlt : q.length < subBlockSize * k_ringBufferElements := by
        rw [← hr.2.1]; exact hr.1.2.2.2.2.1
      simp only [subBlockSize, k_ringBufferElements] at hlt
      rw [hrs]; unfold toUInt32; omega
    rw [drain_succ, hu]
    by_cases hq : subBlockSize ≤ q.length
    · rw [if_pos hq]
      obtain ⟨t1, h1, hr1, hn1, evs1, hc1, hp1⟩ := subBlock_process eng isPlaying t q hr hq
      rw [h1]
      simp only
      have hlen : (q.drop subBlockSize).length = q.length - subBlockSize := List.length_drop _ _
      have hdiv : q.length / subBlockSize = (q.length - subBlockSize) / subBlockSize + 1 := by
        simp only [subBlockSize] at hq ⊢; omega
      obtain ⟨t2, evs2, h2, hr2, hc2, hp2⟩ :=
        ih (processSubBlock eng isPlaying t1) (q.drop subBlockSize) hr1 (by rw [hlen]; omega)
      have hmul : subBlockSize * (q.length / subBlockSize)
          = subBlockSize + subBlockSize * ((q.length - subBlockSize) / subBlockSize) := by
        rw [hdiv]; ring
      refine ⟨t2, evs1 ++ evs2, h2, ?_, ?_, ?_⟩
      · rw [hmul, ← List.drop_drop]
        rw [hlen] at hr2
        rw [Nat.add_comm] at *
        simpa [List.drop_drop, Nat.add_comm] using hr2
      · rw [hc2, hc1, List.append_assoc]
      · rw [processArgs_append, hp1, hp2, hlen, hdiv, List.range_succ_eq_map, List.map_cons,
          List.map_map, hn1]
        simp only [Nat.mul_zero, List.drop_zero, List.singleton_append, List.cons.injEq,
          true_and]
        apply List.map_congr_left
        intro i _
        simp only [Function.comp, List.drop_drop]
        have e : subBlockSize + subBlockSize * i = subBlockSize * (i + 1) := by ring
        have e2 : subBlockSize * i + subBlockSize = subBlockSize * (i + 1) := by ring
        simp only [e, e2, Nat.succ_eq_add_one]
    · rw [if_neg hq]
      have hz : q.length / subBlockSize = 0 := by
        simp only [subBlockSize] at hq ⊢; omega
      exact ⟨t, [], rfl, by simpa [hz] using hr, by simp, by simp [hz, processArgs]⟩

theorem drain_exhausts (eng : KProcessor E) (isPlaying : Bool) (fuel : Nat) :
    ∀ (t : ProcessingThread E) (q : List SyncData), Ready t q →
      fuel ≤ q.length / subBlockSize → drain eng isPlaying fuel t = none := by
  induction fuel with
  | zero => intro t q _ _; rfl
  | succ fuel ih =>
    intro t q hr hf
    have hrs := ready_readSpace t q hr
    have hu : toUInt32 t.m_owner.m_ringBuffer.getReadSpace = q.length := by
      have hlt : q.length < subBlockSize * k_ringBufferElements := by
        rw [← hr.2.1]; exact hr.1.2.2.2.2.1
      simp only [subBlockSize, k_ringBufferElements] at hlt
      rw [hrs]; unfold toUInt32; omega
    have hq : subBlockSize ≤ q.length := by
      simp only [subBlockSize] at hf ⊢; omega
    rw [drain_succ, hu, if_pos hq]
    obtain ⟨t1, h1, hr1, _⟩ := subBlock_step eng isPlaying t q hr hq
    rw [h1]
    simp only
    have hlen : (q.drop subBlockSize).length = q.length - subBlockSize := List.length_drop _ _
    apply ih _ (q.drop subBlockSize) hr1
    rw [hlen]
    simp only [subBlockSize] at hf hq ⊢
    omega

/-- C25. The drain loop terminates and consumes whole sub-blocks only: entered
with a ring buffer of capacity 131072 that holds `R` unread records, with no
push in between, the loop makes exactly `R / 32` iterations (a bound of `R / 32`
iterations or fewer is exhausted, every larger bound gives the same final
state); the iteration `i` reads the 32 records from `32 i` on and calls
`process` once, with their left and right samples; on exit
`getReadSpace() = R mod 32 < 32` and the records not read stay in the buffer. -/
theorem drain_whole_subBlocks (eng : KProcessor E) (isPlaying : Bool) (t : ProcessingThread E)
    (q : List SyncData) (hr : Ready t q) :
    t.m_owner.m_ringBuffer.m_capacity = 131072 ∧
    t.m_owner.m_ringBuffer.getReadSpace = (q.length : Int) ∧
    (∀ fuel, fuel ≤ q.length / subBlockSize → drain eng isPlaying fuel t = none) ∧
    ∃ t1, (∀ fuel, q.length / subBlockSize < fuel → drain eng isPlaying fuel t = some t1) ∧
      processArgs (newCalls t t1) = (List.range (q.length / subBlockSize)).map (fun i =>
        (((q.drop (subBlockSize * i)).take subBlockSize).map (fun s => s.left),
          ((q.drop (subBlockSize * i)).take subBlockSize).map (fun s => s.right),
          t.m_owner.m_numChannels)) ∧
      (processArgs (newCalls t t1)).length = q.length / subBlockSize ∧
      t1.m_owner.m_ringBuffer.getReadSpace = ((q.length % subBlockSize : Nat) : Int) ∧
      q.length % subBlockSize < 32 ∧
      Ready t1 (q.drop (subBlockSize * (q.length / subBlockSize))) := by
  obtain ⟨t1, evs, h1, h2, h3, h4⟩ := drain_process eng isPlaying (q.length / subBlockSize + 1)
    t q hr (Nat.lt_succ_self _)
  have hnew : newCalls t t1 = evs := by
    unfold newCalls
    rw [h3, List.drop_left]
  refine ⟨hr.2.1, ready_readSpace t q hr, fun fuel hf => drain_exhausts eng isPlaying fuel t q hr hf,
    t1, fun fuel hf => drain_mono_le eng isPlaying t t1 _ h1 fuel (by omega), ?_, ?_, ?_, ?_, h2⟩
  · rw [hnew, h4]
  · rw [hnew, h4, List.length_map, List.length_range]
  · rw [ready_readSpace t1 _ h2, List.length_drop]
    congr 1
    have := Nat.mod_add_div q.length subBlockSize
    omega
  · exact Nat.mod_lt _ (by decide)

/-- Witness for C25: after a stereo block of 70 samples the drain loop makes two
iterations and leaves 6 records. -/
theorem drain_whole_subBlocks_witness :
    drain demoEngine true 2 (start (demoAfterBlock none (demoBuffer 70))) = none ∧
    ∃ t1, drain demoEngine true 3 (start (demoAfterBlock none (demoBuffer 70))) = some t1 ∧
      (processArgs (newCalls (start (demoAfterBlock none (demoBuffer 70))) t1)).length = 2 ∧
      t1.m_owner.m_ringBuffer.getReadSpace = 6 := by
  obtain ⟨_, _, h3, t1, h4, _, h6, h7, _⟩ := drain_whole_subBlocks demoEngine true
    (start (demoAfterBlock none (demoBuffer 70)))
    (blockRecords none (demoBuffer 70) demoProcessor.m_playhead)
    (ready_demoAfterBlock _ _ (by decide))
  rw [blockRecords_length] at h3 h4 h6 h7
  exact ⟨h3 2 (by decide), t1, h4 3 (by decide), h6, h7⟩

end ProcessingThread

/-! ### What a run never does: no reset of the position, two channels -/

theorem mem_pushAll {T : Type} (vs : List T) :
    ∀ (rb : RingBuffer T) (s : T), s ∈ (RingBuffer.pushAll rb vs).m_buffer →
      s ∈ rb.m_buffer ∨ s ∈ vs := by
  induction vs with
  | nil => intro rb s h; exact Or.inl h
  | cons v vs ih =>
    intro rb s h
    rcases ih (rb.push v) s h with h1 | h1
    · rcases List.mem_or_eq_of_mem_set h1 with h2 | h2
      · exact Or.inl h2
      · exact Or.inr (by rw [h2]; exact List.mem_cons_self _ _)
    · exact Or.inr (List.mem_cons_of_mem _ h1)

theorem readAux_mem {T : Type} (fuel : Nat) :
    ∀ (rb rb1 : RingBuffer T) (n : Int) (out : List T),
      RingBuffer.readAux fuel rb n = some (out, rb1) →
      (∀ s ∈ out, s ∈ rb.m_buffer) ∧ rb1.m_buffer = rb.m_buffer := by
  induction fuel with
  | zero => intro rb rb1 n out h; cases h
  | succ fuel ih =>
    intro rb rb1 n out h
    rw [RingBuffer.readAux] at h
    simp only at h
    have hchunk : ∀ (k : Nat), ∀ s ∈ (rb.m_buffer.drop rb.m_tail).take k, s ∈ rb.m_buffer :=
      fun k s hs => List.mem_of_mem_drop (List.mem_of_mem_take hs)
    by_cases hn : n > 0
    · rw [if_pos hn] at h
      cases hrec : RingBuffer.readAux fuel
          { rb with m_tail := toSizeT ((rb.m_tail : Int) +
            (min (toSizeT ((rb.m_capacity : Int) - rb.m_tail)) (toSizeT n) : Nat))
              % rb.m_capacity }
          (toInt32 ((toSizeT n : Int) -
            (min (toSizeT ((rb.m_capacity : Int) - rb.m_tail)) (toSizeT n) : Nat))) with
      | none => rw [hrec] at h; cases h
      | some r =>
        obtain ⟨rest, rb2⟩ := r
        rw [hrec] at h
        simp only [Option.some.injEq, Prod.mk.injEq] at h
        obtain ⟨h1, h2⟩ := h
        obtain ⟨g1, g2⟩ := ih _ _ _ _ hrec
        subst h1 h2
        refine ⟨?_, g2⟩
        intro s hs
        rcases List.mem_append.mp hs with hs1 | hs1
        · exact hchunk _ s hs1
        · exact g1 s hs1
    · rw [if_neg hn] at h
      simp only [Option.some.injEq, Prod.mk.injEq] at h
      obtain ⟨h1, h2⟩ := h
      subst h1 h2
      exact ⟨hchunk _, rfl⟩

namespace ProcessingThread
variable {E : Type}

theorem unpack_quiet (eng : KProcessor E) (count : Nat) :
    ∀ (i : Nat) (t : ProcessingThread E), (∀ s ∈ t.syncDataBlock, s.noteOn = false) →
      (unpack eng count i t).m_owner.calls = t.m_owner.calls := by
  induction count with
  | zero => intro i t _; rfl
  | succ count ih =>
    intro i t h
    have hoff : (t.syncDataBlock.getD i SyncData.init).noteOn = false := by
      by_cases hi : i < t.syncDataBlock.length
      · rw [List.getD_eq_getElem _ _ hi]
        exact h _ (List.getElem_mem _)
      · rw [List.getD_eq_default _ _ (by omega)]
        rfl
    simp only [unpack, hoff]
    exact ih (i + 1) _ h

theorem mem_transportEvents (eng : KProcessor E) (isPlaying : Bool) (t : ProcessingThread E)
    (ev : Event) (h : ev ∈ transportEvents eng isPlaying t) :
    ev ≠ Event.resetPosition ∧ ∀ l r n, ev ≠ Event.process l r n := by
  unfold transportEvents at h
  simp only [List.mem_append, List.mem_cons, List.mem_singleton, List.not_mem_nil,
    or_false] at h
  rcases h with (h | h | h) | h
  · split at h
    · cases h
    · simp only [List.mem_singleton] at h
      subst h
      exact ⟨by simp, by simp⟩
  · subst h; exact ⟨by simp, by simp⟩
  · subst h; exact ⟨by simp, by simp⟩
  · split at h
    · simp only [List.mem_singleton] at h
      subst h
      exact ⟨by simp, by simp⟩
    · cases h

theorem processSubBlock_quiet (eng : KProcessor E) (isPlaying : Bool) (t : ProcessingThread E)
    (h : Quiet t) (h2 : t.m_owner.m_numChannels = 2) :
    Quiet (processSubBlock eng isPlaying t) ∧
      (processSubBlock eng isPlaying t).m_owner.m_numChannels = 2 ∧
      Event.resetPosition ∉ newCalls t (processSubBlock eng isPlaying t) := by
  obtain ⟨q1, q2, _, q4, q5⟩ := h
  obtain ⟨_, _, _, p4, p5⟩ := processSubBlock_spec eng isPlaying t
  obtain ⟨_, _, a3⟩ := processSubBlock_audio eng isPlaying t
  have hcalls := processSubBlock_calls eng isPlaying t
  rw [unpack_quiet eng subBlockSize 0 t q2, (unpack_frame eng subBlockSize 0 t).2.2.2.1, h2]
    at hcalls
  have hnew : ∀ ev, ev ∈ transportEvents eng isPlaying (unpack eng subBlockSize 0 t) ++
      [Event.process (unpack eng subBlockSize 0 t).audioSubBlocks0
        (unpack eng subBlockSize 0 t).audioSubBlocks1 2] →
      ev ≠ Event.resetPosition ∧ ∀ l r n, ev = Event.process l r n → n = 2 := by
    intro ev hev
    rcases List.mem_append.mp hev with h1 | h1
    · obtain ⟨e1, e2⟩ := mem_transportEvents eng isPlaying _ ev h1
      exact ⟨e1, fun l r n he => absurd he (e2 l r n)⟩
    · simp only [List.mem_singleton] at h1
      subst h1
      refine ⟨by simp, ?_⟩
      intro l r n he
      simp only [Event.process.injEq] at he
      exact he.2.2.symm
  refine ⟨⟨by rw [p4]; exact q1, by rw [a3]; exact q2, Or.inr (by rw [p5]; exact h2), ?_, ?_⟩,
    by rw [p5]; exact h2, ?_⟩
  · rw [hcalls, List.append_assoc]
    intro hmem
    rcases List.mem_append.mp hmem with h1 | h1
    · exact q4 h1
    · exact (hnew _ h1).1 rfl
  · intro l r n hmem
    rw [hcalls, List.append_assoc] at hmem
    rcases List.mem_append.mp hmem with h1 | h1
    · exact q5 l r n h1
    · exact (hnew _ h1).2 l r n rfl
  · unfold newCalls
    rw [hcalls, List.append_assoc, List.drop_left]
    intro hmem
    exact (hnew _ hmem).1 rfl

theorem readSubBlock_quiet (t t1 : ProcessingThread E) (hread : readSubBlock t = some t1)
    (h : Quiet t) : Quiet t1 ∧ t1.m_owner.m_numChannels = t.m_owner.m_numChannels := by
  obtain ⟨q1, q2, q3, q4, q5⟩ := h
  rw [readSubBlock_eq] at hread
  cases hr : t.m_owner.m_ringBuffer.read (subBlockSize : Int) with
  | none => rw [hr] at hread; cases hread
  | some r =>
    obtain ⟨out, rb⟩ := r
    rw [hr] at hread
    simp only [Option.some.injEq] at hread
    subst hread
    obtain ⟨g1, g2⟩ := readAux_mem _ _ _ _ _ hr
    refine ⟨⟨?_, ?_, q3, q4, q5⟩, rfl⟩
    · intro s hs
      exact q1 s (by rw [← g2]; exact hs)
    · intro s hs
      rcases List.mem_append.mp hs with h1 | h1
      · exact q1 s (g1 s h1)
      · exact q2 s (List.mem_of_mem_drop h1)

theorem drain_quiet (eng : KProcessor E) (isPlaying : Bool) (fuel : Nat) :
    ∀ (t t1 : ProcessingThread E), drain eng isPlaying fuel t = some t1 → Quiet t →
      t.m_owner.m_numChannels = 2 → Quiet t1 := by
  induction fuel with
  | zero => intro t t1 h; cases h
  | succ fuel ih =>
    intro t t1 h hq h2
    rw [drain_succ] at h
    by_cases hc : toUInt32 t.m_owner.m_ringBuffer.getReadSpace ≥ subBlockSize
    · rw [if_pos hc] at h
      cases hread : readSubBlock t with
      | none => rw [hread] at h; cases h
      | some t2 =>
        rw [hread] at h
        obtain ⟨hq2, hn2⟩ := readSubBlock_quiet t t2 hread hq
        obtain ⟨hq3, hn3, _⟩ := processSubBlock_quiet eng isPlaying t2 hq2 (by rw [hn2]; exact h2)
        exact ih _ _ h hq3 hn3
    · rw [if_neg hc] at h
      cases h
      exact hq

theorem quiet_call (t : ProcessingThread E) (engine : E) (ev : Event) (h : Quiet t)
    (h1 : ev ≠ Event.resetPosition) (h2 : ∀ l r n, ev ≠ Event.process l r n) :
    Quiet (t.call engine ev) := by
  obtain ⟨q1, q2, q3, q4, q5⟩ := h
  refine ⟨q1, q2, q3, ?_, ?_⟩
  · intro hmem
    rcases List.mem_append.mp hmem with h3 | h3
    · exact q4 h3
    · simp only [List.mem_singleton] at h3
      exact h1 h3.symm
  · intro l r n hmem
    rcases List.mem_append.mp hmem with h3 | h3
    · exact q5 l r n h3
    · simp only [List.mem_singleton] at h3
      exact absurd h3.symm (h2 l r n)

theorem pushParameters_quiet (eng : KProcessor E) (bpm : Dbl) (n : Int)
    (t : ProcessingThread E) (h : Quiet t) : Quiet (pushParameters eng bpm n t) := by
  unfold pushParameters
  simp only
  split <;> split
  · exact quiet_call _ _ _ (quiet_call _ _ _ h (by simp) (by simp)) (by simp) (by simp)
  · exact quiet_call _ _ _ h (by simp) (by simp)
  · exact quiet_call _ _ _ h (by simp) (by simp)
  · exact h

theorem iteration_quiet (eng : KProcessor E) (toFloat : Dbl → Dbl) (t t1 : ProcessingThread E)
    (hit : iteration eng toFloat t = some t1) (h : Quiet t) : Quiet t1 := by
  unfold iteration at hit
  by_cases hg : t.m_owner.m_numChannels > 0 ∧ t.m_owner.m_ringBuffer.getReadSpace > 0
  · rw [if_pos hg] at hit
    simp only [] at hit
    have h2 : t.m_owner.m_numChannels = 2 := by
      rcases h.2.2.1 with h0 | h0
      · omega
      · exact h0
    have hq1 : Quiet (t.call (eng.prepare t.m_owner.m_processor).2
        (Event.prepare (eng.prepare t.m_owner.m_processor).1)) :=
      quiet_call _ _ _ h (by simp) (by simp)
    by_cases hp : (eng.prepare t.m_owner.m_processor).1 = true
    · rw [if_neg (by rw [hp]; simp)] at hit
      have hq2 := pushParameters_quiet eng
        (snapshot toFloat (t.call (eng.prepare t.m_owner.m_processor).2
          (Event.prepare (eng.prepare t.m_owner.m_processor).1))).2.1
        (snapshot toFloat (t.call (eng.prepare t.m_owner.m_processor).2
          (Event.prepare (eng.prepare t.m_owner.m_processor).1))).2.2 _ hq1
      have hn2 := (pushParameters_frame eng
        (snapshot toFloat (t.call (eng.prepare t.m_owner.m_processor).2
          (Event.prepare (eng.prepare t.m_owner.m_processor).1))).2.1
        (snapshot toFloat (t.call (eng.prepare t.m_owner.m_processor).2
          (Event.prepare (eng.prepare t.m_owner.m_processor).1))).2.2
        (t.call (eng.prepare t.m_owner.m_processor).2
          (Event.prepare (eng.prepare t.m_owner.m_processor).1))).2.2.1
      cases hd : drain eng
          (snapshot toFloat (t.call (eng.prepare t.m_owner.m_processor).2
            (Event.prepare (eng.prepare t.m_owner.m_processor).1))).1
          (toUInt32 (pushParameters eng
            (snapshot toFloat (t.call (eng.prepare t.m_owner.m_processor).2
              (Event.prepare (eng.prepare t.m_owner.m_processor).1))).2.1
            (snapshot toFloat (t.call (eng.prepare t.m_owner.m_processor).2
              (Event.prepare (eng.prepare t.m_owner.m_processor).1))).2.2
            (t.call (eng.prepare t.m_owner.m_processor).2
              (Event.prepare (eng.prepare t.m_owner.m_processor).1))).m_owner.m_ringBuffer.getReadSpace
            / subBlockSize + 1)
          (pushParameters eng
            (snapshot toFloat (t.call (eng.prepare t.m_owner.m_processor).2
              (Event.prepare (eng.prepare t.m_owner.m_processor).1))).2.1
            (snapshot toFloat (t.call (eng.prepare t.m_owner.m_processor).2
              (Event.prepare (eng.prepare t.m_owner.m_processor).1))).2.2
            (t.call (eng.prepare t.m_owner.m_processor).2
              (Event.prepare (eng.prepare t.m_owner.m_processor).1))) with
      | none => rw [hd] at hit; cases hit
      | some t3 =>
        rw [hd] at hit
        simp only [Option.some.injEq] at hit
        subst hit
        have hq3 := drain_quiet eng _ _ _ t3 hd hq2 (by rw [hn2]; exact h2)
        exact quiet_call _ _ _ hq3 (by simp) (by simp)
    · rw [if_pos (by simpa using hp)] at hit
      simp only [Option.some.injEq] at hit
      subst hit
      exact hq1
  · rw [if_neg hg] at hit
    simp only [Option.some.injEq] at hit
    subst hit
    exact quiet_call _ _ _ h (by simp) (by simp)

theorem processBlock_quiet (playHead : Option AudioPlayHead) (buffer : AudioSampleBuffer)
    (midi : List Int) (t : ProcessingThread E) (m : MiniProcessor E)
    (hpb : processBlock playHead buffer midi t.m_owner = some m) (h : Quiet t) :
    Quiet { t with m_owner := m } := by
  obtain ⟨q1, q2, _, q4, q5⟩ := h
  obtain ⟨m1, h1, h2, h3, _, _, _, h7, _⟩ := processBlock_records playHead buffer midi t.m_owner
  rw [hpb] at h1
  cases h1
  refine ⟨?_, q2, Or.inr h3, by rw [h7]; exact q4, by rw [h7]; exact q5⟩
  intro s hs
  rw [h2] at hs
  rcases mem_pushAll _ _ s hs with hs1 | hs1
  · exact q1 s hs1
  · exact (blockRecords_mem playHead buffer t.m_owner.m_playhead s hs1).2.2

end ProcessingThread

theorem runSteps_quiet {E : Type} (eng : KProcessor E) (toFloat : Dbl → Dbl)
    (steps : List Step) :
    ∀ (t t1 : ProcessingThread E), runSteps eng toFloat t steps = some t1 → Quiet t →
      Quiet t1 := by
  induction steps with
  | nil =>
    intro t t1 h hq
    simp only [runSteps, Option.some.injEq] at h
    subst h
    exact hq
  | cons s rest ih =>
    intro t t1 h hq
    cases s with
    | block playHead buffer midi =>
      simp only [runSteps] at h
      cases hpb : processBlock playHead buffer midi t.m_owner with
      | none => rw [hpb] at h; cases h
      | some m =>
        rw [hpb] at h
        exact ih _ _ h (ProcessingThread.processBlock_quiet playHead buffer midi t m hpb hq)
    | drain =>
      simp only [runSteps] at h
      cases hit : ProcessingThread.iteration eng toFloat t with
      | none => rw [hit] at h; cases h
      | some t2 =>
        rw [hit] at h
        exact ih _ _ h (ProcessingThread.iteration_quiet eng toFloat t t2 hit hq)

theorem quiet_start {E : Type} (eng : KProcessor E) (engine : E)
    (playhead : CurrentPositionInfo) (valid : Bool) :
    Quiet (ProcessingThread.start (MiniProcessor.construct eng engine playhead valid)) := by
  refine ⟨?_, ?_, Or.inl rfl, ?_, ?_⟩
  · intro s hs
    rw [List.eq_of_mem_replicate hs]
    rfl
  · intro s hs
    rw [List.eq_of_mem_replicate hs]
    rfl
  · intro h
    simp [ProcessingThread.start, MiniProcessor.construct] at h
  · intro l r n h
    simp [ProcessingThread.start, MiniProcessor.construct] at h

/-- C21. The trigger feature is disabled: for every `processBlock` call, whatever
events the MIDI buffer holds and at whatever sample offsets, the call returns
and every record pushed has `noteOn = false`; a sub-block whose records have
`noteOn = false` is processed without a `resetPosition` call; and in every
run of `processBlock` calls and iterations of the processing loop from
construction, no `resetPosition` call is made. -/
theorem trigger_disabled {E : Type} (eng : KProcessor E) (toFloat : Dbl → Dbl) (engine : E)
    (playhead : CurrentPositionInfo) (valid : Bool) :
    (∀ (playHead : Option AudioPlayHead) (buffer : AudioSampleBuffer) (midi : List Int)
        (m : MiniProcessor E),
      ∃ (m1 : MiniProcessor E) (recs : List SyncData),
        processBlock playHead buffer midi m = some m1 ∧
        m1.m_ringBuffer = RingBuffer.pushAll m.m_ringBuffer recs ∧
        recs.length = buffer.numSamples ∧ ∀ s ∈ recs, s.noteOn = false) ∧
    (∀ (isPlaying : Bool) (t : ProcessingThread E),
      (∀ s ∈ t.syncDataBlock, s.noteOn = false) →
        Event.resetPosition ∉
          ProcessingThread.newCalls t (ProcessingThread.processSubBlock eng isPlaying t)) ∧
    (∀ (steps : List Step) (t : ProcessingThread E),
      runSteps eng toFloat
          (ProcessingThread.start (MiniProcessor.construct eng engine playhead valid)) steps
        = some t →
      Event.resetPosition ∉ t.m_owner.calls) := by
  refine ⟨?_, ?_, ?_⟩
  · intro playHead buffer midi m
    obtain ⟨m1, h1, h2, _⟩ := processBlock_records playHead buffer midi m
    exact ⟨m1, blockRecords playHead buffer m.m_playhead, h1, h2,
      blockRecords_length playHead buffer m.m_playhead,
      fun s hs => (blockRecords_mem playHead buffer m.m_playhead s hs).2.2⟩
  · intro isPlaying t hoff
    have hcalls := ProcessingThread.processSubBlock_calls eng isPlaying t
    rw [ProcessingThread.unpack_quiet eng subBlockSize 0 t hoff] at hcalls
    unfold ProcessingThread.newCalls
    rw [hcalls, List.append_assoc, List.drop_left]
    intro hmem
    rcases List.mem_append.mp hmem with h1 | h1
    · exact (ProcessingThread.mem_transportEvents eng isPlaying _ _ h1).1 rfl
    · simp at h1
  · intro steps t hrun
    exact (runSteps_quiet eng toFloat steps _ t hrun
      (quiet_start eng engine playhead valid)).2.2.2.1

/-- Witness for C21: the run of a schedule whose blocks carry MIDI events at the
offsets 0, 5, 39 and 7 completes on the stand-in engine, with two sub-blocks
processed and no `resetPosition` call. -/
theorem trigger_disabled_witness :
    ∃ t, runSteps demoEngine id (ProcessingThread.start demoProcessor) mixedSchedule = some t ∧
      (processArgs t.m_owner.calls).length = 2 ∧
      Event.resetPosition ∉ t.m_owner.calls := by
  cases hrun : runSteps demoEngine id (ProcessingThread.start demoProcessor) mixedSchedule with
  | none =>
    have hsome : (runSteps demoEngine id (ProcessingThread.start demoProcessor)
        mixedSchedule).isSome = true := by decide!
    rw [hrun] at hsome
    cases hsome
  | some t =>
    have hlen : (runSteps demoEngine id (ProcessingThread.start demoProcessor)
        mixedSchedule).map (fun u => (processArgs u.m_owner.calls).length) = some 2 := by
      decide!
    rw [hrun] at hlen
    exact ⟨t, rfl, by simpa using hlen,
      (trigger_disabled demoEngine id { playing := false, initial := true }
        { isPlaying := false, bpm := Dbl.fin 0, timeSigNumerator := 0, ppqPosition := Dbl.fin 0,
          isLooping := false, ppqLoopEnd := Dbl.fin 0 } false).2.2 mixedSchedule t hrun⟩

/-- C30. The effective channel count is always 2: every `processBlock` call,
whatever the number of channels of its input, returns with `m_numChannels = 2`
and pushes one record for each of the `numSamples` samples, so the early
return is taken for `numSamples = 0` only; the record `k` has `left` and
`right` equal to the sample `k` of channel 0 and of channel 1 of the
processing buffer, so the zero of the fallback is never what `right` keeps;
for an input of two or more channels these are the samples of channels 0 and
1 of the input, no other channel reaching the records; and in every run from
construction each `process` call is told 2 channels. -/
theorem channel_count_two {E : Type} (eng : KProcessor E) (toFloat : Dbl → Dbl) (engine : E)
    (playhead : CurrentPositionInfo) (valid : Bool) :
    (∀ (playHead : Option AudioPlayHead) (buffer : AudioSampleBuffer) (midi : List Int)
        (m : MiniProcessor E),
      ∃ (m1 : MiniProcessor E) (recs : List SyncData),
        processBlock playHead buffer midi m = some m1 ∧
        m1.m_numChannels = 2 ∧
        m1.m_ringBuffer = RingBuffer.pushAll m.m_ringBuffer recs ∧
        recs.length = buffer.numSamples ∧
        (∀ k, k < buffer.numSamples → ∃ r, recs[k]? = some r ∧
          r.left = (processingBufferOf buffer).sample 0 k ∧
          r.right = (processingBufferOf buffer).sample 1 k) ∧
        (2 ≤ buffer.channels.length →
          ∀ k, k < buffer.numSamples → ∃ r, recs[k]? = some r ∧
            r.left = buffer.sample 0 k ∧ r.right = buffer.sample 1 k)) ∧
    (∀ (steps : List Step) (t : ProcessingThread E),
      runSteps eng toFloat
          (ProcessingThread.start (MiniProcessor.construct eng engine playhead valid)) steps
        = some t →
      (t.m_owner.m_numChannels = 0 ∨ t.m_owner.m_numChannels = 2) ∧
      ∀ l r n, Event.process l r n ∈ t.m_owner.calls → n = 2) := by
  refine ⟨?_, ?_⟩
  · intro playHead buffer midi m
    obtain ⟨m1, h1, h2, h3, _⟩ := processBlock_records playHead buffer midi m
    refine ⟨m1, blockRecords playHead buffer m.m_playhead, h1, h3, h2,
      blockRecords_length playHead buffer m.m_playhead, ?_, ?_⟩
    · intro k hk
      exact ⟨_, blockRecords_get playHead buffer m.m_playhead k hk, rfl,
        by simp [recordAt]⟩
    · intro hch k hk
      have hpb : processingBufferOf buffer = buffer := by
        unfold processingBufferOf AudioSampleBuffer.getNumChannels
        rw [if_neg (by omega)]
      refine ⟨_, blockRecords_get playHead buffer m.m_playhead k hk, ?_, ?_⟩
      · rw [hpb]; rfl
      · rw [hpb]; simp [recordAt]
  · intro steps t hrun
    obtain ⟨_, _, q3, _, q5⟩ := runSteps_quiet eng toFloat steps _ t hrun
      (quiet_start eng engine playhead valid)
    exact ⟨q3, q5⟩

/-- Witness for C30: a block of three channels: the records carry the samples of
channels 0 and 1; and the run of a schedule with inputs of one, of three and
of no channel completes with two `process` calls, each told 2 channels. -/
theorem channel_count_two_witness :
    (∃ (m1 : MiniProcessor DemoState) (recs : List SyncData),
      processBlock none (wideBuffer 3) [] demoProcessor = some m1 ∧
      m1.m_numChannels = 2 ∧ recs.length = 3 ∧
      ∃ r, recs[2]? = some r ∧ r.left = Dbl.fin 2 ∧ r.right = Dbl.fin (-2)) ∧
    ∃ t, runSteps demoEngine id (ProcessingThread.start demoProcessor) mixedSchedule = some t ∧
      (processArgs t.m_owner.calls).length = 2 ∧
      ∀ l r n, Event.process l r n ∈ t.m_owner.calls → n = 2 := by
  obtain ⟨hblock, hruns⟩ := channel_count_two demoEngine id { playing := false, initial := true }
    { isPlaying := false, bpm := Dbl.fin 0, timeSigNumerator := 0, ppqPosition := Dbl.fin 0,
      isLooping := false, ppqLoopEnd := Dbl.fin 0 } false
  constructor
  · obtain ⟨m1, recs, h1, h2, _, h4, _, h6⟩ := hblock none (wideBuffer 3) [] demoProcessor
    obtain ⟨r, g1, g2, g3⟩ := h6 (by decide) 2 (by decide)
    exact ⟨m1, recs, h1, h2, h4, r, g1, by rw [g2]; decide!, by rw [g3]; decide!⟩
  · cases hrun : runSteps demoEngine id (ProcessingThread.start demoProcessor) mixedSchedule with
    | none =>
      have hsome : (runSteps demoEngine id (ProcessingThread.start demoProcessor)
          mixedSchedule).isSome = true := by decide!
      rw [hrun] at hsome
      cases hsome
    | some t =>
      have hlen : (runSteps demoEngine id (ProcessingThread.start demoProcessor)
          mixedSchedule).map (fun u => (processArgs u.m_owner.calls).length) = some 2 := by
        decide!
      rw [hrun] at hlen
      exact ⟨t, rfl, by simpa using hlen, (hruns mixedSchedule t hrun).2⟩

end spectrex
